import Mathlib

/-!
nmapify: line classification and display state.

A shallow embedding of `main.go`.

* A Go `string` is a `List Char` (the scanned process output is taken to be valid UTF-8, which
  is what the patterns of `processOutput` work on rune by rune).
* A line is what `scanner.Text()` returns for the default split function `bufio.ScanLines`:
  it holds no line feed. Theorems about every line of the process carry this as the
  hypothesis that the line feed is not a member of the line.
* A `float64` is the exact rational value of a finite binary64 number; where the source rounds
  (reading the percentage with `fmt.Sscanf`, dividing and multiplying in
  `createColorProgressBar`) the model rounds to the nearest binary64 value, ties to even.
* The four patterns compiled in `processOutput` are values of `Regex`, an abstract syntax for
  the fragment of RE2 they use, run by a backtracking matcher that lists the matches at a
  position in the order of preference of Go's leftmost-first semantics.
* `processLine` is the body of the `for scanner.Scan()` loop in `processOutput`: what it sends
  on `statusChan` for one line (`none` when the iteration sends nothing).
* `displayUpdate` is the body of the `for update := range statusChan` loop in
  `displayStatusUpdates`: the new values of its four variables and the text it writes to
  standard output.
* `main` is the function `main` as a function of its arguments and of what the calls on `cmd`
  return; `ProcessState` and `WaitError` are the values of the package `os/exec` it inspects.
* `step` is one move of one of the four goroutines (`main`, the two pumps, the renderer) on
  the state they share: the two channels are their buffers, a send blocks on a full buffer, a
  receive on an empty one, and nothing moves after the program has ended.
-/

set_option maxRecDepth 100000

namespace Nmapify

/-! ## Strings -/

/-- Model of `strings.Contains(s, substr)`. -/
def Contains (s substr : List Char) : Bool :=
  match s with
  | [] => substr.isEmpty
  | c :: t => substr.isPrefixOf (c :: t) || Contains t substr

/-! ## Regular expressions (the fragment of RE2 used by `processOutput`) -/

/-- Abstract syntax of the patterns. Repetition `+` is only ever applied to a character class
in the source (`\d+`, `\s+`, `\t+`, `.+`), so `plus` takes a class. Capturing groups carry their
number (the order of their opening parenthesis, from 1); `(?:...)` is the subexpression
itself. -/
inductive Regex where
  | char (c : Char)
  | cls (p : Char → Bool)
  | plus (p : Char → Bool)
  | cat (r s : Regex)
  | alt (r s : Regex)
  | group (i : Nat) (r : Regex)

/-- Captures recorded so far: group number and captured text, most recent first. -/
abbrev Caps := List (Nat × List Char)

/-- The inputs left after a greedy `p+` has consumed some characters of `inp`: longest
consumption first, down to a single character. -/
def plusRests (p : Char → Bool) : List Char → List (List Char)
  | [] => []
  | x :: xs => if p x then plusRests p xs ++ [xs] else []

/-- All ways of matching `r` at the start of `inp`, as (remaining input, captures), in the
order a backtracking search finds them: the left alternative before the right one, a longer
repetition before a shorter one. -/
def Regex.run : Regex → List Char → Caps → List (List Char × Caps)
  | .char c, inp, cs =>
    match inp with
    | x :: xs => if x = c then [(xs, cs)] else []
    | [] => []
  | .cls p, inp, cs =>
    match inp with
    | x :: xs => if p x then [(xs, cs)] else []
    | [] => []
  | .plus p, inp, cs => (plusRests p inp).map (fun rest => (rest, cs))
  | .cat r s, inp, cs => (r.run inp cs).flatMap (fun st => s.run st.1 st.2)
  | .alt r s, inp, cs => r.run inp cs ++ s.run inp cs
  | .group i r, inp, cs =>
    (r.run inp cs).map (fun st => (st.1, (i, inp.take (inp.length - st.1.length)) :: st.2))

/-- The texts a pattern matches, regardless of preference. -/
def Regex.Lang : Regex → List Char → Prop
  | .char c, w => w = [c]
  | .cls p, w => ∃ c, p c = true ∧ w = [c]
  | .plus p, w => w ≠ [] ∧ ∀ c ∈ w, p c = true
  | .cat r s, w => ∃ u v, r.Lang u ∧ s.Lang v ∧ w = u ++ v
  | .alt r s, w => r.Lang w ∨ s.Lang w
  | .group _ r, w => r.Lang w

/-- Number of capturing groups. -/
def Regex.numGroups : Regex → Nat
  | .char _ => 0
  | .cls _ => 0
  | .plus _ => 0
  | .cat r s => r.numGroups + s.numGroups
  | .alt r s => r.numGroups + s.numGroups
  | .group _ r => r.numGroups + 1

/-- The preferred match of `re` starting exactly at the start of `inp`: the whole matched text
followed by the text of groups 1, 2, ... (a group that did not take part is empty). -/
def Regex.matchAt (re : Regex) (inp : List Char) : Option (List (List Char)) :=
  match re.run inp [] with
  | [] => none
  | (rest, cs) :: _ =>
    some (inp.take (inp.length - rest.length) ::
      (List.range re.numGroups).map (fun i => (cs.lookup (i + 1)).getD []))

/-- Model of `(*Regexp).FindStringSubmatch(s)`: the preferred match at the leftmost position
where `re` matches, as the list whole match, group 1, group 2, ...; the empty list (Go's `nil`)
when there is no match. -/
def FindStringSubmatch (re : Regex) : List Char → List (List Char)
  | [] => (re.matchAt []).getD []
  | c :: t =>
    match re.matchAt (c :: t) with
    | some m => m
    | none => FindStringSubmatch re t

/-- Model of `(*Regexp).MatchString(s)`: whether `re` matches at some position of `s`. -/
def MatchString (re : Regex) : List Char → Bool
  | [] => !(re.run [] []).isEmpty
  | c :: t => !(re.run (c :: t) []).isEmpty || MatchString re t

/-- Literal text as a pattern. Every literal in the source is non-empty; the empty one is
given the class that matches nothing. -/
def Regex.lit : List Char → Regex
  | [] => .cls (fun _ => false)
  | [c] => .char c
  | c :: d :: t => .cat (.char c) (Regex.lit (d :: t))

/-- Literal text under the flag `(?i)`: each letter also matches in its other case. (Go folds
`k` and `s` with one more character each, U+212A and U+017F; neither letter occurs in the
pattern of the source.) -/
def Regex.litFold : List Char → Regex
  | [] => .cls (fun _ => false)
  | [c] => .cls (fun x => x == c.toLower || x == c.toUpper)
  | c :: d :: t => .cat (.cls (fun x => x == c.toLower || x == c.toUpper)) (Regex.litFold (d :: t))

/-- Class `\d`: ASCII digits. -/
def isDigit (c : Char) : Bool := '0' ≤ c && c ≤ '9'

/-- Class `\s`: `[\t\n\f\r ]`. -/
def isSpace (c : Char) : Bool :=
  c == '\t' || c == '\n' || c == '\x0c' || c == '\r' || c == ' '

/-- Class `\t`. -/
def isTab (c : Char) : Bool := c == '\t'

/-- Class `.` (without flag `s`): any character but the line feed. -/
def isDot (c : Char) : Bool := c != '\n'

/-- Pattern `(\d+\.\d+)` or `(\d+:\d+)`: digits, a separator, digits, as group `i`. -/
def Regex.number (i : Nat) (sep : Char) : Regex :=
  .group i (.cat (.plus isDigit) (.cat (.char sep) (.plus isDigit)))

/-- Pattern `About (\d+\.\d+)% done; ETC: (\d+:\d+) \((.+) remaining\)`. -/
def timingRegex : Regex :=
  .cat (.lit "About ".toList) <|
  .cat (.number 1 '.') <|
  .cat (.lit "% done; ETC: ".toList) <|
  .cat (.number 2 ':') <|
  .cat (.lit " (".toList) <|
  .cat (.group 3 (.plus isDot)) <|
  .lit " remaining)".toList

/-- Pattern `Stats: (.+)`. -/
def statsRegex : Regex :=
  .cat (.lit "Stats: ".toList) (.group 1 (.plus isDot))

/-- Pattern `(?i)warning|caution`: the flag holds for both alternatives. -/
def warningRegex : Regex :=
  .alt (.litFold "warning".toList) (.litFold "caution".toList)

/-- Pattern `(\d+)/(tcp|udp)(?:\s+|\t+)open(?:\s+|\t+)(.+)`. -/
def openPortRegex : Regex :=
  .cat (.group 1 (.plus isDigit)) <|
  .cat (.char '/') <|
  .cat (.group 2 (.alt (.lit "tcp".toList) (.lit "udp".toList))) <|
  .cat (.alt (.plus isSpace) (.plus isTab)) <|
  .cat (.lit "open".toList) <|
  .cat (.alt (.plus isSpace) (.plus isTab)) <|
  .group 3 (.plus isDot)

/-! ## Reading the percentage -/

/-- A finite `float64`, as its exact value. -/
abbrev Float64 := ℚ

/-- Number of binary digits of `n` (`fuel` bounds the recursion; `n` itself is enough). -/
def bitLen : Nat → Nat → Nat
  | 0, _ => 0
  | fuel + 1, n => if n = 0 then 0 else bitLen fuel (n / 2) + 1

/-- The fraction `n / (d * 2 ^ k)` for an integer `k`, as numerator and denominator. -/
def scaleFrac (n d : Nat) (k : Int) : Nat × Nat :=
  if 0 ≤ k then (n, d * 2 ^ k.toNat) else (n * 2 ^ (-k).toNat, d)

/-- The integer nearest to `n / d`, ties to the even one. -/
def roundHalfEven (n d : Nat) : Nat :=
  let q := n / d
  let r := n % d
  if 2 * r < d then q
  else if d < 2 * r then q + 1
  else if q % 2 = 0 then q else q + 1

/-- Rounds the positive fraction `n / d` to binary64, to nearest with ties to even (53-bit
significands, least exponent `2 ^ (-1074)`); `none` when the result is out of range, which is
`strconv.ErrRange` in `strconv.ParseFloat`. -/
def roundFloat64 (n d : Nat) : Option Float64 :=
  if n = 0 then some 0
  else
    let e0 : Int := (bitLen n n : Int) - (bitLen d d : Int)
    let s := scaleFrac n d e0
    let e : Int := if s.2 ≤ s.1 then e0 else e0 - 1
    let qe : Int := max (e - 52) (-1074)
    let t := scaleFrac n d qe
    let m := roundHalfEven t.1 t.2
    if 0 ≤ qe ∧ 2 ^ 1024 ≤ m * 2 ^ qe.toNat then none
    else some ((m : ℚ) * (2 : ℚ) ^ qe)

/-- Value of a decimal digit. -/
def digitVal (c : Char) : Nat := c.toNat - '0'.toNat

/-- Value of a string of decimal digits. -/
def natOfDigits (ds : List Char) : Nat :=
  ds.foldl (fun a c => 10 * a + digitVal c) 0

/-- Reads `digits '.' digits` as the fraction numerator / denominator. -/
def parseDecimal (s : List Char) : Option (Nat × Nat) :=
  match s.dropWhile isDigit with
  | '.' :: fp =>
    if s.takeWhile isDigit ≠ [] ∧ fp ≠ [] ∧ fp.all isDigit then
      some (natOfDigits (s.takeWhile isDigit ++ fp), 10 ^ fp.length)
    else none
  | _ => none

/-- Model of `percentFloat := 0.0; fmt.Sscanf(percent, "%f", &percentFloat)` for the texts
the first group of `timingRegex` can capture, `digits '.' digits`: the token is the whole
text, it is converted by `strconv.ParseFloat`, and when that reports a range error the
variable keeps its initial value `0.0` (the error of `Sscanf` is not looked at). Other texts
cannot reach this call; the model gives them `0.0`. -/
def scanPercent (percent : List Char) : Float64 :=
  match parseDecimal percent with
  | some (n, d) => (roundFloat64 n d).getD 0
  | none => 0

/-! ## Events -/

/-- The struct `PortInfo`. -/
structure PortInfo where
  Port : List Char := []
  Protocol : List Char := []
  Service : List Char := []
  deriving DecidableEq

/-- The struct `StatusUpdate` (its field `Type` is `Type_` here, `Type` being reserved); every
field defaults to Go's zero value. -/
structure StatusUpdate where
  Type_ : List Char := []
  StatsInfo : List Char := []
  Percent : Float64 := 0
  ETC : List Char := []
  Remaining : List Char := []
  Output : List Char := []
  IsStderr : Bool := false
  WarningLine : Bool := false
  OpenPort : Bool := false
  PortInfo : PortInfo := {}
  deriving DecidableEq

/-- The body of the loop of `processOutput`: the value sent on `statusChan` for `line`, if
any. -/
def processLine (isStderr : Bool) (line : List Char) : Option StatusUpdate :=
  if Contains line "Starting Nmap".toList then none
  else if Contains line "Stats:".toList then
    match FindStringSubmatch statsRegex line with
    | _ :: info :: _ => some { Type_ := "stats".toList, StatsInfo := info }
    | _ => none
  else if Contains line "Timing:".toList then
    match FindStringSubmatch timingRegex line with
    | _ :: percent :: etc :: remaining :: _ =>
      some { Type_ := "timing".toList, Percent := scanPercent percent, ETC := etc,
             Remaining := remaining }
    | _ => none
  else
    let update : StatusUpdate :=
      { Type_ := "output".toList, Output := line, IsStderr := isStderr,
        WarningLine := MatchString warningRegex line }
    match FindStringSubmatch openPortRegex line with
    | _ :: port :: protocol :: service :: _ =>
      some { update with OpenPort := true,
                         PortInfo := { Port := port, Protocol := protocol, Service := service } }
    | _ => some update

/-- The loop of `processOutput` over the lines its scanner delivers: the updates sent on
`statusChan`, in order, and the values sent on `done` (one `true`, after the last line, also
when the scanner stopped on a read error). -/
def processOutput (lines : List (List Char)) (isStderr : Bool) :
    List StatusUpdate × List Bool :=
  (lines.filterMap (processLine isStderr), [true])

/-! ## The display -/

def colorReset : List Char := "\x1b[0m".toList

def colorRed : List Char := "\x1b[31m".toList

def colorGreen : List Char := "\x1b[32m".toList

def colorYellow : List Char := "\x1b[33m".toList

def colorBlue : List Char := "\x1b[34m".toList

def colorCyan : List Char := "\x1b[36m".toList

def colorBold : List Char := "\x1b[1m".toList

/-- Rounds a rational to binary64, to nearest with ties to even. The operations below never
leave the finite range for a finite `float64` percentage; outside it the model gives 0. -/
def roundQ (q : ℚ) : Float64 :=
  if 0 ≤ q then (roundFloat64 q.num.natAbs q.den).getD 0
  else -((roundFloat64 q.num.natAbs q.den).getD 0)

/-- Model of the conversion `int(x)` of a float to the 64-bit `int`: the fraction is
discarded (truncation toward zero). When the truncated value does not fit an `int`, Go
leaves the result to the implementation; the model gives what the amd64 compiler gives
there, the smallest `int`. -/
def truncToInt (x : Float64) : Int :=
  let t : Int := x.num.tdiv x.den
  if -2 ^ 63 ≤ t ∧ t < 2 ^ 63 then t else -2 ^ 63

/-- Model of `fmt.Sprintf("%.2f", x)`: the exact value rounded to two decimals, ties to the
even digit. -/
def formatFixed2 (x : Float64) : List Char :=
  let n := roundHalfEven (x.num.natAbs * 100) x.den
  (if x < 0 then ['-'] else []) ++ Nat.toDigits 10 (n / 100) ++
    '.' :: Nat.digitChar (n / 10 % 10) :: [Nat.digitChar (n % 10)]

/-- The function `createColorProgressBar`. -/
def createColorProgressBar (percent : Float64) : List Char :=
  let barWidth : Nat := 20
  let progress : Int := truncToInt (roundQ (roundQ (percent / 100) * (barWidth : ℚ)))
  "[".toList ++
    (List.range barWidth).flatMap (fun i =>
      if (i : Int) < progress then colorGreen ++ "=".toList ++ colorReset
      else if (i : Int) = progress then colorYellow ++ ">".toList ++ colorReset
      else " ".toList) ++
    "]".toList

/-- The function `displayStatusBar`: the text it writes to standard output (nothing when it
returns early). -/
def displayStatusBar (clearLine stats : List Char) (percent : Float64)
    (etc remaining : List Char) : List Char :=
  if stats = [] ∧ percent = 0 then []
  else
    let progressBar := createColorProgressBar percent
    let statusLine := clearLine
    let statusLine :=
      if percent > 0 then
        let statusLine := statusLine ++
          (progressBar ++ " ".toList ++ colorGreen ++ formatFixed2 percent ++ "%".toList ++
            colorReset)
        if etc ≠ [] ∧ remaining ≠ [] then
          statusLine ++ (" ETC: ".toList ++ colorYellow ++ etc ++ colorReset ++ " (".toList ++
            colorCyan ++ remaining ++ colorReset ++ " remaining)".toList)
        else statusLine
      else statusLine
    let statusLine :=
      if stats ≠ [] then
        let statusLine := if percent > 0 then statusLine ++ " | ".toList else statusLine
        statusLine ++ (colorBlue ++ "Stats: ".toList ++ stats ++ colorReset)
      else statusLine
    statusLine ++ "\r".toList

/-- The local variables of `displayStatusUpdates`. -/
structure DisplayState where
  lastStats : List Char := []
  lastPercent : Float64 := 0
  lastETC : List Char := []
  lastRemaining : List Char := []
  deriving DecidableEq

/-- The local `clearLine` of `displayStatusUpdates`. -/
def clearLine : List Char := "\r\x1b[K".toList

/-- One iteration of the loop of `displayStatusUpdates`: the new values of the variables and
the text written to standard output. -/
def displayUpdate (s : DisplayState) (update : StatusUpdate) : DisplayState × List Char :=
  if update.Type_ = "stats".toList then
    let s := { s with lastStats := update.StatsInfo }
    (s, displayStatusBar clearLine s.lastStats s.lastPercent s.lastETC s.lastRemaining)
  else if update.Type_ = "timing".toList then
    let s := { s with lastPercent := update.Percent, lastETC := update.ETC,
                      lastRemaining := update.Remaining }
    (s, displayStatusBar clearLine s.lastStats s.lastPercent s.lastETC s.lastRemaining)
  else if update.Type_ = "output".toList then
    (s, clearLine ++
      (if update.WarningLine then colorYellow ++ update.Output ++ colorReset ++ "\n".toList
       else if update.OpenPort then
         colorGreen ++ update.PortInfo.Port ++ "/".toList ++ update.PortInfo.Protocol ++
           colorReset ++ " open ".toList ++ colorBold ++ update.PortInfo.Service ++ colorReset ++
           "\n".toList
       else if update.IsStderr then colorRed ++ update.Output ++ colorReset ++ "\n".toList
       else update.Output ++ "\n".toList) ++
      displayStatusBar clearLine s.lastStats s.lastPercent s.lastETC s.lastRemaining)
  else (s, [])

/-- The function `displayStatusUpdates` run over the updates received from `statusChan`, from
the given values of its variables: the final values and everything written. -/
def displayFrom (s : DisplayState) : List StatusUpdate → DisplayState × List Char
  | [] => (s, [])
  | update :: rest =>
    let r := displayUpdate s update
    let r' := displayFrom r.1 rest
    (r'.1, r.2 ++ r'.2)

/-- The function `displayStatusUpdates`: its variables start at their zero values. -/
def displayStatusUpdates (updates : List StatusUpdate) : DisplayState × List Char :=
  displayFrom {} updates

/-- The permanent line that the case "output" of `displayStatusUpdates` writes for an
update, line feed included. -/
def permanentLine (update : StatusUpdate) : List Char :=
  if update.WarningLine then colorYellow ++ update.Output ++ colorReset ++ "\n".toList
  else if update.OpenPort then
    colorGreen ++ update.PortInfo.Port ++ "/".toList ++ update.PortInfo.Protocol ++
      colorReset ++ " open ".toList ++ colorBold ++ update.PortInfo.Service ++ colorReset ++
      "\n".toList
  else if update.IsStderr then colorRed ++ update.Output ++ colorReset ++ "\n".toList
  else update.Output ++ "\n".toList

/-- No text field of the update holds a line feed. -/
def StatusUpdate.NoLineFeed (u : StatusUpdate) : Prop :=
  '\n' ∉ u.StatsInfo ∧ '\n' ∉ u.ETC ∧ '\n' ∉ u.Remaining ∧ '\n' ∉ u.Output ∧
    '\n' ∉ u.PortInfo.Port ∧ '\n' ∉ u.PortInfo.Protocol ∧ '\n' ∉ u.PortInfo.Service

instance (u : StatusUpdate) : Decidable u.NoLineFeed :=
  inferInstanceAs (Decidable ('\n' ∉ u.StatsInfo ∧ '\n' ∉ u.ETC ∧ '\n' ∉ u.Remaining ∧
    '\n' ∉ u.Output ∧ '\n' ∉ u.PortInfo.Port ∧ '\n' ∉ u.PortInfo.Protocol ∧
    '\n' ∉ u.PortInfo.Service))

/-- The local `progress` of `createColorProgressBar`, the value of
`int((percent / 100.0) * float64(barWidth))`. -/
def barProgress (percent : Float64) : Int :=
  truncToInt (roundQ (roundQ (percent / 100) * ((20 : ℕ) : ℚ)))

/-- A filled cell of the progress bar. -/
def filledCell : List Char := colorGreen ++ "=".toList ++ colorReset

/-- The in-progress marker of the progress bar. -/
def markerCell : List Char := colorYellow ++ ">".toList ++ colorReset

/-- A blank cell of the progress bar. -/
def blankCell : List Char := " ".toList

/-! ## The sends of a stream pump -/

/-- A value sent by `processOutput`, on `statusChan` or on `done`. -/
inductive Send where
  | statusChan (update : StatusUpdate)
  | done (b : Bool)
  deriving DecidableEq

/-- The sends of `processOutput` in the order it makes them, over the lines its scanner
delivers: each turn of the loop sends what the loop body gives for the line, if anything,
and after the loop comes `done <- true`. -/
def processOutputSends (isStderr : Bool) : List (List Char) → List Send
  | [] => [Send.done true]
  | line :: rest =>
    match processLine isStderr line with
    | some update => Send.statusChan update :: processOutputSends isStderr rest
    | none => processOutputSends isStderr rest

/-- Whether a send is a send on `statusChan`. -/
def Send.isStatus : Send → Bool
  | Send.statusChan _ => true
  | Send.done _ => false

/-! ## The function `main` -/

/-- The function `strings.HasPrefix`. -/
def HasPrefix (s pre : List Char) : Bool := pre.isPrefixOf s

/-- The loop of `main` over `args` that sets `hasStatsEvery`, left at the first hit. -/
def hasStatsEvery : List (List Char) → Bool
  | [] => false
  | arg :: rest =>
    if HasPrefix arg "--stats-every".toList then true else hasStatsEvery rest

/-- The slice `nmapArgs` that `main` passes to `exec.Command("nmap", nmapArgs...)`. -/
def nmapArgs (args : List (List Char)) : List (List Char) :=
  let nmapArgs : List (List Char) := []
  let nmapArgs :=
    if !hasStatsEvery args then nmapArgs ++ ["--stats-every=1s".toList] else nmapArgs
  nmapArgs ++ args

/-- How the external process ended, as the `ProcessState` of an `*exec.ExitError` records
it: it exited with a code, or a signal terminated it. -/
inductive ProcessState where
  | exited (code : Nat)
  | signaled (signal : Nat)
  deriving DecidableEq

/-- The method `ExitCode` of `ProcessState`: the exit code of an exited process, -1 for a
process terminated by a signal. -/
def ProcessState.ExitCode : ProcessState → Int
  | ProcessState.exited code => (code : Int)
  | ProcessState.signaled _ => -1

/-- The value of `err` after `err = cmd.Wait()`: nil, an `*exec.ExitError` (the process did
not complete successfully), or an error of another type, with its text. -/
inductive WaitError where
  | nil
  | ExitError (state : ProcessState)
  | other (text : List Char)
  deriving DecidableEq

/-- The results of the calls `main` makes on `cmd`: the error text of `cmd.StdoutPipe()`,
`cmd.StderrPipe()` and `cmd.Start()` when they fail, and the value of `cmd.Wait()`. -/
structure Env where
  StdoutPipe : Option (List Char) := none
  StderrPipe : Option (List Char) := none
  Start : Option (List Char) := none
  Wait : WaitError := WaitError.nil
  deriving DecidableEq

/-- What a run of `main` does itself: the arguments of the command it built, if it came to
build one, whether `cmd.Start()` started the process, what `main` wrote to standard output
and to standard error, and the status the program ends with (the argument of `os.Exit`, or
0 when `main` returns). -/
structure Run where
  command : Option (List (List Char)) := none
  started : Bool := false
  stdout : List Char := []
  stderr : List Char := []
  status : Int := 0
  deriving DecidableEq

/-- The end of `main`, from `err = cmd.Wait()` on: the text written to standard error and
the status the program ends with. -/
def waitExit (err : WaitError) : List Char × Int :=
  match err with
  | WaitError.nil => ([], 0)
  | WaitError.ExitError state => ([], state.ExitCode)
  | WaitError.other text =>
    (colorRed ++ "Error waiting for nmap: ".toList ++ text ++ colorReset ++ "\n".toList, 1)

/-- The function `main` on the arguments `os.Args[1:]`. Between `cmd.Start()` and
`cmd.Wait()` it starts the two pumps and the renderer and receives twice from `done`; each
pump sends once on `done` when its stream ends. -/
def main (args : List (List Char)) (env : Env) : Run :=
  if args.length = 0 then
    { stdout := "Args shouldn\x27t be empty\n".toList, status := 1 }
  else
    let cmd := nmapArgs args
    match env.StdoutPipe with
    | some err =>
      { command := some cmd,
        stderr := colorRed ++ "Error creating stdout pipe: ".toList ++ err ++ colorReset ++
          "\n".toList,
        status := 1 }
    | none =>
      match env.StderrPipe with
      | some err =>
        { command := some cmd,
          stderr := colorRed ++ "Error creating stderr pipe: ".toList ++ err ++ colorReset ++
            "\n".toList,
          status := 1 }
      | none =>
        match env.Start with
        | some err =>
          { command := some cmd,
            stderr := colorRed ++ "Error starting nmap: ".toList ++ err ++ colorReset ++
              "\n".toList,
            status := 1 }
        | none =>
          { command := some cmd, started := true, stderr := (waitExit env.Wait).1,
            status := (waitExit env.Wait).2 }

/-! ## The goroutines of `main` -/

/-- The program from line 73 of `main` on: the lines the two scanners have yet to deliver,
whether each pump has returned, the buffers of `statusUpdateChan` (capacity 10) and `done`
(capacity 2), how many values `main` has received from `done`, the status the program has
ended with, if it has, the variables of `displayStatusUpdates` and what it has written, and
the value `cmd.Wait()` will give. The fields `sent` and `processed` record the updates
sent on `statusUpdateChan` and those received by `displayStatusUpdates`, in order. -/
structure Sys where
  stdout : List (List Char) := []
  stderr : List (List Char) := []
  stdoutReturned : Bool := false
  stderrReturned : Bool := false
  statusUpdateChan : List StatusUpdate := []
  done : List Bool := []
  received : Nat := 0
  exited : Option Int := none
  display : DisplayState := {}
  written : List Char := []
  Wait : WaitError := WaitError.nil
  sent : List StatusUpdate := []
  processed : List StatusUpdate := []
  deriving DecidableEq

/-- The four goroutines of the program. -/
inductive Goroutine where
  | main
  | stdoutPump
  | stderrPump
  | renderer
  deriving DecidableEq

/-- One step of a goroutine, `none` when it cannot move: a pump reads its next line and
sends what the loop body gives (it blocks while the buffer of `statusUpdateChan` is full),
or, at the end of its stream, sends on `done` and returns; the renderer receives one update
and handles it; `main` receives from `done` twice, then ends the program as `cmd.Wait()`
tells. Nothing moves once the program has ended. The renderer's handling of one update is
taken as one move, although it is several writes to standard output and the program can end
between two of them: the runs of the model are those in which it does not. -/
def step (g : Goroutine) (s : Sys) : Option Sys :=
  if s.exited.isSome then none
  else
    match g with
    | Goroutine.stdoutPump =>
      match s.stdout with
      | line :: rest =>
        match processLine false line with
        | some update =>
          if s.statusUpdateChan.length < 10 then
            some { s with stdout := rest, statusUpdateChan := s.statusUpdateChan ++ [update],
                          sent := s.sent ++ [update] }
          else none
        | none => some { s with stdout := rest }
      | [] =>
        if s.stdoutReturned || !(s.done.length < 2) then none
        else some { s with stdoutReturned := true, done := s.done ++ [true] }
    | Goroutine.stderrPump =>
      match s.stderr with
      | line :: rest =>
        match processLine true line with
        | some update =>
          if s.statusUpdateChan.length < 10 then
            some { s with stderr := rest, statusUpdateChan := s.statusUpdateChan ++ [update],
                          sent := s.sent ++ [update] }
          else none
        | none => some { s with stderr := rest }
      | [] =>
        if s.stderrReturned || !(s.done.length < 2) then none
        else some { s with stderrReturned := true, done := s.done ++ [true] }
    | Goroutine.renderer =>
      match s.statusUpdateChan with
      | update :: rest =>
        some { s with statusUpdateChan := rest, display := (displayUpdate s.display update).1,
                      written := s.written ++ (displayUpdate s.display update).2,
                      processed := s.processed ++ [update] }
      | [] => none
    | Goroutine.main =>
      if s.received < 2 then
        match s.done with
        | _ :: rest => some { s with done := rest, received := s.received + 1 }
        | [] => none
      else some { s with exited := some (waitExit s.Wait).2 }

/-- The program run under a schedule: the goroutines step in the given order; `none` when
the schedule asks a goroutine to step that cannot. -/
def runSchedule : List Goroutine → Sys → Option Sys
  | [], s => some s
  | g :: rest, s =>
    match step g s with
    | some t => runSchedule rest t
    | none => none

/-! ## Shapes of text -/

/-- A non-empty string of ASCII digits. -/
def Digits (l : List Char) : Prop := l ≠ [] ∧ ∀ c ∈ l, isDigit c = true

instance (l : List Char) : Decidable (Digits l) :=
  inferInstanceAs (Decidable (l ≠ [] ∧ ∀ c ∈ l, isDigit c = true))

/-- The text `About P% done; ETC: T (R remaining)` with `P = ip.fp` and `T = h:m`. -/
def TimingText (ip fp h m R : List Char) : List Char :=
  "About ".toList ++ (ip ++ '.' :: fp) ++ "% done; ETC: ".toList ++ (h ++ ':' :: m) ++
    " (".toList ++ R ++ " remaining)".toList

/-- A non-empty run of whitespace, in the sense of the class `\s`. -/
def Spaces (w : List Char) : Prop := w ≠ [] ∧ ∀ c ∈ w, isSpace c = true

instance (w : List Char) : Decidable (Spaces w) :=
  inferInstanceAs (Decidable (w ≠ [] ∧ ∀ c ∈ w, isSpace c = true))

/-- The text `D/P`, whitespace `w1`, `open`, whitespace `w2`, `S`. -/
def OpenPortText (D P w1 w2 S : List Char) : List Char :=
  D ++ '/' :: P ++ w1 ++ "open".toList ++ w2 ++ S
/-! ## Substrings and the matcher -/

theorem contains_iff (s substr : List Char) : Contains s substr = true ↔ substr <:+: s := by
  induction s with
  | nil => simp [Contains, List.isEmpty_iff]
  | cons c t ih =>
    simp only [Contains, Bool.or_eq_true, ih, List.infix_cons_iff, List.isPrefixOf_iff_prefix]

theorem mem_plusRests (p : Char → Bool) (s x : List Char) :
    x ∈ plusRests p s ↔ ∃ u, u ≠ [] ∧ (∀ c ∈ u, p c = true) ∧ s = u ++ x := by
  induction s with
  | nil =>
    simp only [plusRests, List.not_mem_nil, false_iff]
    rintro ⟨u, hu, _, h⟩
    simp at h
    exact hu h.1
  | cons a t ih =>
    simp only [plusRests]
    constructor
    · intro h
      split at h
      · rename_i hp
        rcases List.mem_append.1 h with h | h
        · obtain ⟨u, hu, hall, rfl⟩ := (ih).1 h
          exact ⟨a :: u, by simp, by simpa [hp] using hall, by simp⟩
        · simp at h
          subst h
          exact ⟨[a], by simp, by simpa using hp, by simp⟩
      · simp at h
    · rintro ⟨u, hu, hall, heq⟩
      cases u with
      | nil => exact absurd rfl hu
      | cons b u =>
        simp only [List.cons_append, List.cons.injEq] at heq
        obtain ⟨rfl, rfl⟩ := heq
        have hp : p a = true := hall a (by simp)
        simp only [hp, if_true, List.mem_append, List.mem_singleton]
        cases u with
        | nil => right; simp
        | cons c u =>
          left
          exact (ih).2 ⟨c :: u, by simp, fun d hd => hall d (by simp [List.mem_cons] at hd ⊢; tauto), rfl⟩

theorem run_sound (r : Regex) : ∀ (inp : List Char) (cs : Caps) (st : List Char × Caps),
    st ∈ r.run inp cs → ∃ w, r.Lang w ∧ inp = w ++ st.1 := by
  induction r with
  | char c =>
    intro inp cs st h
    cases inp with
    | nil => simp [Regex.run] at h
    | cons x xs =>
      simp only [Regex.run] at h
      split at h
      · simp at h; subst h; rename_i hx; subst hx; exact ⟨[x], rfl, rfl⟩
      · simp at h
  | cls p =>
    intro inp cs st h
    cases inp with
    | nil => simp [Regex.run] at h
    | cons x xs =>
      simp only [Regex.run] at h
      split at h
      · simp at h; subst h; rename_i hx; exact ⟨[x], ⟨x, hx, rfl⟩, rfl⟩
      · simp at h
  | plus p =>
    intro inp cs st h
    simp only [Regex.run, List.mem_map] at h
    obtain ⟨x, hx, rfl⟩ := h
    obtain ⟨u, hu, hall, rfl⟩ := (mem_plusRests p inp x).1 hx
    exact ⟨u, ⟨hu, hall⟩, rfl⟩
  | cat r s ihr ihs =>
    intro inp cs st h
    simp only [Regex.run, List.mem_flatMap] at h
    obtain ⟨mid, hmid, hst⟩ := h
    obtain ⟨u, hu, rfl⟩ := ihr _ _ _ hmid
    obtain ⟨v, hv, hv2⟩ := ihs _ _ _ hst
    exact ⟨u ++ v, ⟨u, v, hu, hv, rfl⟩, by rw [hv2, List.append_assoc]⟩
  | alt r s ihr ihs =>
    intro inp cs st h
    simp only [Regex.run, List.mem_append] at h
    rcases h with h | h
    · obtain ⟨w, hw, rfl⟩ := ihr _ _ _ h
      exact ⟨w, Or.inl hw, rfl⟩
    · obtain ⟨w, hw, rfl⟩ := ihs _ _ _ h
      exact ⟨w, Or.inr hw, rfl⟩
  | group i r ih =>
    intro inp cs st h
    simp only [Regex.run, List.mem_map] at h
    obtain ⟨x, hx, rfl⟩ := h
    obtain ⟨w, hw, rfl⟩ := ih _ _ _ hx
    exact ⟨w, hw, rfl⟩

theorem run_complete (r : Regex) : ∀ (w rest : List Char) (cs : Caps),
    r.Lang w → ∃ cs', (rest, cs') ∈ r.run (w ++ rest) cs := by
  induction r with
  | char c =>
    intro w rest cs h
    simp only [Regex.Lang] at h
    subst h
    exact ⟨cs, by simp [Regex.run]⟩
  | cls p =>
    intro w rest cs h
    obtain ⟨c, hc, rfl⟩ := h
    exact ⟨cs, by simp [Regex.run, hc]⟩
  | plus p =>
    intro w rest cs h
    obtain ⟨hne, hall⟩ := h
    refine ⟨cs, ?_⟩
    simp only [Regex.run, List.mem_map]
    exact ⟨rest, (mem_plusRests p _ _).2 ⟨w, hne, hall, rfl⟩, rfl⟩
  | cat r s ihr ihs =>
    intro w rest cs h
    obtain ⟨u, v, hu, hv, rfl⟩ := h
    obtain ⟨c1, h1⟩ := ihr u (v ++ rest) cs hu
    obtain ⟨c2, h2⟩ := ihs v rest c1 hv
    refine ⟨c2, ?_⟩
    simp only [Regex.run, List.mem_flatMap, List.append_assoc]
    exact ⟨(v ++ rest, c1), h1, h2⟩
  | alt r s ihr ihs =>
    intro w rest cs h
    rcases h with h | h
    · obtain ⟨c1, h1⟩ := ihr w rest cs h
      exact ⟨c1, by simp [Regex.run, h1]⟩
    · obtain ⟨c1, h1⟩ := ihs w rest cs h
      exact ⟨c1, by simp [Regex.run, h1]⟩
  | group i r ih =>
    intro w rest cs h
    obtain ⟨c1, h1⟩ := ih w rest cs h
    refine ⟨(i, (w ++ rest).take ((w ++ rest).length - rest.length)) :: c1, ?_⟩
    simp only [Regex.run, List.mem_map]
    exact ⟨(rest, c1), h1, rfl⟩


theorem run_ne_nil_iff (re : Regex) (s : List Char) (cs : Caps) :
    re.run s cs ≠ [] ↔ ∃ w b, re.Lang w ∧ s = w ++ b := by
  constructor
  · intro h
    obtain ⟨st, hst⟩ := List.exists_mem_of_ne_nil _ h
    obtain ⟨w, hw, hs⟩ := run_sound re s cs st hst
    exact ⟨w, st.1, hw, hs⟩
  · rintro ⟨w, b, hw, rfl⟩
    obtain ⟨cs', h⟩ := run_complete re w b cs hw
    exact List.ne_nil_of_mem h

theorem matchString_iff (re : Regex) (s : List Char) :
    MatchString re s = true ↔ ∃ a w b, re.Lang w ∧ s = a ++ w ++ b := by
  induction s with
  | nil =>
    simp only [MatchString, Bool.not_eq_true', List.isEmpty_eq_false,
      run_ne_nil_iff]
    constructor
    · rintro ⟨w, b, hw, h⟩
      exact ⟨[], w, b, hw, by simpa using h⟩
    · rintro ⟨a, w, b, hw, h⟩
      have ha : a = [] := by
        cases a with
        | nil => rfl
        | cons x a => simp at h
      subst ha
      exact ⟨w, b, hw, by simpa using h⟩
  | cons c t ih =>
    simp only [MatchString, Bool.or_eq_true, Bool.not_eq_true', List.isEmpty_eq_false,
      run_ne_nil_iff, ih]
    constructor
    · rintro (⟨w, b, hw, h⟩ | ⟨a, w, b, hw, rfl⟩)
      · exact ⟨[], w, b, hw, by simpa using h⟩
      · exact ⟨c :: a, w, b, hw, by simp⟩
    · rintro ⟨a, w, b, hw, h⟩
      cases a with
      | nil => exact Or.inl ⟨w, b, hw, by simpa using h⟩
      | cons x a =>
        simp only [List.cons_append, List.cons.injEq] at h
        exact Or.inr ⟨a, w, b, hw, by simpa using h.2⟩

theorem matchAt_eq_none_iff (re : Regex) (s : List Char) :
    re.matchAt s = none ↔ re.run s [] = [] := by
  unfold Regex.matchAt
  cases re.run s [] with
  | nil => simp
  | cons st t => simp

theorem matchAt_ne_nil (re : Regex) (s : List Char) (m : List (List Char))
    (h : re.matchAt s = some m) : m ≠ [] := by
  unfold Regex.matchAt at h
  cases hrun : re.run s [] with
  | nil => simp [hrun] at h
  | cons st t =>
    simp only [hrun, Option.some.injEq] at h
    subst h
    simp

/-- Positions where the pattern cannot match are passed over. -/
theorem findStringSubmatch_skip (re : Regex) (pre s : List Char)
    (h : ∀ a b, pre = a ++ b → b ≠ [] → re.run (b ++ s) [] = []) :
    FindStringSubmatch re (pre ++ s) = FindStringSubmatch re s := by
  induction pre with
  | nil => rfl
  | cons c t ih =>
    have h0 : re.run (c :: t ++ s) [] = [] := h [] (c :: t) rfl (by simp)
    have hm : re.matchAt (c :: (t ++ s)) = none := (matchAt_eq_none_iff re _).2 h0
    rw [List.cons_append, FindStringSubmatch, hm]
    exact ih (fun a b hab hb => h (c :: a) b (by simp [hab]) hb)

/-- At a position where the pattern matches, the preferred match is reported. -/
theorem findStringSubmatch_of_run (re : Regex) (s rest : List Char) (cs : Caps)
    (t : List (List Char × Caps)) (h : re.run s [] = (rest, cs) :: t) :
    FindStringSubmatch re s =
      s.take (s.length - rest.length) ::
        (List.range re.numGroups).map (fun i => (cs.lookup (i + 1)).getD []) := by
  have hm : re.matchAt s = some (s.take (s.length - rest.length) ::
        (List.range re.numGroups).map (fun i => (cs.lookup (i + 1)).getD [])) := by
    unfold Regex.matchAt
    rw [h]
  cases s with
  | nil => simp only [FindStringSubmatch, hm, Option.getD_some]
  | cons c u => simp only [FindStringSubmatch, hm]

/-- No match anywhere: the result is Go's `nil`. -/
theorem findStringSubmatch_eq_nil_iff (re : Regex) (s : List Char) :
    FindStringSubmatch re s = [] ↔ ¬ ∃ a w b, re.Lang w ∧ s = a ++ w ++ b := by
  rw [← matchString_iff]
  induction s with
  | nil =>
    simp only [FindStringSubmatch, MatchString]
    cases hm : re.matchAt [] with
    | none => simp [(matchAt_eq_none_iff re []).1 hm]
    | some m =>
      have h1 := matchAt_ne_nil re [] m hm
      have h2 : re.run [] [] ≠ [] := fun h => by
        rw [(matchAt_eq_none_iff re []).2 h] at hm; simp at hm
      simp [h1, h2]
  | cons c t ih =>
    simp only [FindStringSubmatch, MatchString]
    cases hm : re.matchAt (c :: t) with
    | none => simpa [(matchAt_eq_none_iff re _).1 hm] using ih
    | some m =>
      have h1 := matchAt_ne_nil re _ m hm
      have h2 : re.run (c :: t) [] ≠ [] := fun h => by
        rw [(matchAt_eq_none_iff re _).2 h] at hm; simp at hm
      simp [h1, h2]

theorem run_cat_skip {r s : Regex} {inp : List Char} {cs : Caps}
    {l₁ l₂ t : List (List Char × Caps)} {st y : List Char × Caps}
    (h1 : r.run inp cs = l₁ ++ st :: l₂) (h0 : ∀ x ∈ l₁, s.run x.1 x.2 = [])
    (h2 : s.run st.1 st.2 = y :: t) : ∃ t', (Regex.cat r s).run inp cs = y :: t' := by
  have hz : l₁.flatMap (fun x => s.run x.1 x.2) = [] := by
    rw [List.flatMap_eq_nil_iff]
    exact h0
  refine ⟨t ++ l₂.flatMap (fun x => s.run x.1 x.2), ?_⟩
  simp only [Regex.run, h1, List.flatMap_append, hz, List.flatMap_cons, h2, List.nil_append,
    List.cons_append]

theorem run_cat_cons {r s : Regex} {inp : List Char} {cs : Caps}
    {l t : List (List Char × Caps)} {st y : List Char × Caps}
    (h1 : r.run inp cs = st :: l) (h2 : s.run st.1 st.2 = y :: t) :
    ∃ t', (Regex.cat r s).run inp cs = y :: t' :=
  @run_cat_skip r s inp cs [] l t st y (by simpa using h1) (by simp) h2

theorem run_group_cons {r : Regex} {inp : List Char} {cs : Caps} (i : Nat)
    {l : List (List Char × Caps)} {st : List Char × Caps} (h : r.run inp cs = st :: l) :
    ∃ t', (Regex.group i r).run inp cs =
      (st.1, (i, inp.take (inp.length - st.1.length)) :: st.2) :: t' := by
  simp only [Regex.run, h, List.map_cons]
  exact ⟨_, rfl⟩

theorem take_append_length_sub (w rest : List Char) :
    (w ++ rest).take ((w ++ rest).length - rest.length) = w := by
  simp

/-- A greedy repetition over `u ++ v` first tries to go on into `v`, then stops after `u`. -/
theorem plusRests_append (p : Char → Bool) (u v : List Char) (hu : u ≠ [])
    (hall : ∀ c ∈ u, p c = true) : ∃ L, plusRests p (u ++ v) = plusRests p v ++ v :: L := by
  induction u with
  | nil => exact absurd rfl hu
  | cons a u ih =>
    have ha : p a = true := hall a (by simp)
    cases u with
    | nil => exact ⟨[], by simp [plusRests, ha]⟩
    | cons b u =>
      obtain ⟨L, hL⟩ := ih (by simp) (fun c hc => hall c (List.mem_cons_of_mem _ hc))
      refine ⟨L ++ [b :: u ++ v], ?_⟩
      rw [List.cons_append, plusRests, if_pos ha, hL]
      simp

theorem plusRests_stop (p : Char → Bool) (c : Char) (v : List Char) (hc : p c = false) :
    plusRests p (c :: v) = [] := by
  simp [plusRests, hc]

/-! ## The branches of `processLine` -/

theorem processLine_start (isStderr : Bool) (line : List Char)
    (h : "Starting Nmap".toList <:+: line) : processLine isStderr line = none := by
  have hc := (contains_iff line "Starting Nmap".toList).2 h
  simp only [processLine, hc, if_true]

theorem processLine_stats_some (isStderr : Bool) (line w info : List Char)
    (t : List (List Char)) (h0 : ¬ "Starting Nmap".toList <:+: line)
    (h1 : "Stats:".toList <:+: line) (hf : FindStringSubmatch statsRegex line = w :: info :: t) :
    processLine isStderr line = some { Type_ := "stats".toList, StatsInfo := info } := by
  have hc0 : Contains line "Starting Nmap".toList = false := by
    rw [← Bool.not_eq_true, contains_iff]; exact h0
  have hc1 := (contains_iff line "Stats:".toList).2 h1
  simp only [processLine, hc0, hc1, if_true, Bool.false_eq_true, if_false, hf]

theorem processLine_stats_none (isStderr : Bool) (line : List Char)
    (h1 : "Stats:".toList <:+: line) (hf : FindStringSubmatch statsRegex line = []) :
    processLine isStderr line = none := by
  have hc1 := (contains_iff line "Stats:".toList).2 h1
  simp only [processLine, hc1, if_true, hf, ite_self]

theorem processLine_timing_some (isStderr : Bool) (line w percent etc remaining : List Char)
    (t : List (List Char)) (h0 : ¬ "Starting Nmap".toList <:+: line)
    (h1 : ¬ "Stats:".toList <:+: line) (h2 : "Timing:".toList <:+: line)
    (hf : FindStringSubmatch timingRegex line = w :: percent :: etc :: remaining :: t) :
    processLine isStderr line =
      some { Type_ := "timing".toList, Percent := scanPercent percent, ETC := etc,
             Remaining := remaining } := by
  have hc0 : Contains line "Starting Nmap".toList = false := by
    rw [← Bool.not_eq_true, contains_iff]; exact h0
  have hc1 : Contains line "Stats:".toList = false := by
    rw [← Bool.not_eq_true, contains_iff]; exact h1
  have hc2 := (contains_iff line "Timing:".toList).2 h2
  simp only [processLine, hc0, hc1, hc2, if_true, Bool.false_eq_true, if_false, hf]

theorem processLine_timing_none (isStderr : Bool) (line : List Char)
    (h1 : ¬ "Stats:".toList <:+: line) (h2 : "Timing:".toList <:+: line)
    (hf : FindStringSubmatch timingRegex line = []) :
    processLine isStderr line = none := by
  have hc1 : Contains line "Stats:".toList = false := by
    rw [← Bool.not_eq_true, contains_iff]; exact h1
  have hc2 := (contains_iff line "Timing:".toList).2 h2
  simp only [processLine, hc1, hc2, if_true, Bool.false_eq_true, if_false, hf, ite_self]

theorem processLine_other_some (isStderr : Bool) (line w port protocol service : List Char)
    (t : List (List Char)) (h0 : ¬ "Starting Nmap".toList <:+: line)
    (h1 : ¬ "Stats:".toList <:+: line) (h2 : ¬ "Timing:".toList <:+: line)
    (hf : FindStringSubmatch openPortRegex line = w :: port :: protocol :: service :: t) :
    processLine isStderr line =
      some { Type_ := "output".toList, Output := line, IsStderr := isStderr,
             WarningLine := MatchString warningRegex line, OpenPort := true,
             PortInfo := { Port := port, Protocol := protocol, Service := service } } := by
  have hc0 : Contains line "Starting Nmap".toList = false := by
    rw [← Bool.not_eq_true, contains_iff]; exact h0
  have hc1 : Contains line "Stats:".toList = false := by
    rw [← Bool.not_eq_true, contains_iff]; exact h1
  have hc2 : Contains line "Timing:".toList = false := by
    rw [← Bool.not_eq_true, contains_iff]; exact h2
  simp only [processLine, hc0, hc1, hc2, Bool.false_eq_true, if_false, hf]

theorem processLine_other_none (isStderr : Bool) (line : List Char)
    (h0 : ¬ "Starting Nmap".toList <:+: line)
    (h1 : ¬ "Stats:".toList <:+: line) (h2 : ¬ "Timing:".toList <:+: line)
    (hf : FindStringSubmatch openPortRegex line = []) :
    processLine isStderr line =
      some { Type_ := "output".toList, Output := line, IsStderr := isStderr,
             WarningLine := MatchString warningRegex line } := by
  have hc0 : Contains line "Starting Nmap".toList = false := by
    rw [← Bool.not_eq_true, contains_iff]; exact h0
  have hc1 : Contains line "Stats:".toList = false := by
    rw [← Bool.not_eq_true, contains_iff]; exact h1
  have hc2 : Contains line "Timing:".toList = false := by
    rw [← Bool.not_eq_true, contains_iff]; exact h2
  simp only [processLine, hc0, hc1, hc2, Bool.false_eq_true, if_false, hf]

/-! ## Literals and first occurrences -/

theorem run_lit_append (l rest : List Char) (cs : Caps) (hl : l ≠ []) :
    (Regex.lit l).run (l ++ rest) cs = [(rest, cs)] := by
  induction l with
  | nil => exact absurd rfl hl
  | cons c t ih =>
    cases t with
    | nil => simp [Regex.lit, Regex.run]
    | cons d t =>
      have := ih (by simp)
      simp only [Regex.lit, Regex.run, List.cons_append, if_true, List.flatMap_cons,
        List.flatMap_nil, List.append_nil] at this ⊢
      exact this

theorem lang_lit (l w : List Char) (hl : l ≠ []) : (Regex.lit l).Lang w ↔ w = l := by
  induction l generalizing w with
  | nil => exact absurd rfl hl
  | cons c t ih =>
    cases t with
    | nil => simp [Regex.lit, Regex.Lang]
    | cons d t =>
      simp only [Regex.lit, Regex.Lang, ih _ (List.cons_ne_nil d t)]
      constructor
      · rintro ⟨u, v, rfl, rfl, rfl⟩; rfl
      · rintro rfl; exact ⟨[c], d :: t, rfl, rfl, rfl⟩

/-- A substring has a first occurrence. -/
theorem exists_first_occurrence (sub s : List Char) (h : sub <:+: s) :
    ∃ pre rest, s = pre ++ sub ++ rest ∧
      ∀ pre' rest', s = pre' ++ sub ++ rest' → pre.length ≤ pre'.length := by
  induction s with
  | nil =>
    have : sub = [] := List.eq_nil_of_infix_nil h
    subst this
    exact ⟨[], [], rfl, fun _ _ _ => Nat.zero_le _⟩
  | cons c t ih =>
    by_cases hp : sub <+: c :: t
    · obtain ⟨rest, hrest⟩ := hp
      exact ⟨[], rest, by simp [hrest], fun _ _ _ => Nat.zero_le _⟩
    · have ht : sub <:+: t := by
        rcases List.infix_cons_iff.1 h with h | h
        · exact absurd h hp
        · exact h
      obtain ⟨pre, rest, hs, hmin⟩ := ih ht
      refine ⟨c :: pre, rest, by simp [hs], ?_⟩
      intro pre' rest' h'
      cases pre' with
      | nil => exact absurd ⟨rest', by simpa using h'.symm⟩ hp
      | cons x p =>
        simp only [List.cons_append, List.cons.injEq] at h'
        have := hmin p rest' (by simpa using h'.2)
        simpa using this

/-! ## The pattern `Stats: (.+)` -/

theorem lang_cat (r s : Regex) (w : List Char) :
    (Regex.cat r s).Lang w ↔ ∃ u v, r.Lang u ∧ s.Lang v ∧ w = u ++ v := Iff.rfl

theorem lang_alt (r s : Regex) (w : List Char) :
    (Regex.alt r s).Lang w ↔ r.Lang w ∨ s.Lang w := Iff.rfl

theorem lang_group (i : Nat) (r : Regex) (w : List Char) :
    (Regex.group i r).Lang w ↔ r.Lang w := Iff.rfl

theorem lang_plus (p : Char → Bool) (w : List Char) :
    (Regex.plus p).Lang w ↔ w ≠ [] ∧ ∀ c ∈ w, p c = true := Iff.rfl

theorem lang_char (c : Char) (w : List Char) : (Regex.char c).Lang w ↔ w = [c] := Iff.rfl

theorem lang_stats (w : List Char) :
    statsRegex.Lang w ↔
      ∃ v, v ≠ [] ∧ (∀ c ∈ v, isDot c = true) ∧ w = "Stats: ".toList ++ v := by
  rw [statsRegex, lang_cat]
  constructor
  · rintro ⟨u, v, hu, ⟨hv, hall⟩, rfl⟩
    rw [lang_lit _ _ (by decide)] at hu
    subst hu
    exact ⟨v, hv, hall, rfl⟩
  · rintro ⟨v, hv, hall, rfl⟩
    exact ⟨_, v, (lang_lit _ _ (by decide)).2 rfl, ⟨hv, hall⟩, rfl⟩

theorem run_plus_all (p : Char → Bool) (u : List Char) (cs : Caps) (hu : u ≠ [])
    (hall : ∀ c ∈ u, p c = true) : ∃ t, (Regex.plus p).run u cs = ([], cs) :: t := by
  obtain ⟨L, hL⟩ := plusRests_append p u [] hu hall
  rw [List.append_nil] at hL
  exact ⟨L.map (fun rest => (rest, cs)), by simp [Regex.run, hL, plusRests]⟩

theorem run_stats (rest : List Char) (hne : rest ≠ [])
    (hall : ∀ c ∈ rest, isDot c = true) :
    ∃ t, statsRegex.run ("Stats: ".toList ++ rest) [] = ([], [(1, rest)]) :: t := by
  obtain ⟨t1, h1⟩ := run_plus_all isDot rest [] hne hall
  obtain ⟨t2, h2⟩ := run_group_cons 1 h1
  have h3 := run_lit_append "Stats: ".toList rest [] (by decide)
  obtain ⟨t3, h4⟩ := run_cat_cons h3 h2
  refine ⟨t3, ?_⟩
  simpa [statsRegex] using h4

theorem isDot_of_not_mem (l : List Char) (h : '\n' ∉ l) : ∀ c ∈ l, isDot c = true := by
  intro c hc
  simp only [isDot, bne_iff_ne, ne_eq]
  rintro rfl
  exact h hc

/-- The text after the first `Stats: ` that something follows is what `statsRegex`
captures. -/
theorem findStringSubmatch_stats (pre rest : List Char) (hne : rest ≠ [])
    (hnl : '\n' ∉ rest)
    (hfirst : ∀ pre' rest', pre ++ "Stats: ".toList ++ rest = pre' ++ "Stats: ".toList ++ rest' →
      pre.length ≤ pre'.length) :
    FindStringSubmatch statsRegex (pre ++ "Stats: ".toList ++ rest) =
      ["Stats: ".toList ++ rest, rest] := by
  rw [List.append_assoc, findStringSubmatch_skip]
  · obtain ⟨t, ht⟩ := run_stats rest hne (isDot_of_not_mem rest hnl)
    rw [findStringSubmatch_of_run _ _ _ _ _ ht]
    simp [statsRegex, Regex.numGroups, Regex.lit, List.range_succ, List.lookup]
  · intro a b hab hb
    by_contra hrun
    obtain ⟨w, t, hw, hwt⟩ := (run_ne_nil_iff _ _ _).1 hrun
    obtain ⟨v, _, _, rfl⟩ := (lang_stats w).1 hw
    have := hfirst a (v ++ t) (by rw [hab]; simp only [List.append_assoc] at hwt ⊢; rw [hwt])
    rw [hab, List.length_append] at this
    have hb' : 0 < b.length := List.length_pos.2 hb
    omega

/-- C1. Start-banner suppression has top priority: a line that contains "Starting Nmap", on
either stream, produces no event, whatever else it contains. -/
theorem start_banner_suppressed (isStderr : Bool) (line : List Char)
    (h : "Starting Nmap".toList <:+: line) : processLine isStderr line = none :=
  processLine_start isStderr line h

/-- Witness for C1: the banner line itself, and a banner line that also carries a stats
text, a timing text, a warning word and an open-port shape. -/
theorem start_banner_suppressed_witness :
    ("Starting Nmap".toList <:+: "Starting Nmap 7.94".toList ∧
      processLine false "Starting Nmap 7.94".toList = none) ∧
    processLine true ("Stats: 1 done Timing: About 42.50% done; ETC: 14:23 (0:05:10 remaining)" ++
      " WARNING 80/tcp open http Starting Nmap").toList = none :=
  ⟨⟨by decide, start_banner_suppressed false _ (by decide)⟩,
    start_banner_suppressed true _ (by decide)⟩

/-- C2. Stats extraction: a line (a scanner line, so without line feed) that does not contain
"Starting Nmap" and contains "Stats: " followed by at least one character produces, on either
stream, exactly one event, of type stats, whose StatsInfo is the whole remainder `rest` of the
line after the first occurrence of "Stats: "; that remainder is not empty, and all other
fields have their zero values. -/
theorem stats_extraction (isStderr : Bool) (line a b : List Char)
    (hline : line = a ++ "Stats: ".toList ++ b) (hb : b ≠ [])
    (hstart : ¬ "Starting Nmap".toList <:+: line) (hnl : '\n' ∉ line) :
    ∃ pre rest, line = pre ++ "Stats: ".toList ++ rest ∧
      (∀ pre' rest', line = pre' ++ "Stats: ".toList ++ rest' → pre.length ≤ pre'.length) ∧
      rest ≠ [] ∧
      processLine isStderr line =
        some { Type_ := "stats".toList, StatsInfo := rest, Percent := 0, ETC := [],
               Remaining := [], Output := [], IsStderr := false, WarningLine := false,
               OpenPort := false, PortInfo := { Port := [], Protocol := [], Service := [] } } := by
  obtain ⟨pre, rest, hs, hmin⟩ :=
    exists_first_occurrence "Stats: ".toList line ⟨a, b, hline.symm⟩
  have hlen : pre.length ≤ a.length := hmin a b hline
  have hrest : rest ≠ [] := by
    have h1 := congrArg List.length hline
    have h2 := congrArg List.length hs
    rw [h2] at h1
    simp only [List.length_append] at h1
    have hb' : 0 < b.length := List.length_pos.2 hb
    apply List.ne_nil_of_length_pos
    omega
  refine ⟨pre, rest, hs, hmin, hrest, ?_⟩
  have hnl' : '\n' ∉ rest := fun h => hnl (by rw [hs]; simp [h])
  have hf := findStringSubmatch_stats pre rest hrest hnl' (fun p r h => hmin p r (hs.trans h))
  have hcont : "Stats:".toList <:+: line :=
    ⟨pre, ' ' :: rest, by rw [hs]; simp⟩
  rw [← hs] at hf
  exact processLine_stats_some isStderr line _ rest [] hstart hcont hf

/-- Witness for C2: the line of the specification's first scenario. -/
theorem stats_extraction_witness :
    processLine false "Stats: 00:00:05 elapsed; 1 hosts completed".toList =
      some { Type_ := "stats".toList, StatsInfo := "00:00:05 elapsed; 1 hosts completed".toList } ∧
    ∃ pre rest, "Stats: 00:00:05 elapsed; 1 hosts completed".toList =
        pre ++ "Stats: ".toList ++ rest ∧
      (∀ pre' rest', "Stats: 00:00:05 elapsed; 1 hosts completed".toList =
        pre' ++ "Stats: ".toList ++ rest' → pre.length ≤ pre'.length) ∧
      rest ≠ [] ∧
      processLine false "Stats: 00:00:05 elapsed; 1 hosts completed".toList =
        some { Type_ := "stats".toList, StatsInfo := rest, Percent := 0, ETC := [],
               Remaining := [], Output := [], IsStderr := false, WarningLine := false,
               OpenPort := false, PortInfo := { Port := [], Protocol := [], Service := [] } } :=
  ⟨by decide, stats_extraction false _ [] "00:00:05 elapsed; 1 hosts completed".toList
    (by decide) (by decide) (by decide) (by decide)⟩

/-! ## The pattern `About (\d+\.\d+)% done; ETC: (\d+:\d+) \((.+) remaining\)` -/

theorem lang_number (i : Nat) (sep : Char) (w : List Char) :
    (Regex.number i sep).Lang w ↔ ∃ a b, Digits a ∧ Digits b ∧ w = a ++ sep :: b := by
  rw [Regex.number, lang_group, lang_cat]
  constructor
  · rintro ⟨u, v, hu, hv, rfl⟩
    rw [lang_cat] at hv
    obtain ⟨x, y, hx, hy, rfl⟩ := hv
    rw [lang_char] at hx
    subst hx
    exact ⟨u, y, hu, hy, rfl⟩
  · rintro ⟨a, b, ha, hb, rfl⟩
    exact ⟨a, sep :: b, ha, (lang_cat _ _ _).2 ⟨[sep], b, rfl, hb, rfl⟩, rfl⟩

theorem timingText_eq (ip fp h m R : List Char) :
    TimingText ip fp h m R =
      "About ".toList ++ ((ip ++ '.' :: fp) ++ ("% done; ETC: ".toList ++
        ((h ++ ':' :: m) ++ (" (".toList ++ (R ++ " remaining)".toList))))) := by
  simp only [TimingText, List.append_assoc]

theorem lang_timing (w : List Char) :
    timingRegex.Lang w ↔
      ∃ ip fp h m R, Digits ip ∧ Digits fp ∧ Digits h ∧ Digits m ∧ R ≠ [] ∧
        (∀ c ∈ R, isDot c = true) ∧ w = TimingText ip fp h m R := by
  unfold timingRegex
  constructor
  · intro hw
    rw [lang_cat] at hw
    obtain ⟨u1, v1, h1, hw, rfl⟩ := hw
    rw [lang_cat] at hw
    obtain ⟨u2, v2, h2, hw, rfl⟩ := hw
    rw [lang_cat] at hw
    obtain ⟨u3, v3, h3, hw, rfl⟩ := hw
    rw [lang_cat] at hw
    obtain ⟨u4, v4, h4, hw, rfl⟩ := hw
    rw [lang_cat] at hw
    obtain ⟨u5, v5, h5, hw, rfl⟩ := hw
    rw [lang_cat] at hw
    obtain ⟨u6, v6, h6, h7, rfl⟩ := hw
    rw [lang_lit _ _ (by decide)] at h1 h3 h5 h7
    subst h1 h3 h5 h7
    obtain ⟨ip, fp, hip, hfp, rfl⟩ := (lang_number _ _ _).1 h2
    obtain ⟨h, m, hh, hm, rfl⟩ := (lang_number _ _ _).1 h4
    rw [lang_group, lang_plus] at h6
    exact ⟨ip, fp, h, m, u6, hip, hfp, hh, hm, h6.1, h6.2, (timingText_eq _ _ _ _ _).symm⟩
  · rintro ⟨ip, fp, h, m, R, hip, hfp, hh, hm, hR, hdot, rfl⟩
    rw [timingText_eq]
    exact (lang_cat _ _ _).2 ⟨_, _, (lang_lit _ _ (by decide)).2 rfl,
      (lang_cat _ _ _).2 ⟨_, _, (lang_number _ _ _).2 ⟨ip, fp, hip, hfp, rfl⟩,
        (lang_cat _ _ _).2 ⟨_, _, (lang_lit _ _ (by decide)).2 rfl,
          (lang_cat _ _ _).2 ⟨_, _, (lang_number _ _ _).2 ⟨h, m, hh, hm, rfl⟩,
            (lang_cat _ _ _).2 ⟨_, _, (lang_lit _ _ (by decide)).2 rfl,
              (lang_cat _ _ _).2 ⟨R, _, ⟨hR, hdot⟩, (lang_lit _ _ (by decide)).2 rfl, rfl⟩,
              rfl⟩, rfl⟩, rfl⟩, rfl⟩, rfl⟩

theorem run_plus_stop (p : Char → Bool) (u v : List Char) (cs : Caps) (hu : u ≠ [])
    (hall : ∀ c ∈ u, p c = true) (hv : plusRests p v = []) :
    ∃ t, (Regex.plus p).run (u ++ v) cs = (v, cs) :: t := by
  obtain ⟨L, hL⟩ := plusRests_append p u v hu hall
  rw [hv, List.nil_append] at hL
  exact ⟨L.map (fun rest => (rest, cs)), by simp [Regex.run, hL]⟩

theorem run_number (i : Nat) (sep : Char) (a b rest : List Char) (cs : Caps)
    (ha : Digits a) (hb : Digits b) (hsep : isDigit sep = false)
    (hrest : plusRests isDigit rest = []) :
    ∃ t, (Regex.number i sep).run ((a ++ sep :: b) ++ rest) cs =
      (rest, (i, a ++ sep :: b) :: cs) :: t := by
  obtain ⟨t1, h1⟩ := run_plus_stop isDigit b rest cs hb.1 hb.2 hrest
  have h2 : (Regex.char sep).run (sep :: (b ++ rest)) cs = [(b ++ rest, cs)] := by
    simp [Regex.run]
  obtain ⟨t3, h3⟩ := run_cat_cons h2 h1
  obtain ⟨t4, h4⟩ := run_plus_stop isDigit a (sep :: (b ++ rest)) cs ha.1 ha.2
    (plusRests_stop _ _ _ hsep)
  obtain ⟨t5, h5⟩ := run_cat_cons h4 h3
  obtain ⟨t6, h6⟩ := run_group_cons i h5
  refine ⟨t6, ?_⟩
  have e : (a ++ sep :: b) ++ rest = a ++ sep :: (b ++ rest) := by simp
  rw [Regex.number, e, h6, ← e]
  simp only [take_append_length_sub]

/-- A second `" remaining)"` cannot overlap the first. -/
theorem remaining_no_overlap (post u t : List Char) (hu : u ≠ [])
    (h : " remaining)".toList ++ post = u ++ (" remaining)".toList ++ t)) :
    " remaining)".toList <:+: post := by
  rcases List.append_eq_append_iff.1 h with ⟨a', h1, h2⟩ | ⟨c', h1, h2⟩
  · exact ⟨a', t, by rw [h2]; simp⟩
  · cases c' with
    | nil =>
      rw [List.nil_append] at h2
      exact ⟨[], t, by rw [← h2]; rfl⟩
    | cons y c'' =>
      exfalso
      have hy : y = ' ' := by
        have := congrArg List.head? h2
        simpa using this.symm
      subst hy
      cases u with
      | nil => exact hu rfl
      | cons x u' =>
        have h3 : "remaining)".toList = u' ++ ' ' :: c'' := by
          have : " remaining)".toList = ' ' :: "remaining)".toList := rfl
          rw [this, List.cons_append, List.cons.injEq] at h1
          exact h1.2
        have hmem : ' ' ∈ "remaining)".toList := by rw [h3]; simp
        exact absurd hmem (by decide)

theorem run_remaining (R post : List Char) (cs : Caps) (hR : R ≠ [])
    (hall : ∀ c ∈ R ++ (" remaining)".toList ++ post), isDot c = true)
    (hlast : ¬ " remaining)".toList <:+: post) :
    ∃ t, (Regex.cat (Regex.group 3 (Regex.plus isDot)) (Regex.lit " remaining)".toList)).run
        (R ++ (" remaining)".toList ++ post)) cs = (post, (3, R) :: cs) :: t := by
  obtain ⟨L, hL⟩ := plusRests_append isDot R (" remaining)".toList ++ post) hR
    (fun c hc => hall c (List.mem_append_left _ hc))
  have hrun : (Regex.group 3 (Regex.plus isDot)).run (R ++ (" remaining)".toList ++ post)) cs =
      (plusRests isDot (" remaining)".toList ++ post)).map
          (fun rest => (rest, (3, (R ++ (" remaining)".toList ++ post)).take
            ((R ++ (" remaining)".toList ++ post)).length - rest.length)) :: cs)) ++
        (" remaining)".toList ++ post, (3, R) :: cs) ::
          L.map (fun rest => (rest, (3, (R ++ (" remaining)".toList ++ post)).take
            ((R ++ (" remaining)".toList ++ post)).length - rest.length)) :: cs)) := by
    simp only [Regex.run, hL, List.map_append, List.map_cons, List.map_map]
    congr 1
    congr 1
    · simp
  refine run_cat_skip hrun ?_ (run_lit_append _ post _ (by decide))
  intro x hx
  obtain ⟨y, hy, rfl⟩ := List.mem_map.1 hx
  obtain ⟨u, hu, _, hsplit⟩ := (mem_plusRests _ _ _).1 hy
  by_contra hne
  obtain ⟨w, b, hw, hwb⟩ := (run_ne_nil_iff _ _ _).1 hne
  rw [lang_lit _ _ (by decide)] at hw
  subst hw
  simp only at hwb
  rw [hwb] at hsplit
  exact hlast (remaining_no_overlap post u b hu hsplit)

theorem run_timing (ip fp h m R post : List Char) (hip : Digits ip) (hfp : Digits fp)
    (hh : Digits h) (hm : Digits m) (hR : R ≠ [])
    (hall : ∀ c ∈ R ++ (" remaining)".toList ++ post), isDot c = true)
    (hlast : ¬ " remaining)".toList <:+: post) :
    ∃ t, timingRegex.run (TimingText ip fp h m R ++ post) [] =
      (post, [(3, R), (2, h ++ ':' :: m), (1, ip ++ '.' :: fp)]) :: t := by
  obtain ⟨t7, s7⟩ := run_remaining R post [(2, h ++ ':' :: m), (1, ip ++ '.' :: fp)] hR hall hlast
  obtain ⟨t6, s6⟩ := run_cat_cons (run_lit_append " (".toList _ _ (by decide)) s7
  obtain ⟨t5, s5⟩ := run_number 2 ':' h m
    (" (".toList ++ (R ++ (" remaining)".toList ++ post))) [(1, ip ++ '.' :: fp)] hh hm
    (by decide) (by simp [plusRests, isDigit])
  obtain ⟨t5', s5'⟩ := run_cat_cons s5 s6
  obtain ⟨t4, s4⟩ := run_cat_cons (run_lit_append "% done; ETC: ".toList _ _ (by decide)) s5'
  obtain ⟨t3, s3⟩ := run_number 1 '.' ip fp
    ("% done; ETC: ".toList ++ ((h ++ ':' :: m) ++
      (" (".toList ++ (R ++ (" remaining)".toList ++ post))))) [] hip hfp
    (by decide) (by simp [plusRests, isDigit])
  obtain ⟨t3', s3'⟩ := run_cat_cons s3 s4
  obtain ⟨t2, s2⟩ := run_cat_cons (run_lit_append "About ".toList _ _ (by decide)) s3'
  refine ⟨t2, ?_⟩
  rw [timingText_eq]
  simp only [List.append_assoc] at s2 ⊢
  exact s2

/-- The leftmost text of the timing shape, with its last part stretched to the last
`" remaining)"`, is what `timingRegex` reports. -/
theorem findStringSubmatch_timing (pre ip fp h m R post : List Char) (hip : Digits ip)
    (hfp : Digits fp) (hh : Digits h) (hm : Digits m) (hR : R ≠ [])
    (hnl : '\n' ∉ R ++ (" remaining)".toList ++ post))
    (hfirst : ∀ pre' ip' fp' h' m' R' post', Digits ip' → Digits fp' → Digits h' → Digits m' →
      R' ≠ [] → pre ++ TimingText ip fp h m R ++ post = pre' ++ TimingText ip' fp' h' m' R' ++ post' →
      pre.length ≤ pre'.length)
    (hlast : ¬ " remaining)".toList <:+: post) :
    FindStringSubmatch timingRegex (pre ++ TimingText ip fp h m R ++ post) =
      [TimingText ip fp h m R, ip ++ '.' :: fp, h ++ ':' :: m, R] := by
  rw [List.append_assoc, findStringSubmatch_skip]
  · obtain ⟨t, ht⟩ := run_timing ip fp h m R post hip hfp hh hm hR (isDot_of_not_mem _ hnl) hlast
    rw [findStringSubmatch_of_run _ _ _ _ _ ht]
    simp [timingRegex, Regex.number, Regex.numGroups, Regex.lit, List.range_succ, List.lookup]
  · intro a b hab hb
    by_contra hrun
    obtain ⟨w, t, hw, hwt⟩ := (run_ne_nil_iff _ _ _).1 hrun
    obtain ⟨ip', fp', h', m', R', h1, h2, h3, h4, h5, _, rfl⟩ := (lang_timing w).1 hw
    have := hfirst a ip' fp' h' m' R' t h1 h2 h3 h4 h5
      (by rw [hab]; simp only [List.append_assoc] at hwt ⊢; rw [hwt])
    rw [hab, List.length_append] at this
    have hb' : 0 < b.length := List.length_pos.2 hb
    omega

/-! ## Reading the percentage -/

theorem takeWhile_digits (a rest : List Char) (sep : Char) (ha : ∀ c ∈ a, isDigit c = true)
    (hsep : isDigit sep = false) : (a ++ sep :: rest).takeWhile isDigit = a := by
  rw [List.takeWhile_append_of_pos ha]
  simp [List.takeWhile, hsep]

theorem dropWhile_digits (a rest : List Char) (sep : Char) (ha : ∀ c ∈ a, isDigit c = true)
    (hsep : isDigit sep = false) : (a ++ sep :: rest).dropWhile isDigit = sep :: rest := by
  rw [List.dropWhile_append_of_pos ha]
  simp [List.dropWhile, hsep]

theorem scanPercent_decimal (ip fp : List Char) (hip : Digits ip) (hfp : Digits fp) :
    scanPercent (ip ++ '.' :: fp) =
      (roundFloat64 (natOfDigits (ip ++ fp)) (10 ^ fp.length)).getD 0 := by
  unfold scanPercent parseDecimal
  rw [dropWhile_digits ip fp '.' hip.2 (by decide), takeWhile_digits ip fp '.' hip.2 (by decide)]
  have hall : fp.all isDigit = true := List.all_eq_true.2 hfp.2
  simp [hip.1, hfp.1, hall]

theorem roundFloat64_nonneg (n d : Nat) : 0 ≤ (roundFloat64 n d).getD 0 := by
  unfold roundFloat64
  by_cases hn : n = 0
  · simp only [hn, if_true, Option.getD_some, le_refl]
  · simp only [hn, if_false]
    split_ifs
    · exact le_refl _
    · simp only [Option.getD_some]
      positivity
    · exact le_refl _
    · simp only [Option.getD_some]
      positivity

theorem scanPercent_nonneg (s : List Char) : 0 ≤ scanPercent s := by
  unfold scanPercent
  split
  · exact roundFloat64_nonneg _ _
  · exact le_refl _


/-- An occurrence of `sub` in `line` cannot start before position `k` when `sub` starts at
none of the positions below `k`. -/
theorem length_le_of_not_prefix (line sub : List Char) (k : Nat)
    (hk : ∀ i < k, ¬ sub <+: line.drop i) (pre rest : List Char)
    (h : line = pre ++ (sub ++ rest)) : k ≤ pre.length := by
  by_contra hlt
  have hlt' : pre.length < k := Nat.lt_of_not_le hlt
  refine hk pre.length hlt' ?_
  rw [h, List.drop_left]
  exact ⟨rest, rfl⟩

/-! ## Timing lines -/

/-- What `processLine` does with a line whose leftmost timing text is
`About ip.fp% done; ETC: h:m (R remaining)`. -/
theorem processLine_timingText (isStderr : Bool) (pre ip fp h m R post : List Char)
    (hip : Digits ip) (hfp : Digits fp) (hh : Digits h) (hm : Digits m) (hR : R ≠ [])
    (hmark : "Timing:".toList <:+: pre ++ TimingText ip fp h m R ++ post)
    (hstart : ¬ "Starting Nmap".toList <:+: pre ++ TimingText ip fp h m R ++ post)
    (hstats : ¬ "Stats:".toList <:+: pre ++ TimingText ip fp h m R ++ post)
    (hnl : '\n' ∉ pre ++ TimingText ip fp h m R ++ post)
    (hfirst : ∀ pre' ip' fp' h' m' R' post', Digits ip' → Digits fp' → Digits h' → Digits m' →
      R' ≠ [] →
      pre ++ TimingText ip fp h m R ++ post = pre' ++ TimingText ip' fp' h' m' R' ++ post' →
      pre.length ≤ pre'.length)
    (hlast : ¬ " remaining)".toList <:+: post) :
    processLine isStderr (pre ++ TimingText ip fp h m R ++ post) =
      some { Type_ := "timing".toList, Percent := scanPercent (ip ++ '.' :: fp),
             ETC := h ++ ':' :: m, Remaining := R } := by
  have hnl' : '\n' ∉ R ++ (" remaining)".toList ++ post) := by
    intro hc
    apply hnl
    rw [timingText_eq]
    simp only [List.mem_append] at hc ⊢
    tauto
  have hf := findStringSubmatch_timing pre ip fp h m R post hip hfp hh hm hR hnl' hfirst hlast
  exact processLine_timing_some isStderr _ _ _ _ _ [] hstart hstats hmark hf

/-- A timing text is the leftmost one when "About " starts at no earlier position. -/
theorem timing_first_of_about (pre ip fp h m R post : List Char)
    (hk : ∀ i < pre.length,
      ¬ "About ".toList <+: (pre ++ TimingText ip fp h m R ++ post).drop i) :
    ∀ pre' ip' fp' h' m' R' post', Digits ip' → Digits fp' → Digits h' → Digits m' →
      R' ≠ [] →
      pre ++ TimingText ip fp h m R ++ post = pre' ++ TimingText ip' fp' h' m' R' ++ post' →
      pre.length ≤ pre'.length := by
  intro pre' ip' fp' h' m' R' post' _ _ _ _ _ heq
  refine length_le_of_not_prefix _ "About ".toList pre.length hk pre'
    (((ip' ++ '.' :: fp') ++ ("% done; ETC: ".toList ++
        ((h' ++ ':' :: m') ++ (" (".toList ++ (R' ++ " remaining)".toList))))) ++ post') ?_
  rw [heq, timingText_eq]
  simp only [List.append_assoc]

/-- C3 (as amended). Timing extraction: let a scanner line (no line feed) contain "Timing:"
and neither "Starting Nmap" nor "Stats:", and let its leftmost text of the shape
"About P% done; ETC: T (R remaining)" have P = `ip.fp`, T = `h:m` (digit strings) and a
non-empty R that reaches to the last " remaining)" of the line. Then `processLine` produces
exactly one event, of type timing, with ETC = T, Remaining = R, every other field zero, and
Percent the float64 read from P: the binary64 number nearest to the decimal value of P, or
0 when that is out of the float64 range. -/
theorem timing_extraction (isStderr : Bool) (pre ip fp h m R post : List Char)
    (hip : Digits ip) (hfp : Digits fp) (hh : Digits h) (hm : Digits m) (hR : R ≠ [])
    (hmark : "Timing:".toList <:+: pre ++ TimingText ip fp h m R ++ post)
    (hstart : ¬ "Starting Nmap".toList <:+: pre ++ TimingText ip fp h m R ++ post)
    (hstats : ¬ "Stats:".toList <:+: pre ++ TimingText ip fp h m R ++ post)
    (hnl : '\n' ∉ pre ++ TimingText ip fp h m R ++ post)
    (hfirst : ∀ pre' ip' fp' h' m' R' post', Digits ip' → Digits fp' → Digits h' → Digits m' →
      R' ≠ [] →
      pre ++ TimingText ip fp h m R ++ post = pre' ++ TimingText ip' fp' h' m' R' ++ post' →
      pre.length ≤ pre'.length)
    (hlast : ¬ " remaining)".toList <:+: post) :
    processLine isStderr (pre ++ TimingText ip fp h m R ++ post) =
      some { Type_ := "timing".toList, StatsInfo := [],
             Percent := (roundFloat64 (natOfDigits (ip ++ fp)) (10 ^ fp.length)).getD 0,
             ETC := h ++ ':' :: m, Remaining := R, Output := [], IsStderr := false,
             WarningLine := false, OpenPort := false,
             PortInfo := { Port := [], Protocol := [], Service := [] } } := by
  rw [processLine_timingText isStderr pre ip fp h m R post hip hfp hh hm hR hmark hstart hstats
    hnl hfirst hlast, scanPercent_decimal ip fp hip hfp]

/-- Witness for C3: the line of the specification's second scenario gives Percent 42.5,
ETC "14:23", Remaining "0:05:10". -/
theorem timing_extraction_witness :
    processLine false "Timing: About 42.50% done; ETC: 14:23 (0:05:10 remaining)".toList =
      some { Type_ := "timing".toList, Percent := 85 / 2, ETC := "14:23".toList,
             Remaining := "0:05:10".toList } ∧
    processLine false ("Timing: ".toList ++
        TimingText "42".toList "50".toList "14".toList "23".toList "0:05:10".toList ++ []) =
      some { Type_ := "timing".toList, StatsInfo := [],
             Percent := (roundFloat64 (natOfDigits ("42".toList ++ "50".toList))
               (10 ^ "50".toList.length)).getD 0,
             ETC := "14".toList ++ ':' :: "23".toList, Remaining := "0:05:10".toList,
             Output := [], IsStderr := false, WarningLine := false, OpenPort := false,
             PortInfo := { Port := [], Protocol := [], Service := [] } } :=
  ⟨by decide!,
   timing_extraction false "Timing: ".toList "42".toList "50".toList "14".toList "23".toList
    "0:05:10".toList [] (by decide) (by decide) (by decide) (by decide) (by decide)
    (by decide) (by decide) (by decide) (by decide)
    (timing_first_of_about _ _ _ _ _ _ _ (by decide))
    (by decide)⟩

/-- Counterexample to C3 as stated: this line contains the text
"About 2.50% done; ETC: 2:02 (b remaining)", whose R = "b" ends at the last " remaining)" of
the line, yet the event carries the fields of the earlier text: Percent 1.5, ETC "1:01", and
a Remaining that runs from "a" to the last " remaining)". -/
theorem timing_extraction_counterexample :
    ("Timing:".toList <:+:
        ("Timing: About 1.50% done; ETC: 1:01 (a remaining) ".toList ++
          TimingText "2".toList "50".toList "2".toList "02".toList "b".toList ++ []) ∧
      ¬ "Starting Nmap".toList <:+:
        ("Timing: About 1.50% done; ETC: 1:01 (a remaining) ".toList ++
          TimingText "2".toList "50".toList "2".toList "02".toList "b".toList ++ []) ∧
      ¬ "Stats:".toList <:+:
        ("Timing: About 1.50% done; ETC: 1:01 (a remaining) ".toList ++
          TimingText "2".toList "50".toList "2".toList "02".toList "b".toList ++ []) ∧
      '\n' ∉ "Timing: About 1.50% done; ETC: 1:01 (a remaining) ".toList ++
          TimingText "2".toList "50".toList "2".toList "02".toList "b".toList ++ [] ∧
      ¬ " remaining)".toList <:+: ([] : List Char)) ∧
    "Timing: About 1.50% done; ETC: 1:01 (a remaining) ".toList ++
        TimingText "2".toList "50".toList "2".toList "02".toList "b".toList ++ [] =
      ("Timing: About 1.50% done; ETC: 1:01 (a remaining) " ++
        "About 2.50% done; ETC: 2:02 (b remaining)").toList ∧
    processLine false ("Timing: About 1.50% done; ETC: 1:01 (a remaining) " ++
        "About 2.50% done; ETC: 2:02 (b remaining)").toList =
      some { Type_ := "timing".toList, Percent := 3 / 2, ETC := "1:01".toList,
             Remaining := "a remaining) About 2.50% done; ETC: 2:02 (b".toList } ∧
    processLine false ("Timing: About 1.50% done; ETC: 1:01 (a remaining) " ++
        "About 2.50% done; ETC: 2:02 (b remaining)").toList ≠
      some { Type_ := "timing".toList, Percent := 5 / 2, ETC := "2:02".toList,
             Remaining := "b".toList } := by
  decide!

/-- The percentage text may be too large for a float64: `Sscanf` then fails and the
variable keeps `0.0`. Here P is 1 followed by 309 zeros, ".0". -/
theorem scanPercent_out_of_range :
    scanPercent ('1' :: List.replicate 309 '0' ++ ".0".toList) = 0 := by
  decide!

/-- The float64 nearest to a decimal need not be that decimal: for "0.10" it is
3602879701896397 / 2^55. -/
theorem scanPercent_tenth :
    scanPercent "0.10".toList = 3602879701896397 / 36028797018963968 ∧
      scanPercent "0.10".toList ≠ 1 / 10 := by
  decide!

/-! ## The kinds of event -/

theorem matchAt_length (re : Regex) (s : List Char) (m : List (List Char))
    (h : re.matchAt s = some m) : m.length = re.numGroups + 1 := by
  unfold Regex.matchAt at h
  cases hrun : re.run s [] with
  | nil => simp [hrun] at h
  | cons st t =>
    simp only [hrun, Option.some.injEq] at h
    subst h
    simp

/-- A match lists the whole text and every group; no match is Go's `nil`. -/
theorem findStringSubmatch_length (re : Regex) (s : List Char) :
    FindStringSubmatch re s = [] ∨ (FindStringSubmatch re s).length = re.numGroups + 1 := by
  induction s with
  | nil =>
    simp only [FindStringSubmatch]
    cases hm : re.matchAt [] with
    | none => left; rfl
    | some m => right; simpa using matchAt_length re [] m hm
  | cons c t ih =>
    simp only [FindStringSubmatch]
    cases hm : re.matchAt (c :: t) with
    | none => simpa using ih
    | some m => right; simpa using matchAt_length re _ m hm

theorem numGroups_stats : statsRegex.numGroups = 1 := by decide

theorem numGroups_timing : timingRegex.numGroups = 3 := by decide

theorem numGroups_openPort : openPortRegex.numGroups = 3 := by decide

theorem findStringSubmatch_stats_cases (line : List Char) :
    FindStringSubmatch statsRegex line = [] ∨
      ∃ w info, FindStringSubmatch statsRegex line = [w, info] := by
  rcases findStringSubmatch_length statsRegex line with h | h
  · exact Or.inl h
  · right
    rw [numGroups_stats] at h
    match hf : FindStringSubmatch statsRegex line, h with
    | [w, info], _ => exact ⟨w, info, rfl⟩

theorem findStringSubmatch_three_cases (re : Regex) (hre : re.numGroups = 3)
    (line : List Char) :
    FindStringSubmatch re line = [] ∨
      ∃ w a b c, FindStringSubmatch re line = [w, a, b, c] := by
  rcases findStringSubmatch_length re line with h | h
  · exact Or.inl h
  · right
    rw [hre] at h
    match hf : FindStringSubmatch re line, h with
    | [w, a, b, c], _ => exact ⟨w, a, b, c, rfl⟩

/-- Every line gives nothing, a stats event, a timing event or an output event, as decided
by the markers it contains. -/
theorem processLine_cases (isStderr : Bool) (line : List Char) :
    processLine isStderr line = none ∨
    (¬ "Starting Nmap".toList <:+: line ∧ "Stats:".toList <:+: line ∧
      ∃ info, processLine isStderr line = some { Type_ := "stats".toList, StatsInfo := info }) ∨
    (¬ "Starting Nmap".toList <:+: line ∧ ¬ "Stats:".toList <:+: line ∧
      "Timing:".toList <:+: line ∧
      ∃ percent etc remaining, processLine isStderr line =
        some { Type_ := "timing".toList, Percent := scanPercent percent, ETC := etc,
               Remaining := remaining }) ∨
    (¬ "Starting Nmap".toList <:+: line ∧ ¬ "Stats:".toList <:+: line ∧
      ¬ "Timing:".toList <:+: line ∧
      ∃ o port, processLine isStderr line =
        some { Type_ := "output".toList, Output := line, IsStderr := isStderr,
               WarningLine := MatchString warningRegex line, OpenPort := o, PortInfo := port }) := by
  by_cases h0 : "Starting Nmap".toList <:+: line
  · exact Or.inl (processLine_start isStderr line h0)
  by_cases h1 : "Stats:".toList <:+: line
  · rcases findStringSubmatch_stats_cases line with hf | ⟨w, info, hf⟩
    · exact Or.inl (processLine_stats_none isStderr line h1 hf)
    · exact Or.inr (Or.inl
        ⟨h0, h1, info, processLine_stats_some isStderr line w info [] h0 h1 hf⟩)
  by_cases h2 : "Timing:".toList <:+: line
  · rcases findStringSubmatch_three_cases timingRegex numGroups_timing line with
      hf | ⟨w, a, b, c, hf⟩
    · exact Or.inl (processLine_timing_none isStderr line h1 h2 hf)
    · exact Or.inr (Or.inr (Or.inl
        ⟨h0, h1, h2, a, b, c, processLine_timing_some isStderr line w a b c [] h0 h1 h2 hf⟩))
  · refine Or.inr (Or.inr (Or.inr ⟨h0, h1, h2, ?_⟩))
    rcases findStringSubmatch_three_cases openPortRegex numGroups_openPort line with
      hf | ⟨w, a, b, c, hf⟩
    · exact ⟨false, {}, processLine_other_none isStderr line h0 h1 h2 hf⟩
    · exact ⟨true, _, processLine_other_some isStderr line w a b c [] h0 h1 h2 hf⟩

/-- Without "Stats: " there is no "Stats: " followed by a character. -/
theorem not_stats_followed (line : List Char) (h : ¬ "Stats: ".toList <:+: line) :
    ¬ ∃ a c b, line = a ++ "Stats: ".toList ++ c :: b :=
  fun ⟨a, c, b, heq⟩ => h ⟨a, c :: b, heq.symm⟩

/-- Without "About " there is no timing text. -/
theorem not_timingText_of_not_about (line : List Char) (h : ¬ "About ".toList <:+: line) :
    ¬ ∃ a ip fp h m R b, Digits ip ∧ Digits fp ∧ Digits h ∧ Digits m ∧ R ≠ [] ∧
        '\n' ∉ R ∧ line = a ++ TimingText ip fp h m R ++ b := by
  rintro ⟨a, ip, fp, h', m, R, b, _, _, _, _, _, _, heq⟩
  refine h ⟨a, ((ip ++ '.' :: fp) ++ ("% done; ETC: ".toList ++
        ((h' ++ ':' :: m) ++ (" (".toList ++ (R ++ " remaining)".toList))))) ++ b, ?_⟩
  rw [heq, timingText_eq]
  simp only [List.append_assoc]

/-- C4. Marker lines never fall through to generic output: a line containing "Stats:" or
"Timing:" never produces an output event, on either stream; a line containing "Stats:" in
which no "Stats: " is followed by a character produces no event at all; and a line
containing "Timing:" but not "Stats:", no part of which matches the timing pattern, produces
no event at all. -/
theorem marker_lines_never_output (isStderr : Bool) (line : List Char) :
    (("Stats:".toList <:+: line ∨ "Timing:".toList <:+: line) →
      ∀ u, processLine isStderr line = some u → u.Type_ ≠ "output".toList) ∧
    ("Stats:".toList <:+: line → (¬ ∃ a c b, line = a ++ "Stats: ".toList ++ c :: b) →
      processLine isStderr line = none) ∧
    ("Timing:".toList <:+: line → ¬ "Stats:".toList <:+: line →
      (¬ ∃ a ip fp h m R b, Digits ip ∧ Digits fp ∧ Digits h ∧ Digits m ∧ R ≠ [] ∧
        '\n' ∉ R ∧ line = a ++ TimingText ip fp h m R ++ b) →
      processLine isStderr line = none) := by
  refine ⟨?_, ?_, ?_⟩
  · intro hmark u hu
    rcases processLine_cases isStderr line with
      h | ⟨_, _, info, h⟩ | ⟨_, _, _, p, e, r, h⟩ | ⟨_, h1, h2, _⟩
    · rw [h] at hu; exact absurd hu (by simp)
    · rw [h, Option.some.injEq] at hu
      subst hu
      show "stats".toList ≠ "output".toList
      decide
    · rw [h, Option.some.injEq] at hu
      subst hu
      show "timing".toList ≠ "output".toList
      decide
    · rcases hmark with hm | hm
      · exact absurd hm h1
      · exact absurd hm h2
  · intro h1 hno
    apply processLine_stats_none isStderr line h1
    rw [findStringSubmatch_eq_nil_iff]
    rintro ⟨a, w, b, hw, rfl⟩
    obtain ⟨v, hv, _, rfl⟩ := (lang_stats w).1 hw
    cases v with
    | nil => exact hv rfl
    | cons c v => exact hno ⟨a, c, v ++ b, by simp⟩
  · intro h2 h1 hno
    apply processLine_timing_none isStderr line h1 h2
    rw [findStringSubmatch_eq_nil_iff]
    rintro ⟨a, w, b, hw, rfl⟩
    obtain ⟨ip, fp, h, m, R, hip, hfp, hh, hm, hR, hdot, rfl⟩ := (lang_timing w).1 hw
    refine hno ⟨a, ip, fp, h, m, R, b, hip, hfp, hh, hm, hR, ?_, rfl⟩
    intro hmem
    have := hdot _ hmem
    simp [isDot] at this

/-- Witness for C4: a stats line gives a stats event, not an output event; a line whose
"Stats:" is followed by nothing gives no event although it carries a well-formed timing
text; a "Timing:" line without a timing text gives no event although it carries a warning
word and an open-port shape. -/
theorem marker_lines_never_output_witness :
    (∀ u, processLine false "Stats: 1 hosts completed".toList = some u →
      u.Type_ ≠ "output".toList) ∧
    processLine false
      "Timing: About 42.50% done; ETC: 14:23 (0:05:10 remaining) Stats:".toList = none ∧
    processLine true "Timing: WARNING 80/tcp open http".toList = none :=
  ⟨(marker_lines_never_output false "Stats: 1 hosts completed".toList).1 (Or.inl (by decide)),
   (marker_lines_never_output false
      "Timing: About 42.50% done; ETC: 14:23 (0:05:10 remaining) Stats:".toList).2.1
      (by decide) (not_stats_followed _ (by decide)),
   (marker_lines_never_output true "Timing: WARNING 80/tcp open http".toList).2.2
      (by decide) (by decide) (not_timingText_of_not_about _ (by decide))⟩

/-- C7. Opaque passthrough: a line (the empty line included) that contains none of
"Starting Nmap", "Stats:", "Timing:" produces, for either value of the origin flag, exactly
one event, of type output, whose Output is the line unchanged and whose IsStderr is the flag;
and for every line the flag influences no other field of the event, nor whether there is
one. -/
theorem opaque_passthrough (line : List Char) :
    (¬ "Starting Nmap".toList <:+: line → ¬ "Stats:".toList <:+: line →
      ¬ "Timing:".toList <:+: line →
      ∀ isStderr, ∃ u, processLine isStderr line = some u ∧ u.Type_ = "output".toList ∧
        u.Output = line ∧ u.IsStderr = isStderr) ∧
    (∀ isStderr, (processLine isStderr line).map (fun u => { u with IsStderr := false }) =
      (processLine false line).map (fun u => { u with IsStderr := false })) := by
  constructor
  · intro h0 h1 h2 isStderr
    rcases processLine_cases isStderr line with
      h | ⟨_, h, _⟩ | ⟨_, _, h, _⟩ | ⟨_, _, _, o, port, h⟩
    · rcases findStringSubmatch_three_cases openPortRegex numGroups_openPort line with
        hf | ⟨w, a, b, c, hf⟩
      · rw [processLine_other_none isStderr line h0 h1 h2 hf] at h
        exact absurd h (by simp)
      · rw [processLine_other_some isStderr line w a b c [] h0 h1 h2 hf] at h
        exact absurd h (by simp)
    · exact absurd h h1
    · exact absurd h h2
    · exact ⟨_, h, rfl, rfl, rfl⟩
  · intro isStderr
    unfold processLine
    split_ifs
    · rfl
    · rfl
    · rfl
    · split <;> rfl

/-- Witness for C7: the empty line and a plain line, on both streams. -/
theorem opaque_passthrough_witness :
    (∀ isStderr, ∃ u, processLine isStderr [] = some u ∧ u.Type_ = "output".toList ∧
        u.Output = [] ∧ u.IsStderr = isStderr) ∧
    (∀ isStderr, ∃ u, processLine isStderr "Host is up (0.0010s latency).".toList = some u ∧
        u.Type_ = "output".toList ∧ u.Output = "Host is up (0.0010s latency).".toList ∧
        u.IsStderr = isStderr) ∧
    processLine true "Host is up (0.0010s latency).".toList =
      some { Type_ := "output".toList, Output := "Host is up (0.0010s latency).".toList,
             IsStderr := true } :=
  ⟨(opaque_passthrough []).1 (by decide) (by decide) (by decide),
   (opaque_passthrough "Host is up (0.0010s latency).".toList).1
      (by decide) (by decide) (by decide),
   by decide⟩

/-- C8 (as amended). If a scanner line (no line feed) contains "Timing:" and neither
"Starting Nmap" nor "Stats:", and its leftmost text matching
`About P% done; ETC: T (R remaining)` has P = `ip.fp`, T = `h:m` and R reaching to the last
" remaining)" of the line, then on either stream classification returns a timing event with
percent the float64 read from P (0 when P is out of the float64 range), etc = T and
remaining = R. A line without "Timing:" never gives a timing event. -/
theorem timing_classification (line : List Char) :
    (∀ pre ip fp h m R post, line = pre ++ TimingText ip fp h m R ++ post →
      Digits ip → Digits fp → Digits h → Digits m → R ≠ [] →
      "Timing:".toList <:+: line → ¬ "Starting Nmap".toList <:+: line →
      ¬ "Stats:".toList <:+: line → '\n' ∉ line →
      (∀ pre' ip' fp' h' m' R' post', Digits ip' → Digits fp' → Digits h' → Digits m' →
        R' ≠ [] → line = pre' ++ TimingText ip' fp' h' m' R' ++ post' →
        pre.length ≤ pre'.length) →
      ¬ " remaining)".toList <:+: post →
      ∀ isStderr, ∃ u, processLine isStderr line = some u ∧ u.Type_ = "timing".toList ∧
        u.Percent = scanPercent (ip ++ '.' :: fp) ∧ u.ETC = h ++ ':' :: m ∧
        u.Remaining = R) ∧
    (¬ "Timing:".toList <:+: line →
      ∀ isStderr u, processLine isStderr line = some u → u.Type_ ≠ "timing".toList) := by
  constructor
  · intro pre ip fp h m R post hline hip hfp hh hm hR hmark hstart hstats hnl hfirst hlast
      isStderr
    subst hline
    exact ⟨_, processLine_timingText isStderr pre ip fp h m R post hip hfp hh hm hR hmark hstart
      hstats hnl hfirst hlast, rfl, rfl, rfl, rfl⟩
  · intro hno isStderr u hu
    rcases processLine_cases isStderr line with
      h | ⟨_, _, info, h⟩ | ⟨_, _, h, _⟩ | ⟨_, _, _, o, port, h⟩
    · rw [h] at hu; exact absurd hu (by simp)
    · rw [h, Option.some.injEq] at hu
      subst hu
      show "stats".toList ≠ "timing".toList
      decide
    · exact absurd h hno
    · rw [h, Option.some.injEq] at hu
      subst hu
      show "output".toList ≠ "timing".toList
      decide

/-- Witness for C8: the specification's timing line, on the error stream. -/
theorem timing_classification_witness :
    ∃ u, processLine true
        "Timing: About 42.50% done; ETC: 14:23 (0:05:10 remaining)".toList = some u ∧
      u.Type_ = "timing".toList ∧ u.Percent = scanPercent ("42".toList ++ '.' :: "50".toList) ∧
      u.ETC = "14".toList ++ ':' :: "23".toList ∧ u.Remaining = "0:05:10".toList :=
  (timing_classification "Timing: About 42.50% done; ETC: 14:23 (0:05:10 remaining)".toList).1
    "Timing: ".toList "42".toList "50".toList "14".toList "23".toList "0:05:10".toList []
    (by decide) (by decide) (by decide) (by decide) (by decide) (by decide) (by decide)
    (by decide) (by decide) (by decide)
    (timing_first_of_about "Timing: ".toList "42".toList "50".toList "14".toList "23".toList
      "0:05:10".toList [] (by decide))
    (by decide) true

/-- Counterexample to C8 as stated: this line matches `About P% done; ETC: T (R remaining)`
but has no "Timing:" marker, and is classified as plain output. -/
theorem timing_classification_counterexample :
    "About 42.50% done; ETC: 14:23 (0:05:10 remaining)".toList =
      TimingText "42".toList "50".toList "14".toList "23".toList "0:05:10".toList ∧
    processLine false "About 42.50% done; ETC: 14:23 (0:05:10 remaining)".toList =
      some { Type_ := "output".toList,
             Output := "About 42.50% done; ETC: 14:23 (0:05:10 remaining)".toList } := by
  decide

/-- C9 (as amended). Every timing event produced by `processLine` carries a percent value
that is not negative; nothing bounds it by 100. -/
theorem timing_percent_nonneg (isStderr : Bool) (line : List Char) (u : StatusUpdate)
    (hu : processLine isStderr line = some u) (ht : u.Type_ = "timing".toList) :
    0 ≤ u.Percent := by
  rcases processLine_cases isStderr line with
    h | ⟨_, _, info, h⟩ | ⟨_, _, _, p, e, r, h⟩ | ⟨_, _, _, o, port, h⟩
  · rw [h] at hu; exact absurd hu (by simp)
  · rw [h, Option.some.injEq] at hu
    subst hu
    exact le_refl _
  · rw [h, Option.some.injEq] at hu
    subst hu
    exact scanPercent_nonneg p
  · rw [h, Option.some.injEq] at hu
    subst hu
    exact le_refl _

/-- Witness for C9: the event of a line that reports 150 percent. -/
theorem timing_percent_nonneg_witness :
    (0 : Float64) ≤
      StatusUpdate.Percent { Type_ := "timing".toList, Percent := 150, ETC := "14:23".toList,
                             Remaining := "0:05:10".toList } :=
  timing_percent_nonneg false
    "Timing: About 150.00% done; ETC: 14:23 (0:05:10 remaining)".toList _ (by decide!) (by decide)

/-- Counterexample to C9 as stated: the pattern accepts any digits, so a line can report
150 percent, and the event carries 150. -/
theorem timing_percent_counterexample :
    processLine false "Timing: About 150.00% done; ETC: 14:23 (0:05:10 remaining)".toList =
      some { Type_ := "timing".toList, Percent := 150, ETC := "14:23".toList,
             Remaining := "0:05:10".toList } ∧
    ¬ ((0 : Float64) ≤ 150 ∧ (150 : Float64) ≤ 100) := by
  decide!

/-! ## The pattern `(?i)warning|caution` -/

theorem ofNat_upper_of_lower (n : Nat) (h1 : 65 ≤ n) (h2 : n ≤ 90) (c : Char)
    (h : Char.ofNat (n + 32) = c) : Char.ofNat n = c.toUpper := by
  subst h
  interval_cases n <;> decide

theorem toLower_toUpper_ofNat (m : Nat) (h1 : 97 ≤ m) (h2 : m ≤ 122) :
    (Char.ofNat m).toUpper.toLower = Char.ofNat m := by
  interval_cases m <;> decide

theorem toLower_eq_iff (x c : Char) (hc : 97 ≤ c.toNat ∧ c.toNat ≤ 122) :
    x.toLower = c ↔ x = c ∨ x = c.toUpper := by
  constructor
  · intro h
    unfold Char.toLower at h
    simp only at h
    split at h
    · rename_i hx
      right
      have := ofNat_upper_of_lower x.toNat hx.1 hx.2 c h
      rwa [Char.ofNat_toNat] at this
    · exact Or.inl h
  · rintro (rfl | rfl)
    · unfold Char.toLower
      simp only
      rw [if_neg]
      omega
    · have := toLower_toUpper_ofNat c.toNat hc.1 hc.2
      rwa [Char.ofNat_toNat] at this

theorem toLower_lower (c : Char) (hc : 97 ≤ c.toNat ∧ c.toNat ≤ 122) : c.toLower = c :=
  (toLower_eq_iff c c hc).2 (Or.inl rfl)

theorem foldClass_iff (x c : Char) (hc : 97 ≤ c.toNat ∧ c.toNat ≤ 122) :
    (x == c.toLower || x == c.toUpper) = true ↔ x.toLower = c := by
  rw [toLower_eq_iff x c hc, toLower_lower c hc]
  simp

theorem lang_litFold (l w : List Char) (hl : l ≠ [])
    (hall : ∀ c ∈ l, 97 ≤ c.toNat ∧ c.toNat ≤ 122) :
    (Regex.litFold l).Lang w ↔ w.map Char.toLower = l := by
  induction l generalizing w with
  | nil => exact absurd rfl hl
  | cons c t ih =>
    have hc := hall c (by simp)
    cases t with
    | nil =>
      simp only [Regex.litFold, Regex.Lang, foldClass_iff _ c hc]
      constructor
      · rintro ⟨x, hx, rfl⟩
        simp [hx]
      · intro h
        match w, h with
        | [x], h => exact ⟨x, by simpa using h, rfl⟩
    | cons d t =>
      have ih' := fun w => ih w (List.cons_ne_nil d t)
        (fun c hc => hall c (List.mem_cons_of_mem _ hc))
      simp only [Regex.litFold, Regex.Lang, ih', foldClass_iff _ c hc]
      constructor
      · rintro ⟨u, v, ⟨x, hx, rfl⟩, hv, rfl⟩
        simp [hx, hv]
      · intro h
        match w, h with
        | x :: v, h =>
          simp only [List.map_cons, List.cons.injEq] at h
          exact ⟨[x], v, ⟨x, h.1, rfl⟩, h.2, rfl⟩

theorem lang_warning (w : List Char) :
    warningRegex.Lang w ↔
      w.map Char.toLower = "warning".toList ∨ w.map Char.toLower = "caution".toList := by
  rw [warningRegex, lang_alt, lang_litFold _ _ (by decide) (by decide),
    lang_litFold _ _ (by decide) (by decide)]

/-- C6. Warning flag: for a line classified as an output event, WarningLine is true exactly
when the line contains, ignoring letter case, the substring "warning" or the substring
"caution"; the stream origin and the open-port shape play no part. -/
theorem warning_flag (isStderr : Bool) (line : List Char) (u : StatusUpdate)
    (hu : processLine isStderr line = some u) (ht : u.Type_ = "output".toList) :
    u.WarningLine = true ↔
      ∃ a w b, line = a ++ w ++ b ∧
        (w.map Char.toLower = "warning".toList ∨ w.map Char.toLower = "caution".toList) := by
  have hw : u.WarningLine = MatchString warningRegex line := by
    rcases processLine_cases isStderr line with
      h | ⟨_, _, info, h⟩ | ⟨_, _, _, p, e, r, h⟩ | ⟨_, _, _, o, port, h⟩
    · rw [h] at hu; exact absurd hu (by simp)
    · rw [h, Option.some.injEq] at hu
      subst hu
      exact absurd (show "stats".toList = "output".toList from ht) (by decide)
    · rw [h, Option.some.injEq] at hu
      subst hu
      exact absurd (show "timing".toList = "output".toList from ht) (by decide)
    · rw [h, Option.some.injEq] at hu
      subst hu
      rfl
  rw [hw, matchString_iff]
  constructor
  · rintro ⟨a, w, b, hlang, rfl⟩
    exact ⟨a, w, b, rfl, (lang_warning w).1 hlang⟩
  · rintro ⟨a, w, b, rfl, h⟩
    exact ⟨a, w, b, (lang_warning w).2 h, rfl⟩

/-- Witness for C6: the specification's warning line on the error stream, and the words
"Caution" and "precautionary"; a line without either word is not flagged. -/
theorem warning_flag_witness :
    (∃ a w b, "WARNING: scan may be slow".toList = a ++ w ++ b ∧
        (w.map Char.toLower = "warning".toList ∨ w.map Char.toLower = "caution".toList)) ∧
    processLine true "WARNING: scan may be slow".toList =
      some { Type_ := "output".toList, Output := "WARNING: scan may be slow".toList,
             IsStderr := true, WarningLine := true } ∧
    processLine false "Caution 80/tcp open http".toList =
      some { Type_ := "output".toList, Output := "Caution 80/tcp open http".toList,
             WarningLine := true, OpenPort := true,
             PortInfo := { Port := "80".toList, Protocol := "tcp".toList,
                           Service := "http".toList } } ∧
    processLine false "a precautionary note".toList =
      some { Type_ := "output".toList, Output := "a precautionary note".toList,
             WarningLine := true } ∧
    processLine false "Host is up.".toList =
      some { Type_ := "output".toList, Output := "Host is up.".toList } :=
  ⟨(warning_flag true "WARNING: scan may be slow".toList
      { Type_ := "output".toList, Output := "WARNING: scan may be slow".toList,
        IsStderr := true, WarningLine := true } (by decide) (by decide)).1 (by decide),
   by decide, by decide, by decide, by decide⟩

/-! ## The pattern `(\d+)/(tcp|udp)(?:\s+|\t+)open(?:\s+|\t+)(.+)` -/

theorem openPortText_eq (D P w1 w2 S : List Char) :
    OpenPortText D P w1 w2 S = D ++ ('/' :: (P ++ (w1 ++ ("open".toList ++ (w2 ++ S))))) := by
  simp only [OpenPortText, List.append_assoc, List.cons_append]

theorem run_alt_cons {r s : Regex} {inp : List Char} {cs : Caps}
    {l : List (List Char × Caps)} {st : List Char × Caps} (h : r.run inp cs = st :: l) :
    ∃ t, (Regex.alt r s).run inp cs = st :: t :=
  ⟨l ++ s.run inp cs, by simp [Regex.run, h]⟩

theorem run_group_append {r : Regex} {w rest : List Char} {cs cs' : Caps} (i : Nat)
    {l : List (List Char × Caps)} (h : r.run (w ++ rest) cs = (rest, cs') :: l) :
    ∃ t, (Regex.group i r).run (w ++ rest) cs = (rest, (i, w) :: cs') :: t := by
  obtain ⟨t, ht⟩ := run_group_cons i h
  refine ⟨t, ?_⟩
  rw [ht]
  simp only [take_append_length_sub]

theorem isTab_isSpace (c : Char) (h : isTab c = true) : isSpace c = true := by
  simp only [isTab, beq_iff_eq] at h
  subst h
  decide

theorem lang_spaces (w : List Char) :
    (Regex.alt (Regex.plus isSpace) (Regex.plus isTab)).Lang w ↔ Spaces w := by
  rw [lang_alt, lang_plus, lang_plus]
  constructor
  · rintro (h | h)
    · exact h
    · exact ⟨h.1, fun c hc => isTab_isSpace c (h.2 c hc)⟩
  · intro h
    exact Or.inl h

theorem run_spaces (w rest : List Char) (cs : Caps) (hw : Spaces w)
    (hrest : plusRests isSpace rest = []) :
    ∃ t, (Regex.alt (Regex.plus isSpace) (Regex.plus isTab)).run (w ++ rest) cs =
      (rest, cs) :: t := by
  obtain ⟨t, ht⟩ := run_plus_stop isSpace w rest cs hw.1 hw.2 hrest
  exact run_alt_cons ht

theorem run_protocol (P rest : List Char) (cs : Caps)
    (hP : P = "tcp".toList ∨ P = "udp".toList) :
    ∃ t, (Regex.group 2 (Regex.alt (Regex.lit "tcp".toList) (Regex.lit "udp".toList))).run
      (P ++ rest) cs = (rest, (2, P) :: cs) :: t := by
  have h : ∃ l, (Regex.alt (Regex.lit "tcp".toList) (Regex.lit "udp".toList)).run
      (P ++ rest) cs = (rest, cs) :: l := by
    rcases hP with rfl | rfl
    · exact run_alt_cons (run_lit_append "tcp".toList rest cs (by decide))
    · exact ⟨[], by simp [Regex.run, Regex.lit]⟩
  obtain ⟨l, hl⟩ := h
  exact run_group_append 2 hl

theorem lang_protocol (w : List Char) :
    (Regex.group 2 (Regex.alt (Regex.lit "tcp".toList) (Regex.lit "udp".toList))).Lang w ↔
      w = "tcp".toList ∨ w = "udp".toList := by
  rw [lang_group, lang_alt, lang_lit _ _ (by decide), lang_lit _ _ (by decide)]

theorem plusRests_of_head (p : Char → Bool) (S : List Char)
    (h : ∀ c, S.head? = some c → p c = false) : plusRests p S = [] := by
  cases S with
  | nil => rfl
  | cons c t => exact plusRests_stop p c t (h c rfl)

theorem run_openPort (D P w1 w2 S : List Char) (hD : Digits D)
    (hP : P = "tcp".toList ∨ P = "udp".toList) (hw1 : Spaces w1) (hw2 : Spaces w2)
    (hS : S ≠ []) (hdot : ∀ c ∈ S, isDot c = true)
    (hhead : ∀ c, S.head? = some c → isSpace c = false) :
    ∃ t, openPortRegex.run (OpenPortText D P w1 w2 S) [] =
      ([], [(3, S), (2, P), (1, D)]) :: t := by
  obtain ⟨t7, s7⟩ := run_plus_all isDot S [(2, P), (1, D)] hS hdot
  obtain ⟨t7', s7'⟩ := @run_group_append (Regex.plus isDot) S [] [(2, P), (1, D)]
    [(2, P), (1, D)] 3 t7 (by simpa using s7)
  rw [List.append_nil] at s7'
  obtain ⟨t6, s6⟩ := run_spaces w2 S [(2, P), (1, D)] hw2 (plusRests_of_head _ _ hhead)
  obtain ⟨t6', s6'⟩ := run_cat_cons s6 s7'
  obtain ⟨t5, s5⟩ := run_cat_cons (run_lit_append "open".toList _ _ (by decide)) s6'
  obtain ⟨t4, s4⟩ := run_spaces w1 ("open".toList ++ (w2 ++ S)) [(2, P), (1, D)] hw1
    (by simp [plusRests, isSpace])
  obtain ⟨t4', s4'⟩ := run_cat_cons s4 s5
  obtain ⟨t3, s3⟩ := run_protocol P (w1 ++ ("open".toList ++ (w2 ++ S))) [(1, D)] hP
  obtain ⟨t3', s3'⟩ := run_cat_cons s3 s4'
  have s2 : (Regex.char '/').run ('/' :: (P ++ (w1 ++ ("open".toList ++ (w2 ++ S))))) [(1, D)] =
      [(P ++ (w1 ++ ("open".toList ++ (w2 ++ S))), [(1, D)])] := by
    simp [Regex.run]
  obtain ⟨t2', s2'⟩ := run_cat_cons s2 s3'
  obtain ⟨t1, s1⟩ := run_plus_stop isDigit D
    ('/' :: (P ++ (w1 ++ ("open".toList ++ (w2 ++ S))))) [] hD.1 hD.2
    (plusRests_stop _ _ _ (by decide))
  obtain ⟨t1', s1'⟩ := run_group_append 1 s1
  obtain ⟨t0, s0⟩ := run_cat_cons s1' s2'
  exact ⟨t0, by rw [openPortText_eq]; exact s0⟩

theorem lang_openPort (w : List Char) :
    openPortRegex.Lang w ↔
      ∃ D P w1 w2 S, Digits D ∧ (P = "tcp".toList ∨ P = "udp".toList) ∧ Spaces w1 ∧
        Spaces w2 ∧ S ≠ [] ∧ (∀ c ∈ S, isDot c = true) ∧ w = OpenPortText D P w1 w2 S := by
  unfold openPortRegex
  constructor
  · intro hw
    rw [lang_cat] at hw
    obtain ⟨u1, v1, h1, hw, rfl⟩ := hw
    rw [lang_cat] at hw
    obtain ⟨u2, v2, h2, hw, rfl⟩ := hw
    rw [lang_cat] at hw
    obtain ⟨u3, v3, h3, hw, rfl⟩ := hw
    rw [lang_cat] at hw
    obtain ⟨u4, v4, h4, hw, rfl⟩ := hw
    rw [lang_cat] at hw
    obtain ⟨u5, v5, h5, hw, rfl⟩ := hw
    rw [lang_cat] at hw
    obtain ⟨u6, v6, h6, h7, rfl⟩ := hw
    rw [lang_group, lang_plus] at h1 h7
    rw [lang_char] at h2
    rw [lang_lit _ _ (by decide)] at h5
    subst h2 h5
    exact ⟨u1, u3, u4, u6, v6, h1, (lang_protocol _).1 h3, (lang_spaces _).1 h4,
      (lang_spaces _).1 h6, h7.1, h7.2, by rw [openPortText_eq]; rfl⟩
  · rintro ⟨D, P, w1, w2, S, hD, hP, hw1, hw2, hS, hdot, rfl⟩
    rw [openPortText_eq]
    exact (lang_cat _ _ _).2 ⟨D, _, hD,
      (lang_cat _ _ _).2 ⟨['/'], _, rfl,
        (lang_cat _ _ _).2 ⟨P, _, (lang_protocol _).2 hP,
          (lang_cat _ _ _).2 ⟨w1, _, (lang_spaces _).2 hw1,
            (lang_cat _ _ _).2 ⟨_, _, (lang_lit _ _ (by decide)).2 rfl,
              (lang_cat _ _ _).2 ⟨w2, S, (lang_spaces _).2 hw2, ⟨hS, hdot⟩, rfl⟩,
              rfl⟩, rfl⟩, rfl⟩, rfl⟩, rfl⟩

theorem drop_of_eq_append (L pre sub rest : List Char) (h : L = pre ++ (sub ++ rest)) :
    pre.length ≤ L.length ∧ sub <+: L.drop pre.length ∧
      L.drop (pre.length + sub.length) = rest := by
  subst h
  refine ⟨by simp, ?_, ?_⟩
  · rw [List.drop_left]
    exact ⟨rest, rfl⟩
  · rw [← List.append_assoc, ← List.length_append, List.drop_left]

/-- Without "open" there is no open-port text. -/
theorem not_openPortText_of_not_open (line : List Char) (h : ¬ "open".toList <:+: line) :
    ¬ ∃ a b D P w1 w2 S, Digits D ∧ (P = "tcp".toList ∨ P = "udp".toList) ∧ Spaces w1 ∧
      Spaces w2 ∧ S ≠ [] ∧ line = a ++ OpenPortText D P w1 w2 S ++ b := by
  rintro ⟨a, b, D, P, w1, w2, S, _, _, _, _, _, heq⟩
  refine h ⟨a ++ (D ++ ('/' :: (P ++ w1))), w2 ++ S ++ b, ?_⟩
  rw [heq, openPortText_eq]
  simp only [List.append_assoc, List.cons_append]

/-- C5 (as amended). Open-port extraction, for a scanner line (no line feed) containing none
of "Starting Nmap", "Stats:", "Timing:". If the line consists of a non-empty ASCII digit
string D, "/", a protocol P in {tcp, udp}, a non-empty run of whitespace, "open", another
non-empty run of whitespace and a non-empty service text S that does not start with
whitespace, then `processLine` produces an output event with OpenPort = true and
PortInfo = {D, P, S}. If the line contains no substring of the shape D "/" P whitespace
"open" whitespace S with S any non-empty text (it may start with whitespace), then the output
event has OpenPort = false and an empty PortInfo. Whitespace is the class `\s` of the pattern:
space, tab, line feed, form feed, carriage return. -/
theorem open_port_extraction (isStderr : Bool) (line : List Char)
    (h0 : ¬ "Starting Nmap".toList <:+: line) (h1 : ¬ "Stats:".toList <:+: line)
    (h2 : ¬ "Timing:".toList <:+: line) (hnl : '\n' ∉ line) :
    (∀ D P w1 w2 S, line = OpenPortText D P w1 w2 S → Digits D →
      (P = "tcp".toList ∨ P = "udp".toList) → Spaces w1 → Spaces w2 → S ≠ [] →
      (∀ c, S.head? = some c → isSpace c = false) →
      processLine isStderr line =
        some { Type_ := "output".toList, Output := line, IsStderr := isStderr,
               WarningLine := MatchString warningRegex line, OpenPort := true,
               PortInfo := { Port := D, Protocol := P, Service := S } }) ∧
    ((¬ ∃ a b D P w1 w2 S, Digits D ∧ (P = "tcp".toList ∨ P = "udp".toList) ∧ Spaces w1 ∧
        Spaces w2 ∧ S ≠ [] ∧ line = a ++ OpenPortText D P w1 w2 S ++ b) →
      processLine isStderr line =
        some { Type_ := "output".toList, Output := line, IsStderr := isStderr,
               WarningLine := MatchString warningRegex line, OpenPort := false,
               PortInfo := { Port := [], Protocol := [], Service := [] } }) := by
  constructor
  · intro D P w1 w2 S hline hD hP hw1 hw2 hS hhead
    have hdot : ∀ c ∈ S, isDot c = true := by
      apply isDot_of_not_mem
      intro hc
      apply hnl
      rw [hline, openPortText_eq]
      simp only [List.mem_append, List.mem_cons]
      tauto
    obtain ⟨t, ht⟩ := run_openPort D P w1 w2 S hD hP hw1 hw2 hS hdot hhead
    have hf := findStringSubmatch_of_run _ _ _ _ _ ht
    rw [← hline] at hf
    refine processLine_other_some isStderr line line D P S [] h0 h1 h2 ?_
    rw [hf]
    simp [openPortRegex, Regex.numGroups, Regex.lit, List.range_succ, List.lookup]
  · intro hno
    apply processLine_other_none isStderr line h0 h1 h2
    rw [findStringSubmatch_eq_nil_iff]
    rintro ⟨a, w, b, hw, rfl⟩
    obtain ⟨D, P, w1, w2, S, hD, hP, hw1, hw2, hS, _, rfl⟩ := (lang_openPort w).1 hw
    exact hno ⟨a, b, D, P, w1, w2, S, hD, hP, hw1, hw2, hS, rfl⟩

/-- Witness for C5: the specification's third scenario gives {"80", "tcp", "http"}; a line
without "open" gives an event with OpenPort = false. -/
theorem open_port_extraction_witness :
    processLine false "80/tcp   open  http".toList =
      some { Type_ := "output".toList, Output := "80/tcp   open  http".toList,
             IsStderr := false, WarningLine := MatchString warningRegex "80/tcp   open  http".toList,
             OpenPort := true,
             PortInfo := { Port := "80".toList, Protocol := "tcp".toList,
                           Service := "http".toList } } ∧
    processLine true "Host is up.".toList =
      some { Type_ := "output".toList, Output := "Host is up.".toList, IsStderr := true,
             WarningLine := MatchString warningRegex "Host is up.".toList, OpenPort := false,
             PortInfo := { Port := [], Protocol := [], Service := [] } } :=
  ⟨(open_port_extraction false "80/tcp   open  http".toList (by decide) (by decide)
      (by decide) (by decide)).1 "80".toList "tcp".toList "   ".toList "  ".toList
      "http".toList (by decide) (by decide) (by decide) (by decide) (by decide) (by decide)
      (by decide),
   (open_port_extraction true "Host is up.".toList (by decide) (by decide) (by decide)
      (by decide)).2 (not_openPortText_of_not_open _ (by decide))⟩

/-- Counterexample to C5 as stated: the line "80/tcp open  " (two spaces at the end) is
classified as output and contains no substring of the claimed shape, because nothing that
does not start with a space follows the whitespace after "open"; yet OpenPort is true, with
Service " ". -/
theorem open_port_counterexample :
    (¬ "Starting Nmap".toList <:+: "80/tcp open  ".toList ∧
      ¬ "Stats:".toList <:+: "80/tcp open  ".toList ∧
      ¬ "Timing:".toList <:+: "80/tcp open  ".toList) ∧
    (¬ ∃ a b D P w1 w2 S, Digits D ∧ (P = "tcp".toList ∨ P = "udp".toList) ∧ Spaces w1 ∧
        Spaces w2 ∧ S ≠ [] ∧ (∀ c, S.head? = some c → c ≠ ' ') ∧
        "80/tcp open  ".toList = a ++ OpenPortText D P w1 w2 S ++ b) ∧
    processLine false "80/tcp open  ".toList =
      some { Type_ := "output".toList, Output := "80/tcp open  ".toList, OpenPort := true,
             PortInfo := { Port := "80".toList, Protocol := "tcp".toList,
                           Service := " ".toList } } := by
  refine ⟨by decide, ?_, by decide⟩
  rintro ⟨a, b, D, P, w1, w2, S, _, _, _, _, hS, hhead, heq⟩
  obtain ⟨s, S', rfl⟩ := List.exists_cons_of_ne_nil hS
  have hs : s ≠ ' ' := hhead s rfl
  have e : "80/tcp open  ".toList =
      (a ++ (D ++ ('/' :: (P ++ w1)))) ++ ("open".toList ++ (w2 ++ (s :: (S' ++ b)))) := by
    rw [heq, openPortText_eq]
    simp only [List.append_assoc, List.cons_append]
  obtain ⟨hle, hpre, hdrop⟩ := drop_of_eq_append _ _ _ _ e
  have hall : ∀ i ≤ "80/tcp open  ".toList.length,
      "open".toList <+: "80/tcp open  ".toList.drop i →
        ∀ c ∈ "80/tcp open  ".toList.drop (i + "open".toList.length), c = ' ' := by
    decide
  have hmem : s ∈ "80/tcp open  ".toList.drop
      ((a ++ (D ++ ('/' :: (P ++ w1)))).length + "open".toList.length) := by
    rw [hdrop]
    simp
  exact hs (hall _ hle hpre s hmem)

/-! ## The display state -/

theorem displayFrom_append (s : DisplayState) (l : List StatusUpdate) (u : StatusUpdate) :
    (displayFrom s (l ++ [u])).1 = (displayUpdate (displayFrom s l).1 u).1 := by
  induction l generalizing s with
  | nil => simp [displayFrom]
  | cons a l ih =>
    rw [List.cons_append]
    simp only [displayFrom]
    exact ih _

theorem displayUpdate_stats (s : DisplayState) (u : StatusUpdate)
    (h : u.Type_ = "stats".toList) :
    (displayUpdate s u).1 = { s with lastStats := u.StatsInfo } := by
  simp only [displayUpdate, h, if_true]

theorem displayUpdate_timing (s : DisplayState) (u : StatusUpdate)
    (h : u.Type_ = "timing".toList) :
    (displayUpdate s u).1 =
      { s with lastPercent := u.Percent, lastETC := u.ETC, lastRemaining := u.Remaining } := by
  have h' : ¬ "timing".toList = "stats".toList := by decide
  simp only [displayUpdate, h, h', if_true, if_false]

theorem displayUpdate_other (s : DisplayState) (u : StatusUpdate)
    (h1 : u.Type_ ≠ "stats".toList) (h2 : u.Type_ ≠ "timing".toList) :
    (displayUpdate s u).1 = s := by
  simp only [displayUpdate, h1, h2, if_false]
  split <;> rfl

/-- C10. The display state keeps only the most recent values: after `displayStatusUpdates`
has processed a finite sequence of events from the empty state, lastStats is the StatsInfo of
the last stats event ("" if none) and lastPercent, lastETC, lastRemaining are the fields of
the last timing event (0, "", "" if none); a stats event changes lastStats only, a timing
event leaves lastStats unchanged, and an output event leaves all four fields unchanged. -/
theorem display_state_latest (updates : List StatusUpdate) :
    (displayStatusUpdates updates).1 =
      { lastStats :=
          ((updates.reverse.find? (fun u => u.Type_ = "stats".toList)).map
            StatusUpdate.StatsInfo).getD [],
        lastPercent :=
          ((updates.reverse.find? (fun u => u.Type_ = "timing".toList)).map
            StatusUpdate.Percent).getD 0,
        lastETC :=
          ((updates.reverse.find? (fun u => u.Type_ = "timing".toList)).map
            StatusUpdate.ETC).getD [],
        lastRemaining :=
          ((updates.reverse.find? (fun u => u.Type_ = "timing".toList)).map
            StatusUpdate.Remaining).getD [] } ∧
    (∀ (s : DisplayState) (u : StatusUpdate), u.Type_ = "stats".toList →
      (displayUpdate s u).1 = { s with lastStats := u.StatsInfo }) ∧
    (∀ (s : DisplayState) (u : StatusUpdate), u.Type_ = "timing".toList →
      (displayUpdate s u).1 =
        { s with lastPercent := u.Percent, lastETC := u.ETC, lastRemaining := u.Remaining }) ∧
    (∀ (s : DisplayState) (u : StatusUpdate), u.Type_ = "output".toList →
      (displayUpdate s u).1 = s) := by
  refine ⟨?_, displayUpdate_stats, displayUpdate_timing, ?_⟩
  · unfold displayStatusUpdates
    induction updates using List.reverseRecOn with
    | nil => rfl
    | append_singleton l u ih =>
      rw [displayFrom_append, ih, List.reverse_append, List.reverse_singleton,
        List.singleton_append]
      by_cases h1 : u.Type_ = "stats".toList
      · have h2 : ¬ u.Type_ = "timing".toList := by rw [h1]; decide
        rw [displayUpdate_stats _ _ h1,
          List.find?_cons_of_pos _ (by simpa using h1),
          List.find?_cons_of_neg _ (by simpa using h2)]
        rfl
      · by_cases h2 : u.Type_ = "timing".toList
        · rw [displayUpdate_timing _ _ h2,
            List.find?_cons_of_neg _ (by simpa using h1),
            List.find?_cons_of_pos _ (by simpa using h2)]
          rfl
        · rw [displayUpdate_other _ _ h1 h2,
            List.find?_cons_of_neg _ (by simpa using h1),
            List.find?_cons_of_neg _ (by simpa using h2)]
  · intro s u h
    exact displayUpdate_other s u (by rw [h]; decide) (by rw [h]; decide)

/-- Witness for C10: a stats event, a timing event, an output event and a second stats
event leave the second stats text and the timing fields; the output event changes nothing. -/
theorem display_state_latest_witness :
    (displayStatusUpdates
      [{ Type_ := "stats".toList, StatsInfo := "a".toList },
       { Type_ := "timing".toList, Percent := 85 / 2, ETC := "14:23".toList,
         Remaining := "0:05:10".toList },
       { Type_ := "output".toList, Output := "80/tcp open http".toList },
       { Type_ := "stats".toList, StatsInfo := "b".toList }]).1 =
      { lastStats := "b".toList, lastPercent := 85 / 2, lastETC := "14:23".toList,
        lastRemaining := "0:05:10".toList } ∧
    (displayUpdate { lastStats := "a".toList, lastPercent := 85 / 2 }
      { Type_ := "output".toList, Output := "80/tcp open http".toList }).1 =
      { lastStats := "a".toList, lastPercent := 85 / 2 } :=
  ⟨(display_state_latest _).1.trans (by decide!),
   (display_state_latest []).2.2.2 _ _ (by decide)⟩

/-! ## The status line -/

/-- The text of the percentage part of a status line. -/
theorem displayStatusBar_eq (cl stats : List Char) (percent : Float64)
    (etc remaining : List Char) :
    displayStatusBar cl stats percent etc remaining =
      if stats = [] ∧ percent = 0 then []
      else
        cl ++
        (if percent > 0 then
          createColorProgressBar percent ++ " ".toList ++ colorGreen ++ formatFixed2 percent ++
            "%".toList ++ colorReset ++
          (if etc ≠ [] ∧ remaining ≠ [] then
            " ETC: ".toList ++ colorYellow ++ etc ++ colorReset ++ " (".toList ++ colorCyan ++
              remaining ++ colorReset ++ " remaining)".toList
           else [])
         else []) ++
        (if stats ≠ [] then
          (if percent > 0 then " | ".toList else []) ++
            (colorBlue ++ "Stats: ".toList ++ stats ++ colorReset)
         else []) ++
        "\r".toList := by
  unfold displayStatusBar
  by_cases h0 : stats = [] ∧ percent = 0
  · simp only [h0, and_self, if_true]
  · simp only [h0, if_false]
    by_cases hp : percent > 0 <;> by_cases he : etc ≠ [] ∧ remaining ≠ [] <;>
      by_cases hs : stats ≠ [] <;>
      simp only [hp, he, hs, if_true, if_false, List.append_assoc, List.append_nil,
        List.nil_append, not_false_eq_true, not_true_eq_false, ne_eq, and_self]

/-- C19. Status-line composition: for percent > 0, `displayStatusBar` writes exactly the
erase sequence, the progress bar, a space, the percentage to two decimals with a percent
sign, then the ETC / remaining segment if and only if etc and remaining are both non-empty,
then the separator " | " and the "Stats: " segment if and only if stats is non-empty, then a
carriage return; for percent = 0 with non-empty stats it writes only the erase sequence, the
"Stats: " segment without separator, and a carriage return. -/
theorem status_line_composition (stats etc remaining : List Char) (percent : Float64) :
    (0 < percent →
      displayStatusBar clearLine stats percent etc remaining =
        clearLine ++ createColorProgressBar percent ++ " ".toList ++
          (colorGreen ++ formatFixed2 percent ++ "%".toList ++ colorReset) ++
          (if etc ≠ [] ∧ remaining ≠ [] then
            " ETC: ".toList ++ (colorYellow ++ etc ++ colorReset) ++ " (".toList ++
              (colorCyan ++ remaining ++ colorReset) ++ " remaining)".toList
           else []) ++
          (if stats ≠ [] then
            " | ".toList ++ (colorBlue ++ "Stats: ".toList ++ stats ++ colorReset)
           else []) ++
          "\r".toList) ∧
    (percent = 0 → stats ≠ [] →
      displayStatusBar clearLine stats percent etc remaining =
        clearLine ++ (colorBlue ++ "Stats: ".toList ++ stats ++ colorReset) ++ "\r".toList) := by
  constructor
  · intro hp
    have h0 : ¬ (stats = [] ∧ percent = 0) := fun h => by rw [h.2] at hp; exact lt_irrefl _ hp
    have hp' : percent > 0 := hp
    rw [displayStatusBar_eq, if_neg h0, if_pos hp']
    by_cases he : etc ≠ [] ∧ remaining ≠ [] <;> by_cases hs : stats ≠ [] <;>
      simp only [he, hs, hp', if_true, if_false, List.append_assoc, List.append_nil,
        List.nil_append, not_false_eq_true, not_true_eq_false, ne_eq, and_self]
  · intro hp hs
    have h0 : ¬ (stats = [] ∧ percent = 0) := fun h => hs h.1
    have hp' : ¬ percent > 0 := by rw [hp]; exact lt_irrefl _
    rw [displayStatusBar_eq, if_neg h0, if_neg hp', if_pos hs, if_neg hp']
    simp only [List.append_assoc, List.append_nil, List.nil_append]

/-- Witness for C19: a full status line at 42.5 percent and a stats-only line. -/
theorem status_line_composition_witness :
    displayStatusBar clearLine "1 done".toList (85 / 2) "14:23".toList "0:05".toList =
      clearLine ++ createColorProgressBar (85 / 2) ++ " ".toList ++
        (colorGreen ++ formatFixed2 (85 / 2) ++ "%".toList ++ colorReset) ++
        (if "14:23".toList ≠ [] ∧ "0:05".toList ≠ [] then
          " ETC: ".toList ++ (colorYellow ++ "14:23".toList ++ colorReset) ++ " (".toList ++
            (colorCyan ++ "0:05".toList ++ colorReset) ++ " remaining)".toList
         else []) ++
        (if "1 done".toList ≠ [] then
          " | ".toList ++ (colorBlue ++ "Stats: ".toList ++ "1 done".toList ++ colorReset)
         else []) ++
        "\r".toList ∧
    formatFixed2 (85 / 2) = "42.50".toList ∧
    displayStatusBar clearLine "1 done".toList 0 [] [] =
      clearLine ++ (colorBlue ++ "Stats: ".toList ++ "1 done".toList ++ colorReset) ++
        "\r".toList :=
  ⟨(status_line_composition "1 done".toList "14:23".toList "0:05".toList (85 / 2)).1
      (by decide!),
   by decide!,
   (status_line_composition "1 done".toList [] [] 0).2 rfl (by decide)⟩

/-! ## The percentage to two decimals -/

theorem digitChar_isDigit (k : Nat) (h : k < 10) : isDigit (Nat.digitChar k) = true := by
  interval_cases k <;> decide

theorem digitVal_digitChar (k : Nat) (h : k < 10) : digitVal (Nat.digitChar k) = k := by
  interval_cases k <;> decide

theorem foldl_digits (l : List Char) (a : Nat) :
    l.foldl (fun a c => 10 * a + digitVal c) a = a * 10 ^ l.length + natOfDigits l := by
  induction l generalizing a with
  | nil => simp [natOfDigits]
  | cons c t ih =>
    simp only [List.foldl_cons, natOfDigits, List.length_cons]
    rw [ih, ih (10 * 0 + digitVal c)]
    ring

theorem natOfDigits_cons (c : Char) (l : List Char) :
    natOfDigits (c :: l) = digitVal c * 10 ^ l.length + natOfDigits l := by
  have := foldl_digits l (10 * 0 + digitVal c)
  simp only [natOfDigits, List.foldl_cons] at this ⊢
  rw [this]
  ring

theorem natOfDigits_append (a b : List Char) :
    natOfDigits (a ++ b) = natOfDigits a * 10 ^ b.length + natOfDigits b := by
  induction a with
  | nil => simp [natOfDigits]
  | cons c t ih =>
    rw [List.cons_append, natOfDigits_cons, natOfDigits_cons, ih, List.length_append]
    ring

theorem toDigitsCore_spec (fuel : Nat) : ∀ (n : Nat) (ds : List Char), n < fuel →
    (∀ c ∈ ds, isDigit c = true) →
    (∀ c ∈ Nat.toDigitsCore 10 fuel n ds, isDigit c = true) ∧
      Nat.toDigitsCore 10 fuel n ds ≠ [] ∧
      natOfDigits (Nat.toDigitsCore 10 fuel n ds) = n * 10 ^ ds.length + natOfDigits ds := by
  induction fuel with
  | zero => intro n ds h; exact absurd h (Nat.not_lt_zero _)
  | succ fuel ih =>
    intro n ds hn hds
    have hd : isDigit (Nat.digitChar (n % 10)) = true :=
      digitChar_isDigit _ (Nat.mod_lt _ (by decide))
    have hall : ∀ c ∈ Nat.digitChar (n % 10) :: ds, isDigit c = true := by
      intro c hc
      rcases List.mem_cons.1 hc with rfl | hc
      · exact hd
      · exact hds c hc
    simp only [Nat.toDigitsCore]
    by_cases h0 : n / 10 = 0
    · simp only [h0, if_true]
      refine ⟨hall, by simp, ?_⟩
      rw [natOfDigits_cons, digitVal_digitChar _ (Nat.mod_lt _ (by decide))]
      have : n % 10 = n := Nat.mod_eq_of_lt (by omega)
      rw [this]
    · simp only [h0, if_false]
      have hlt : n / 10 < fuel := by omega
      obtain ⟨h1, h2, h3⟩ := ih (n / 10) (Nat.digitChar (n % 10) :: ds) hlt hall
      refine ⟨h1, h2, ?_⟩
      rw [h3, natOfDigits_cons, digitVal_digitChar _ (Nat.mod_lt _ (by decide)),
        List.length_cons, pow_succ]
      have := Nat.div_add_mod n 10
      calc n / 10 * (10 ^ ds.length * 10) + (n % 10 * 10 ^ ds.length + natOfDigits ds)
          = (10 * (n / 10) + n % 10) * 10 ^ ds.length + natOfDigits ds := by ring
        _ = n * 10 ^ ds.length + natOfDigits ds := by rw [this]

theorem toDigits_spec (n : Nat) :
    Digits (Nat.toDigits 10 n) ∧ natOfDigits (Nat.toDigits 10 n) = n := by
  obtain ⟨h1, h2, h3⟩ := toDigitsCore_spec (n + 1) n [] (Nat.lt_succ_self n) (by simp)
  exact ⟨⟨h2, h1⟩, by simpa [natOfDigits, Nat.toDigits] using h3⟩

/-- The rounded quotient is within half a unit of the exact one. -/
theorem roundHalfEven_near (n d : Nat) (hd : 0 < d) :
    2 * (roundHalfEven n d * d) ≤ 2 * n + d ∧ 2 * n ≤ 2 * (roundHalfEven n d * d) + d := by
  have hdm := Nat.div_add_mod n d
  have hr := Nat.mod_lt n hd
  have hmul : (n / d + 1) * d = d * (n / d) + d := by ring
  have hmul' : n / d * d = d * (n / d) := Nat.mul_comm _ _
  unfold roundHalfEven
  simp only
  split_ifs <;> (first | rw [hmul] | rw [hmul']) <;> omega

/-- The text of `formatFixed2` for a value that is not negative: decimal digits, a point and
two digits, which read as the integer nearest to a hundred times the value. -/
theorem formatFixed2_spec (x : Float64) (hx : 0 ≤ x) :
    ∃ ip d1 d2, formatFixed2 x = ip ++ ['.', d1, d2] ∧ Digits ip ∧ isDigit d1 = true ∧
      isDigit d2 = true ∧ |((natOfDigits (ip ++ [d1, d2]) : ℕ) : ℚ) - 100 * x| ≤ 1 / 2 := by
  have hneg : ¬ x < 0 := not_lt.2 hx
  obtain ⟨hdig, hval⟩ := toDigits_spec (roundHalfEven (x.num.natAbs * 100) x.den / 100)
  refine ⟨_, Nat.digitChar (roundHalfEven (x.num.natAbs * 100) x.den / 10 % 10),
    Nat.digitChar (roundHalfEven (x.num.natAbs * 100) x.den % 10), ?_, hdig,
    digitChar_isDigit _ (Nat.mod_lt _ (by decide)),
    digitChar_isDigit _ (Nat.mod_lt _ (by decide)), ?_⟩
  · simp only [formatFixed2, hneg, if_false, List.nil_append]
  · rw [natOfDigits_append, hval, natOfDigits_cons, natOfDigits_cons]
    simp only [natOfDigits, List.foldl_nil, List.length_cons, List.length_nil,
      digitVal_digitChar _ (Nat.mod_lt _ (by decide : 0 < 10))]
    have hn : roundHalfEven (x.num.natAbs * 100) x.den / 100 * 10 ^ (0 + 1 + 1) +
        (roundHalfEven (x.num.natAbs * 100) x.den / 10 % 10 * 10 ^ (0 + 1) +
          (roundHalfEven (x.num.natAbs * 100) x.den % 10 * 10 ^ 0 + 0)) =
        roundHalfEven (x.num.natAbs * 100) x.den := by
      norm_num
      omega
    rw [hn]
    obtain ⟨h1, h2⟩ := roundHalfEven_near (x.num.natAbs * 100) x.den x.den_pos
    have hden : (0 : ℚ) < x.den := by exact_mod_cast x.den_pos
    have hxe : x = (x.num.natAbs : ℚ) / x.den := by
      have : ((x.num.natAbs : ℕ) : ℚ) = (x.num : ℚ) := by
        rw [Nat.cast_natAbs, abs_of_nonneg (Rat.num_nonneg.2 hx)]
      rw [this, Rat.num_div_den]
    have h1q : (2 : ℚ) * (roundHalfEven (x.num.natAbs * 100) x.den * x.den) ≤
        2 * ((x.num.natAbs : ℚ) * 100) + x.den := by exact_mod_cast h1
    have h2q : (2 : ℚ) * ((x.num.natAbs : ℚ) * 100) ≤
        2 * (roundHalfEven (x.num.natAbs * 100) x.den * x.den) + x.den := by exact_mod_cast h2
    have hxd : 100 * x * x.den = 100 * (x.num.natAbs : ℚ) := by
      rw [mul_assoc, (eq_div_iff hden.ne').1 hxe]
    rw [abs_le]
    constructor
    · rw [← sub_nonneg]
      have : 0 ≤ ((roundHalfEven (x.num.natAbs * 100) x.den : ℚ) - 100 * x - -(1 / 2)) *
          (2 * x.den) := by nlinarith
      exact nonneg_of_mul_nonneg_left this (by positivity)
    · rw [← sub_nonneg]
      have : 0 ≤ (1 / 2 - ((roundHalfEven (x.num.natAbs * 100) x.den : ℚ) - 100 * x)) *
          (2 * x.den) := by nlinarith
      exact nonneg_of_mul_nonneg_left this (by positivity)

/-! ## Characters of the status line -/

theorem isDigit_not_ctrl (c : Char) (h : isDigit c = true) : c ≠ '\n' ∧ c ≠ '\r' := by
  constructor <;> (rintro rfl; exact absurd h (by decide))

theorem mem_createColorProgressBar (percent : Float64) (c : Char)
    (h : c ∈ createColorProgressBar percent) :
    c ∈ "[]=> ".toList ++ colorGreen ++ colorYellow ++ colorReset := by
  unfold createColorProgressBar at h
  simp only [List.mem_append, List.mem_flatMap] at h ⊢
  rcases h with (h | ⟨i, _, h⟩) | h
  · have : c = '[' := by simpa using h
    subst this
    decide
  · split_ifs at h
    · simp only [List.mem_append] at h
      rcases h with (h | h) | h
      · tauto
      · have : c = '=' := by simpa using h
        subst this
        decide
      · tauto
    · simp only [List.mem_append] at h
      rcases h with (h | h) | h
      · tauto
      · have : c = '>' := by simpa using h
        subst this
        decide
      · tauto
    · have : c = ' ' := by simpa using h
      subst this
      decide
  · have : c = ']' := by simpa using h
    subst this
    decide

theorem createColorProgressBar_no_ctrl (percent : Float64) (c : Char)
    (hc : c = '\n' ∨ c = '\r') : c ∉ createColorProgressBar percent := by
  intro h
  have hm := mem_createColorProgressBar percent c h
  rcases hc with rfl | rfl
  · exact absurd hm (by decide)
  · exact absurd hm (by decide)

theorem formatFixed2_no_ctrl (x : Float64) (c : Char) (hc : c = '\n' ∨ c = '\r') :
    c ∉ formatFixed2 x := by
  intro h
  have hd := (toDigits_spec (roundHalfEven (x.num.natAbs * 100) x.den / 100)).1.2
  have h1 := digitChar_isDigit (roundHalfEven (x.num.natAbs * 100) x.den / 10 % 10)
    (Nat.mod_lt _ (by decide))
  have h2 := digitChar_isDigit (roundHalfEven (x.num.natAbs * 100) x.den % 10)
    (Nat.mod_lt _ (by decide))
  simp only [formatFixed2, List.mem_append, List.mem_cons, List.mem_singleton] at h
  rcases h with (h | h) | h | h | h | h
  · split_ifs at h
    · have : c = '-' := by simpa using h
      subst this
      rcases hc with hc | hc <;> exact absurd hc (by decide)
    · simp at h
  · have := isDigit_not_ctrl c (hd c h)
    tauto
  · subst h
    rcases hc with hc | hc <;> exact absurd hc (by decide)
  · subst h
    have := isDigit_not_ctrl _ h1
    tauto
  · subst h
    have := isDigit_not_ctrl _ h2
    tauto
  · simp at h

theorem colors_no_ctrl (c : Char) (hc : c = '\n' ∨ c = '\r') :
    c ∉ colorReset ∧ c ∉ colorRed ∧ c ∉ colorGreen ∧ c ∉ colorYellow ∧ c ∉ colorBlue ∧
      c ∉ colorCyan ∧ c ∉ colorBold := by
  rcases hc with rfl | rfl <;> decide

/-- The status content: what `displayStatusBar` writes between the erase sequence and the
final carriage return. -/
theorem displayStatusBar_content (cl stats : List Char) (percent : Float64)
    (etc remaining : List Char) (h0 : ¬ (stats = [] ∧ percent = 0)) :
    displayStatusBar cl stats percent etc remaining =
      cl ++
        ((if percent > 0 then
          createColorProgressBar percent ++ " ".toList ++ colorGreen ++ formatFixed2 percent ++
            "%".toList ++ colorReset ++
          (if etc ≠ [] ∧ remaining ≠ [] then
            " ETC: ".toList ++ colorYellow ++ etc ++ colorReset ++ " (".toList ++ colorCyan ++
              remaining ++ colorReset ++ " remaining)".toList
           else [])
         else []) ++
        (if stats ≠ [] then
          (if percent > 0 then " | ".toList else []) ++
            (colorBlue ++ "Stats: ".toList ++ stats ++ colorReset)
         else [])) ++
        ['\r'] := by
  rw [displayStatusBar_eq, if_neg h0]
  simp only [List.append_assoc]
  rfl

theorem statusContent_no_ctrl (stats : List Char) (percent : Float64)
    (etc remaining : List Char) (c : Char) (hc : c = '\n' ∨ c = '\r')
    (hs : c ∉ stats) (he : c ∉ etc) (hr : c ∉ remaining) :
    c ∉ (if percent > 0 then
          createColorProgressBar percent ++ " ".toList ++ colorGreen ++ formatFixed2 percent ++
            "%".toList ++ colorReset ++
          (if etc ≠ [] ∧ remaining ≠ [] then
            " ETC: ".toList ++ colorYellow ++ etc ++ colorReset ++ " (".toList ++ colorCyan ++
              remaining ++ colorReset ++ " remaining)".toList
           else [])
         else []) ++
        (if stats ≠ [] then
          (if percent > 0 then " | ".toList else []) ++
            (colorBlue ++ "Stats: ".toList ++ stats ++ colorReset)
         else []) := by
  obtain ⟨k1, k2, k3, k4, k5, k6, k7⟩ := colors_no_ctrl c hc
  have hb := createColorProgressBar_no_ctrl percent c hc
  have hf := formatFixed2_no_ctrl percent c hc
  have l1 : c ∉ " ".toList := by rcases hc with rfl | rfl <;> decide
  have l2 : c ∉ "%".toList := by rcases hc with rfl | rfl <;> decide
  have l3 : c ∉ " ETC: ".toList := by rcases hc with rfl | rfl <;> decide
  have l4 : c ∉ " (".toList := by rcases hc with rfl | rfl <;> decide
  have l5 : c ∉ " remaining)".toList := by rcases hc with rfl | rfl <;> decide
  have l6 : c ∉ " | ".toList := by rcases hc with rfl | rfl <;> decide
  have l7 : c ∉ "Stats: ".toList := by rcases hc with rfl | rfl <;> decide
  intro h
  rw [List.mem_append] at h
  rcases h with h | h
  · split_ifs at h
    · simp only [List.mem_append] at h
      tauto
    · simp only [List.mem_append] at h
      simp only [List.not_mem_nil, or_false] at h
      tauto
    · simp at h
  · split_ifs at h
    · simp only [List.mem_append] at h
      tauto
    · simp only [List.mem_append] at h
      simp only [List.not_mem_nil, false_or] at h
      tauto
    · simp at h

theorem displayStatusBar_no_lineFeed (stats etc remaining : List Char) (percent : Float64)
    (hs : '\n' ∉ stats) (he : '\n' ∉ etc) (hr : '\n' ∉ remaining) :
    '\n' ∉ displayStatusBar clearLine stats percent etc remaining := by
  by_cases h0 : stats = [] ∧ percent = 0
  · rw [displayStatusBar_eq, if_pos h0]
    exact List.not_mem_nil _
  · rw [displayStatusBar_content clearLine stats percent etc remaining h0]
    have hcont := statusContent_no_ctrl stats percent etc remaining '\n' (Or.inl rfl) hs he hr
    intro h
    simp only [List.mem_append, List.mem_singleton] at h
    rcases h with (h | h) | h
    · exact absurd h (by decide)
    · exact hcont (by simpa only [List.mem_append] using h)
    · exact absurd h (by decide)

/-- C14 (as amended). Whenever `displayStatusBar` renders a status line with percent > 0,
the line consists of the erase sequence, the 20-cell progress bar, a space and the percentage
formatted to two decimal places (decimal digits, a point and two digits, which read as the
integer nearest to a hundred times the percentage), followed by the rest of the line. When
percent = 0 and stats is non-empty, the line holds the "Stats: " segment only: no bar and no
percentage. -/
theorem status_line_percentage (stats etc remaining : List Char) (percent : Float64) :
    (0 < percent →
      (∃ tail, displayStatusBar clearLine stats percent etc remaining =
        clearLine ++ createColorProgressBar percent ++ " ".toList ++
          (colorGreen ++ formatFixed2 percent ++ "%".toList ++ colorReset) ++ tail) ∧
      ∃ ip d1 d2, formatFixed2 percent = ip ++ ['.', d1, d2] ∧ Digits ip ∧
        isDigit d1 = true ∧ isDigit d2 = true ∧
        |((natOfDigits (ip ++ [d1, d2]) : ℕ) : ℚ) - 100 * percent| ≤ 1 / 2) ∧
    (percent = 0 → stats ≠ [] →
      displayStatusBar clearLine stats percent etc remaining =
        clearLine ++ (colorBlue ++ "Stats: ".toList ++ stats ++ colorReset) ++ "\r".toList) := by
  constructor
  · intro hp
    refine ⟨?_, formatFixed2_spec percent (le_of_lt hp)⟩
    have h0 : ¬ (stats = [] ∧ percent = 0) := fun h => by rw [h.2] at hp; exact lt_irrefl _ hp
    have hp' : percent > 0 := hp
    rw [displayStatusBar_eq, if_neg h0, if_pos hp']
    refine ⟨(if etc ≠ [] ∧ remaining ≠ [] then
            " ETC: ".toList ++ colorYellow ++ etc ++ colorReset ++ " (".toList ++ colorCyan ++
              remaining ++ colorReset ++ " remaining)".toList
           else []) ++
        (if stats ≠ [] then
          (if percent > 0 then " | ".toList else []) ++
            (colorBlue ++ "Stats: ".toList ++ stats ++ colorReset)
         else []) ++
        "\r".toList, ?_⟩
    simp only [List.append_assoc]
  · intro hp hs
    have h0 : ¬ (stats = [] ∧ percent = 0) := fun h => hs h.1
    have hp' : ¬ percent > 0 := by rw [hp]; exact lt_irrefl _
    rw [displayStatusBar_eq, if_neg h0, if_neg hp', if_pos hs, if_neg hp']
    simp only [List.append_assoc, List.append_nil, List.nil_append]

/-- Witness for C14: at 42.5 percent the line starts with the bar and "42.50"; at 0 percent
with a stats text it holds the stats segment only. -/
theorem status_line_percentage_witness :
    ((∃ tail, displayStatusBar clearLine "1 done".toList (85 / 2) [] [] =
        clearLine ++ createColorProgressBar (85 / 2) ++ " ".toList ++
          (colorGreen ++ formatFixed2 (85 / 2) ++ "%".toList ++ colorReset) ++ tail) ∧
      ∃ ip d1 d2, formatFixed2 (85 / 2) = ip ++ ['.', d1, d2] ∧ Digits ip ∧
        isDigit d1 = true ∧ isDigit d2 = true ∧
        |((natOfDigits (ip ++ [d1, d2]) : ℕ) : ℚ) - 100 * (85 / 2)| ≤ 1 / 2) ∧
    formatFixed2 (85 / 2) = "42.50".toList ∧
    displayStatusBar clearLine "1 done".toList 0 [] [] =
      clearLine ++ (colorBlue ++ "Stats: ".toList ++ "1 done".toList ++ colorReset) ++
        "\r".toList :=
  ⟨(status_line_percentage "1 done".toList [] [] (85 / 2)).1 (by decide!),
   by decide!,
   (status_line_percentage "1 done".toList [] [] 0).2 rfl (by decide)⟩

/-- Counterexample to C14 as stated: with stats "1 done" and percent 0 a status line is
rendered (not both are empty), and it contains neither the progress bar nor the percentage
"0.00". -/
theorem status_line_percentage_counterexample :
    ¬ ("1 done".toList = [] ∧ (0 : Float64) = 0) ∧
    displayStatusBar clearLine "1 done".toList 0 [] [] =
      "\r\x1b[K\x1b[34mStats: 1 done\x1b[0m\r".toList ∧
    ¬ createColorProgressBar 0 <:+: displayStatusBar clearLine "1 done".toList 0 [] [] ∧
    formatFixed2 0 = "0.00".toList ∧
    ¬ formatFixed2 0 <:+: displayStatusBar clearLine "1 done".toList 0 [] [] := by
  decide!

/-- C15 (as amended). Status-line framing: every status line written by `displayStatusBar`
starts with the erase sequence (carriage return, ESC[K), holds no line feed whenever the
stats, ETC and remaining texts hold none, and ends with a carriage return written after the
status content, so that the cursor rests at the start of the status line; the status content
itself holds neither a line feed nor a carriage return when the three texts hold none. -/
theorem status_line_framing (stats etc remaining : List Char) (percent : Float64)
    (h0 : ¬ (stats = [] ∧ percent = 0)) :
    ∃ content, displayStatusBar clearLine stats percent etc remaining =
        clearLine ++ content ++ ['\r'] ∧
      clearLine = ['\r', '\x1b', '[', 'K'] ∧
      (∀ c, c = '\n' ∨ c = '\r' → c ∉ stats → c ∉ etc → c ∉ remaining → c ∉ content) ∧
      ('\n' ∉ stats → '\n' ∉ etc → '\n' ∉ remaining →
        '\n' ∉ displayStatusBar clearLine stats percent etc remaining) := by
  refine ⟨_, displayStatusBar_content clearLine stats percent etc remaining h0, by decide,
    fun c hc hs he hr => statusContent_no_ctrl stats percent etc remaining c hc hs he hr, ?_⟩
  exact displayStatusBar_no_lineFeed stats etc remaining percent

/-- Witness for C15: the stats-only line. -/
theorem status_line_framing_witness :
    ∃ content, displayStatusBar clearLine "1 done".toList 0 [] [] =
        clearLine ++ content ++ ['\r'] ∧
      clearLine = ['\r', '\x1b', '[', 'K'] ∧
      (∀ c, c = '\n' ∨ c = '\r' → c ∉ "1 done".toList → c ∉ ([] : List Char) →
        c ∉ ([] : List Char) → c ∉ content) ∧
      ('\n' ∉ "1 done".toList → '\n' ∉ ([] : List Char) → '\n' ∉ ([] : List Char) →
        '\n' ∉ displayStatusBar clearLine "1 done".toList 0 [] []) :=
  status_line_framing "1 done".toList [] [] 0 (by decide)

/-- Counterexample to C15 as stated: the status line for stats "1 done" does not end with
the status content; a carriage return is written after it, which moves the cursor to the
start of the line. -/
theorem status_line_framing_counterexample :
    displayStatusBar clearLine "1 done".toList 0 [] [] =
      clearLine ++ "\x1b[34mStats: 1 done\x1b[0m".toList ++ ['\r'] ∧
    displayStatusBar clearLine "1 done".toList 0 [] [] ≠
      clearLine ++ "\x1b[34mStats: 1 done\x1b[0m".toList ∧
    (displayStatusBar clearLine "1 done".toList 0 [] []).getLast? = some '\r' := by
  decide

/-! ## What `displayStatusUpdates` writes -/

theorem displayFrom_app (s : DisplayState) (l₁ l₂ : List StatusUpdate) :
    displayFrom s (l₁ ++ l₂) =
      ((displayFrom (displayFrom s l₁).1 l₂).1,
        (displayFrom s l₁).2 ++ (displayFrom (displayFrom s l₁).1 l₂).2) := by
  induction l₁ generalizing s with
  | nil => simp [displayFrom]
  | cons a l ih =>
    rw [List.cons_append]
    simp only [displayFrom]
    rw [ih]
    simp only [List.append_assoc]

theorem displayStatusBar_nothing (cl etc remaining : List Char) :
    displayStatusBar cl [] 0 etc remaining = [] := by
  simp [displayStatusBar]

theorem displayUpdate_stats_written (s : DisplayState) (u : StatusUpdate)
    (h : u.Type_ = "stats".toList) :
    (displayUpdate s u).2 =
      displayStatusBar clearLine u.StatsInfo s.lastPercent s.lastETC s.lastRemaining := by
  simp only [displayUpdate, h, if_true]

theorem displayUpdate_timing_written (s : DisplayState) (u : StatusUpdate)
    (h : u.Type_ = "timing".toList) :
    (displayUpdate s u).2 =
      displayStatusBar clearLine s.lastStats u.Percent u.ETC u.Remaining := by
  have h' : ¬ "timing".toList = "stats".toList := by decide
  simp only [displayUpdate, h, h', if_true, if_false]

theorem displayUpdate_output_written (s : DisplayState) (u : StatusUpdate)
    (h : u.Type_ = "output".toList) :
    (displayUpdate s u).2 =
      clearLine ++ permanentLine u ++
        displayStatusBar clearLine s.lastStats s.lastPercent s.lastETC s.lastRemaining := by
  have h1 : ¬ "output".toList = "stats".toList := by decide
  have h2 : ¬ "output".toList = "timing".toList := by decide
  simp only [displayUpdate, h, h1, h2, if_true, if_false, permanentLine]

theorem displayUpdate_other_written (s : DisplayState) (u : StatusUpdate)
    (h1 : u.Type_ ≠ "stats".toList) (h2 : u.Type_ ≠ "timing".toList)
    (h3 : u.Type_ ≠ "output".toList) : (displayUpdate s u).2 = [] := by
  simp only [displayUpdate, h1, h2, h3, if_false]

/-- Before the first progress signal only erase sequences and permanent lines are
written. -/
theorem displayFrom_quiet (l : List StatusUpdate) (s : DisplayState)
    (hs : s.lastStats = []) (hp : s.lastPercent = 0)
    (h1 : ∀ u ∈ l, u.Type_ = "stats".toList → u.StatsInfo = [])
    (h2 : ∀ u ∈ l, u.Type_ = "timing".toList → u.Percent = 0) :
    (displayFrom s l).2 =
      (l.filter (fun u => u.Type_ = "output".toList)).flatMap
        (fun u => clearLine ++ permanentLine u) := by
  induction l generalizing s with
  | nil => rfl
  | cons u l ih =>
    have h1' : ∀ v ∈ l, v.Type_ = "stats".toList → v.StatsInfo = [] :=
      fun v hv => h1 v (List.mem_cons_of_mem _ hv)
    have h2' : ∀ v ∈ l, v.Type_ = "timing".toList → v.Percent = 0 :=
      fun v hv => h2 v (List.mem_cons_of_mem _ hv)
    simp only [displayFrom]
    by_cases t1 : u.Type_ = "stats".toList
    · have t3 : ¬ u.Type_ = "output".toList := by rw [t1]; decide
      have hu := h1 u (List.mem_cons_self _ _) t1
      have e2 : (displayUpdate s u).2 = [] := by
        rw [displayUpdate_stats_written _ _ t1, hu, hp, displayStatusBar_nothing]
      rw [e2, displayUpdate_stats _ _ t1, List.nil_append,
        List.filter_cons_of_neg (by simpa using t3)]
      exact ih { s with lastStats := u.StatsInfo } hu hp h1' h2'
    · by_cases t2 : u.Type_ = "timing".toList
      · have t3 : ¬ u.Type_ = "output".toList := by rw [t2]; decide
        have hu := h2 u (List.mem_cons_self _ _) t2
        have e2 : (displayUpdate s u).2 = [] := by
          rw [displayUpdate_timing_written _ _ t2, hu, hs, displayStatusBar_nothing]
        rw [e2, displayUpdate_timing _ _ t2, List.nil_append,
          List.filter_cons_of_neg (by simpa using t3)]
        exact ih { s with lastPercent := u.Percent, lastETC := u.ETC,
                          lastRemaining := u.Remaining } hs hu h1' h2'
      · by_cases t3 : u.Type_ = "output".toList
        · have e2 : (displayUpdate s u).2 = clearLine ++ permanentLine u := by
            rw [displayUpdate_output_written _ _ t3, hs, hp, displayStatusBar_nothing,
              List.append_nil]
          rw [e2, displayUpdate_other _ _ t1 t2,
            List.filter_cons_of_pos (by simpa using t3), List.flatMap_cons,
            ih s hs hp h1' h2']
        · rw [displayUpdate_other_written _ _ t1 t2 t3, displayUpdate_other _ _ t1 t2,
            List.nil_append, List.filter_cons_of_neg (by simpa using t3)]
          exact ih s hs hp h1' h2'

/-- C11. No status line before the first progress signal: while the events processed hold no
stats event with non-empty text and no timing event with non-zero percent, everything
`displayStatusUpdates` writes for them is, per output event, the erase sequence and the
permanent line (and what is written for a prefix does not depend on the events after it);
`displayStatusBar` writes nothing when stats is empty and percent is 0, and writes a status
line, the erase sequence, a non-empty content and a carriage return, in every other case
with percent ≥ 0. -/
theorem no_status_line_before_progress :
    (∀ pre rest : List StatusUpdate,
      (∀ u ∈ pre, u.Type_ = "stats".toList → u.StatsInfo = []) →
      (∀ u ∈ pre, u.Type_ = "timing".toList → u.Percent = 0) →
      (displayStatusUpdates pre).2 =
        (pre.filter (fun u => u.Type_ = "output".toList)).flatMap
          (fun u => clearLine ++ permanentLine u) ∧
      (displayStatusUpdates (pre ++ rest)).2 =
        (displayStatusUpdates pre).2 ++ (displayFrom (displayStatusUpdates pre).1 rest).2) ∧
    (∀ cl etc remaining, displayStatusBar cl [] 0 etc remaining = []) ∧
    (∀ (stats etc remaining : List Char) (percent : Float64), 0 ≤ percent →
      ¬ (stats = [] ∧ percent = 0) →
      ∃ content, content ≠ [] ∧
        displayStatusBar clearLine stats percent etc remaining =
          clearLine ++ content ++ ['\r']) := by
  refine ⟨?_, displayStatusBar_nothing, ?_⟩
  · intro pre rest h1 h2
    refine ⟨displayFrom_quiet pre {} rfl rfl h1 h2, ?_⟩
    simp only [displayStatusUpdates, displayFrom_app]
  · intro stats etc remaining percent hp h0
    refine ⟨_, ?_, displayStatusBar_content clearLine stats percent etc remaining h0⟩
    by_cases hpos : percent > 0
    · rw [if_pos hpos]
      have hbar : createColorProgressBar percent ≠ [] := by
        unfold createColorProgressBar
        simp
      simp [hbar]
    · have hz : percent = 0 := le_antisymm (not_lt.1 hpos) hp
      have hs : stats ≠ [] := fun h => h0 ⟨h, hz⟩
      rw [if_neg hpos, if_pos hs, if_neg hpos]
      simp [colorBlue]

/-- Witness for C11: a timing event with percent 0, a stats event without text and an output
event write the erase sequence and the permanent line only; a stats text gives a status
line. -/
theorem no_status_line_before_progress_witness :
    ((displayStatusUpdates
        [{ Type_ := "timing".toList, ETC := "14:23".toList, Remaining := "1:00".toList },
         { Type_ := "stats".toList },
         { Type_ := "output".toList, Output := "Host is up.".toList }]).2 =
      ([{ Type_ := "timing".toList, ETC := "14:23".toList, Remaining := "1:00".toList },
         { Type_ := "stats".toList },
         { Type_ := "output".toList, Output := "Host is up.".toList }].filter
          (fun u : StatusUpdate => u.Type_ = "output".toList)).flatMap
        (fun u => clearLine ++ permanentLine u) ∧
      (displayStatusUpdates
        ([{ Type_ := "timing".toList, ETC := "14:23".toList, Remaining := "1:00".toList },
         { Type_ := "stats".toList },
         { Type_ := "output".toList, Output := "Host is up.".toList }] ++ [])).2 =
        (displayStatusUpdates
          [{ Type_ := "timing".toList, ETC := "14:23".toList, Remaining := "1:00".toList },
           { Type_ := "stats".toList },
           { Type_ := "output".toList, Output := "Host is up.".toList }]).2 ++
        (displayFrom (displayStatusUpdates
          [{ Type_ := "timing".toList, ETC := "14:23".toList, Remaining := "1:00".toList },
           { Type_ := "stats".toList },
           { Type_ := "output".toList, Output := "Host is up.".toList }]).1 []).2) ∧
    (displayStatusUpdates
        [{ Type_ := "timing".toList, ETC := "14:23".toList, Remaining := "1:00".toList },
         { Type_ := "stats".toList },
         { Type_ := "output".toList, Output := "Host is up.".toList }]).2 =
      "\r\x1b[KHost is up.\n".toList ∧
    ∃ content, content ≠ [] ∧
      displayStatusBar clearLine "1 done".toList 0 [] [] = clearLine ++ content ++ ['\r'] :=
  ⟨no_status_line_before_progress.1 _ [] (by decide) (by decide!),
   by decide!,
   no_status_line_before_progress.2.2 "1 done".toList [] [] 0 (le_refl _) (by decide)⟩

/-! ## Captured texts are parts of the line -/

theorem run_caps_isInfix (r : Regex) : ∀ (inp : List Char) (cs : Caps) (st : List Char × Caps),
    st ∈ r.run inp cs → ∀ p ∈ st.2, p ∈ cs ∨ p.2 <:+: inp := by
  induction r with
  | char c =>
    intro inp cs st h p hp
    cases inp with
    | nil => simp [Regex.run] at h
    | cons x xs =>
      simp only [Regex.run] at h
      split at h
      · simp at h; subst h; exact Or.inl hp
      · simp at h
  | cls q =>
    intro inp cs st h p hp
    cases inp with
    | nil => simp [Regex.run] at h
    | cons x xs =>
      simp only [Regex.run] at h
      split at h
      · simp at h; subst h; exact Or.inl hp
      · simp at h
  | plus q =>
    intro inp cs st h p hp
    simp only [Regex.run, List.mem_map] at h
    obtain ⟨x, _, rfl⟩ := h
    exact Or.inl hp
  | cat r s ihr ihs =>
    intro inp cs st h p hp
    simp only [Regex.run, List.mem_flatMap] at h
    obtain ⟨mid, hmid, hst⟩ := h
    obtain ⟨w, _, hw⟩ := run_sound r inp cs mid hmid
    rcases ihs _ _ _ hst p hp with h1 | h1
    · exact ihr _ _ _ hmid p h1
    · right
      rw [hw]
      exact h1.trans (List.suffix_append w mid.1).isInfix
  | alt r s ihr ihs =>
    intro inp cs st h p hp
    simp only [Regex.run, List.mem_append] at h
    rcases h with h | h
    · exact ihr _ _ _ h p hp
    · exact ihs _ _ _ h p hp
  | group i r ih =>
    intro inp cs st h p hp
    simp only [Regex.run, List.mem_map] at h
    obtain ⟨x, hx, rfl⟩ := h
    rcases List.mem_cons.1 hp with rfl | hp
    · right
      exact (List.take_prefix _ _).isInfix
    · exact ih _ _ _ hx p hp

theorem mem_of_lookup (k : Nat) (v : List Char) (cs : Caps) (h : cs.lookup k = some v) :
    (k, v) ∈ cs := by
  induction cs with
  | nil => simp [List.lookup] at h
  | cons a t ih =>
    obtain ⟨a1, a2⟩ := a
    by_cases hk : k = a1
    · subst hk
      simp only [List.lookup, beq_self_eq_true, Option.some.injEq] at h
      subst h
      exact List.mem_cons_self _ _
    · have : (k == a1) = false := by simpa using hk
      simp only [List.lookup, this] at h
      exact List.mem_cons_of_mem _ (ih h)

theorem matchAt_isInfix (re : Regex) (s : List Char) (m : List (List Char))
    (h : re.matchAt s = some m) : ∀ t ∈ m, t <:+: s := by
  unfold Regex.matchAt at h
  cases hrun : re.run s [] with
  | nil => simp [hrun] at h
  | cons st l =>
    simp only [hrun, Option.some.injEq] at h
    subst h
    intro t ht
    rcases List.mem_cons.1 ht with rfl | ht
    · exact (List.take_prefix _ _).isInfix
    · obtain ⟨i, _, rfl⟩ := List.mem_map.1 ht
      cases hl : st.2.lookup (i + 1) with
      | none => exact ⟨[], s, by simp⟩
      | some v =>
        have hmem := mem_of_lookup _ _ _ hl
        have hst : st ∈ re.run s [] := by rw [hrun]; exact List.mem_cons_self _ _
        rcases run_caps_isInfix re s [] st hst _ hmem with h1 | h1
        · simp at h1
        · simpa using h1

/-- Every text of a match is a part of the text searched. -/
theorem findStringSubmatch_isInfix (re : Regex) (s : List Char) :
    ∀ t ∈ FindStringSubmatch re s, t <:+: s := by
  induction s with
  | nil =>
    simp only [FindStringSubmatch]
    cases hm : re.matchAt [] with
    | none => simp
    | some m => simpa using matchAt_isInfix re [] m hm
  | cons c u ih =>
    simp only [FindStringSubmatch]
    cases hm : re.matchAt (c :: u) with
    | none =>
      intro t ht
      exact (ih t ht).trans (List.suffix_cons c u).isInfix
    | some m => simpa using matchAt_isInfix re _ m hm

theorem not_mem_of_isInfix (c : Char) (t s : List Char) (h : t <:+: s) (hc : c ∉ s) : c ∉ t :=
  fun ht => hc (h.subset ht)

/-- The events of a line without line feed hold no line feed. -/
theorem processLine_noLineFeed (isStderr : Bool) (line : List Char) (u : StatusUpdate)
    (hnl : '\n' ∉ line) (hu : processLine isStderr line = some u) : u.NoLineFeed := by
  have hnil : '\n' ∉ ([] : List Char) := List.not_mem_nil _
  by_cases h0 : "Starting Nmap".toList <:+: line
  · rw [processLine_start isStderr line h0] at hu
    exact absurd hu (by simp)
  by_cases h1 : "Stats:".toList <:+: line
  · rcases findStringSubmatch_stats_cases line with hf | ⟨w, info, hf⟩
    · rw [processLine_stats_none isStderr line h1 hf] at hu
      exact absurd hu (by simp)
    · rw [processLine_stats_some isStderr line w info [] h0 h1 hf, Option.some.injEq] at hu
      subst hu
      have hi := findStringSubmatch_isInfix statsRegex line info (by rw [hf]; simp)
      exact ⟨not_mem_of_isInfix _ _ _ hi hnl, hnil, hnil, hnil, hnil, hnil, hnil⟩
  by_cases h2 : "Timing:".toList <:+: line
  · rcases findStringSubmatch_three_cases timingRegex numGroups_timing line with
      hf | ⟨w, a, b, c, hf⟩
    · rw [processLine_timing_none isStderr line h1 h2 hf] at hu
      exact absurd hu (by simp)
    · rw [processLine_timing_some isStderr line w a b c [] h0 h1 h2 hf,
        Option.some.injEq] at hu
      subst hu
      have hb := findStringSubmatch_isInfix timingRegex line b (by rw [hf]; simp)
      have hc := findStringSubmatch_isInfix timingRegex line c (by rw [hf]; simp)
      exact ⟨hnil, not_mem_of_isInfix _ _ _ hb hnl, not_mem_of_isInfix _ _ _ hc hnl, hnil, hnil,
        hnil, hnil⟩
  · rcases findStringSubmatch_three_cases openPortRegex numGroups_openPort line with
      hf | ⟨w, a, b, c, hf⟩
    · rw [processLine_other_none isStderr line h0 h1 h2 hf, Option.some.injEq] at hu
      subst hu
      exact ⟨hnil, hnil, hnil, hnl, hnil, hnil, hnil⟩
    · rw [processLine_other_some isStderr line w a b c [] h0 h1 h2 hf,
        Option.some.injEq] at hu
      subst hu
      have ha := findStringSubmatch_isInfix openPortRegex line a (by rw [hf]; simp)
      have hb := findStringSubmatch_isInfix openPortRegex line b (by rw [hf]; simp)
      have hc := findStringSubmatch_isInfix openPortRegex line c (by rw [hf]; simp)
      exact ⟨hnil, hnil, hnil, hnl, not_mem_of_isInfix _ _ _ ha hnl,
        not_mem_of_isInfix _ _ _ hb hnl, not_mem_of_isInfix _ _ _ hc hnl⟩

/-! ## Permanent lines -/

theorem count_lineFeed_permanentLine (u : StatusUpdate) (hu : u.NoLineFeed) :
    (permanentLine u).count '\n' = 1 := by
  obtain ⟨_, _, _, h4, h5, h6, h7⟩ := hu
  obtain ⟨k1, k2, k3, k4, _, _, k7⟩ := colors_no_ctrl '\n' (Or.inl rfl)
  have c4 := List.count_eq_zero.2 h4
  have c5 := List.count_eq_zero.2 h5
  have c6 := List.count_eq_zero.2 h6
  have c7 := List.count_eq_zero.2 h7
  have d1 := List.count_eq_zero.2 k1
  have d2 := List.count_eq_zero.2 k2
  have d3 := List.count_eq_zero.2 k3
  have d4 := List.count_eq_zero.2 k4
  have d7 := List.count_eq_zero.2 k7
  have e1 : List.count '\n' "\n".toList = 1 := by decide
  have e2 : List.count '\n' "/".toList = 0 := by decide
  have e3 : List.count '\n' " open ".toList = 0 := by decide
  unfold permanentLine
  split_ifs <;> simp only [List.count_append, c4, c5, c6, c7, d1, d2, d3, d4, d7, e1, e2, e3]

theorem displayFrom_count_lineFeed (l : List StatusUpdate) (s : DisplayState)
    (hs : '\n' ∉ s.lastStats) (he : '\n' ∉ s.lastETC) (hr : '\n' ∉ s.lastRemaining)
    (hl : ∀ u ∈ l, u.NoLineFeed) :
    (displayFrom s l).2.count '\n' =
      (l.filter (fun u => u.Type_ = "output".toList)).length := by
  induction l generalizing s with
  | nil => rfl
  | cons u l ih =>
    have hl' : ∀ v ∈ l, v.NoLineFeed := fun v hv => hl v (List.mem_cons_of_mem _ hv)
    obtain ⟨u1, u2, u3, _⟩ := hl u (List.mem_cons_self _ _)
    have hcl : List.count '\n' clearLine = 0 := by decide
    simp only [displayFrom, List.count_append]
    by_cases t1 : u.Type_ = "stats".toList
    · have t3 : ¬ u.Type_ = "output".toList := by rw [t1]; decide
      have e2 : (displayUpdate s u).2.count '\n' = 0 := by
        rw [displayUpdate_stats_written _ _ t1]
        exact List.count_eq_zero.2 (displayStatusBar_no_lineFeed _ _ _ _ u1 he hr)
      rw [e2, displayUpdate_stats _ _ t1, List.filter_cons_of_neg (by simpa using t3),
        Nat.zero_add]
      exact ih { s with lastStats := u.StatsInfo } u1 he hr hl'
    · by_cases t2 : u.Type_ = "timing".toList
      · have t3 : ¬ u.Type_ = "output".toList := by rw [t2]; decide
        have e2 : (displayUpdate s u).2.count '\n' = 0 := by
          rw [displayUpdate_timing_written _ _ t2]
          exact List.count_eq_zero.2 (displayStatusBar_no_lineFeed _ _ _ _ hs u2 u3)
        rw [e2, displayUpdate_timing _ _ t2, List.filter_cons_of_neg (by simpa using t3),
          Nat.zero_add]
        exact ih { s with lastPercent := u.Percent, lastETC := u.ETC,
                          lastRemaining := u.Remaining } hs u2 u3 hl'
      · by_cases t3 : u.Type_ = "output".toList
        · have e2 : (displayUpdate s u).2.count '\n' = 1 := by
            rw [displayUpdate_output_written _ _ t3, List.count_append, List.count_append,
              hcl, count_lineFeed_permanentLine u (hl u (List.mem_cons_self _ _)),
              List.count_eq_zero.2 (displayStatusBar_no_lineFeed _ _ _ _ hs he hr)]
          rw [e2, displayUpdate_other _ _ t1 t2, List.filter_cons_of_pos (by simpa using t3),
            List.length_cons, ih s hs he hr hl', Nat.add_comm]
        · rw [displayUpdate_other_written _ _ t1 t2 t3, displayUpdate_other _ _ t1 t2,
            List.filter_cons_of_neg (by simpa using t3)]
          simpa using ih s hs he hr hl'

/-- C12. Permanent-line presentation priority: for an output event `displayStatusUpdates`
leaves its variables unchanged and writes the erase sequence, then one permanent line ending
in a line feed, then the status line drawn from the unchanged variables. The permanent line
is, by priority, the whole Output text in yellow when WarningLine is set (also when the event
is an open port or from stderr); else, when OpenPort is set, the text rebuilt from PortInfo as
Port "/" Protocol " open " Service with Port/Protocol in green and Service in bold; else, when
IsStderr is set, the whole Output text in red; else the Output text unstyled. Hence, for
events whose texts hold no line feed (as those of scanned lines do), the number of line feeds
written equals the number of output events processed. -/
theorem permanent_line_priority :
    (∀ (s : DisplayState) (u : StatusUpdate), u.Type_ = "output".toList →
      (displayUpdate s u).1 = s ∧
      ∃ line, (displayUpdate s u).2 =
          clearLine ++ line ++
            displayStatusBar clearLine s.lastStats s.lastPercent s.lastETC s.lastRemaining ∧
        (u.WarningLine = true →
          line = colorYellow ++ u.Output ++ colorReset ++ "\n".toList) ∧
        (u.WarningLine = false → u.OpenPort = true →
          line = colorGreen ++ u.PortInfo.Port ++ "/".toList ++ u.PortInfo.Protocol ++
            colorReset ++ " open ".toList ++ colorBold ++ u.PortInfo.Service ++ colorReset ++
            "\n".toList) ∧
        (u.WarningLine = false → u.OpenPort = false → u.IsStderr = true →
          line = colorRed ++ u.Output ++ colorReset ++ "\n".toList) ∧
        (u.WarningLine = false → u.OpenPort = false → u.IsStderr = false →
          line = u.Output ++ "\n".toList)) ∧
    (∀ updates : List StatusUpdate, (∀ u ∈ updates, u.NoLineFeed) →
      (displayStatusUpdates updates).2.count '\n' =
        (updates.filter (fun u => u.Type_ = "output".toList)).length) ∧
    (∀ (isStderr : Bool) (line : List Char) (u : StatusUpdate), '\n' ∉ line →
      processLine isStderr line = some u → u.NoLineFeed) := by
  refine ⟨?_, ?_, processLine_noLineFeed⟩
  · intro s u h
    refine ⟨displayUpdate_other s u (by rw [h]; decide) (by rw [h]; decide),
      permanentLine u, displayUpdate_output_written s u h, ?_, ?_, ?_, ?_⟩
    · intro h1
      simp only [permanentLine, h1, if_true]
    · intro h1 h2
      simp only [permanentLine, h1, h2, if_true, if_false, Bool.false_eq_true]
    · intro h1 h2 h3
      simp only [permanentLine, h1, h2, h3, if_true, if_false, Bool.false_eq_true]
    · intro h1 h2 h3
      simp only [permanentLine, h1, h2, h3, if_false, Bool.false_eq_true]
  · intro updates h
    exact displayFrom_count_lineFeed updates {} (List.not_mem_nil _) (List.not_mem_nil _)
      (List.not_mem_nil _) h

/-- Witness for C12: a warning that is also an open port on stderr is written whole in
yellow; an open port is rebuilt from its PortInfo; three events, two of them output, give two
line feeds. -/
theorem permanent_line_priority_witness :
    (displayUpdate {}
      { Type_ := "output".toList, Output := "WARNING 80/tcp  open  http".toList,
        IsStderr := true, WarningLine := true, OpenPort := true,
        PortInfo := { Port := "80".toList, Protocol := "tcp".toList,
                      Service := "http".toList } }) =
      ({}, "\r\x1b[K\x1b[33mWARNING 80/tcp  open  http\x1b[0m\n".toList) ∧
    (displayUpdate {}
      { Type_ := "output".toList, Output := "80/tcp  open  http".toList,
        IsStderr := true, OpenPort := true,
        PortInfo := { Port := "80".toList, Protocol := "tcp".toList,
                      Service := "http".toList } }) =
      ({}, "\r\x1b[K\x1b[32m80/tcp\x1b[0m open \x1b[1mhttp\x1b[0m\n".toList) ∧
    (displayUpdate {} { Type_ := "output".toList, Output := "x".toList }).1 = {} ∧
    (displayStatusUpdates
      [{ Type_ := "output".toList, Output := "Host is up.".toList },
       { Type_ := "stats".toList, StatsInfo := "1 done".toList },
       { Type_ := "output".toList, Output := "failed".toList, IsStderr := true }]).2.count '\n' =
      ([{ Type_ := "output".toList, Output := "Host is up.".toList },
       { Type_ := "stats".toList, StatsInfo := "1 done".toList },
       { Type_ := "output".toList, Output := "failed".toList, IsStderr := true }].filter
        (fun u : StatusUpdate => u.Type_ = "output".toList)).length :=
  ⟨by decide!, by decide!,
   (permanent_line_priority.1 {} { Type_ := "output".toList, Output := "x".toList }
      (by decide)).1,
   permanent_line_priority.2.1 _ (by decide)⟩

/-! ## Rounding stays below a bound that is a small whole number -/

theorem bitLen_zero (fuel : Nat) : bitLen fuel 0 = 0 := by
  cases fuel <;> simp [bitLen]

theorem bitLen_spec (fuel : Nat) : ∀ n, n ≤ fuel →
    n < 2 ^ bitLen fuel n ∧ (0 < n → 2 ^ (bitLen fuel n - 1) ≤ n) := by
  induction fuel with
  | zero =>
    intro n hn
    have : n = 0 := Nat.le_zero.1 hn
    subst this
    simp [bitLen]
  | succ fuel ih =>
    intro n hn
    by_cases h0 : n = 0
    · subst h0
      simp [bitLen]
    · have hhalf : n / 2 ≤ fuel := by omega
      obtain ⟨h1, h2⟩ := ih (n / 2) hhalf
      simp only [bitLen, h0, if_false, Nat.add_sub_cancel]
      constructor
      · rw [pow_succ]
        omega
      · intro _
        by_cases hz : n / 2 = 0
        · rw [hz, bitLen_zero]
          simp
          omega
        · have h3 := h2 (Nat.pos_of_ne_zero hz)
          have hb : 0 < bitLen fuel (n / 2) := by
            by_contra hb
            have : bitLen fuel (n / 2) = 0 := by omega
            rw [this] at h1
            simp at h1
            exact hz h1
          have : 2 ^ bitLen fuel (n / 2) = 2 ^ (bitLen fuel (n / 2) - 1) * 2 := by
            rw [← pow_succ]
            congr 1
            omega
          omega

theorem roundHalfEven_le (n d C : Nat) (hd : 0 < d) (h : n ≤ C * d) :
    roundHalfEven n d ≤ C := by
  have hdm := Nat.div_add_mod n d
  have hq : n / d ≤ C := Nat.div_le_of_le_mul (by rw [Nat.mul_comm]; exact h)
  have hq1 : 0 < n % d → n / d + 1 ≤ C := by
    intro hr
    have : d * (n / d) < d * C := by
      rw [Nat.mul_comm d C]
      omega
    exact Nat.lt_of_mul_lt_mul_left this
  unfold roundHalfEven
  simp only
  split_ifs
  · exact hq
  · exact hq1 (by omega)
  · exact hq
  · exact hq1 (by omega)

/-- The exponent found in `roundFloat64` is not above the value. -/
theorem exponent_le (n d : Nat) (hn : n ≠ 0) (k : Nat)
    (hk : (k : Int) ≤
      (if (scaleFrac n d ((bitLen n n : Int) - (bitLen d d : Int))).2 ≤
          (scaleFrac n d ((bitLen n n : Int) - (bitLen d d : Int))).1
        then (bitLen n n : Int) - (bitLen d d : Int)
        else (bitLen n n : Int) - (bitLen d d : Int) - 1)) :
    d * 2 ^ k ≤ n := by
  obtain ⟨hn1, hn2⟩ := bitLen_spec n n (le_refl _)
  obtain ⟨hd1, _⟩ := bitLen_spec d d (le_refl _)
  have hn2' := hn2 (Nat.pos_of_ne_zero hn)
  split_ifs at hk with hs
  · have he0 : (0 : Int) ≤ (bitLen n n : Int) - (bitLen d d : Int) := by omega
    simp only [scaleFrac, he0, if_true] at hs
    have hkle : k ≤ ((bitLen n n : Int) - (bitLen d d : Int)).toNat := by omega
    calc d * 2 ^ k ≤ d * 2 ^ ((bitLen n n : Int) - (bitLen d d : Int)).toNat :=
          Nat.mul_le_mul_left _ (Nat.pow_le_pow_right (by decide) hkle)
      _ ≤ n := hs
  · have hkle : k + bitLen d d + 1 ≤ bitLen n n := by omega
    have h1 : d * 2 ^ k < 2 ^ bitLen d d * 2 ^ k :=
      Nat.mul_lt_mul_of_pos_right hd1 (Nat.pow_pos (by decide))
    have h2 : 2 ^ bitLen d d * 2 ^ k ≤ 2 ^ (bitLen n n - 1) := by
      rw [← pow_add]
      exact Nat.pow_le_pow_right (by decide) (by omega)
    omega

/-- Rounding to binary64 does not pass a whole number below `2 ^ 52`. -/
theorem roundFloat64_le (n d C : Nat) (hd : 0 < d) (hC : C < 2 ^ 52) (h : n ≤ C * d) :
    (roundFloat64 n d).getD 0 ≤ (C : ℚ) := by
  unfold roundFloat64
  by_cases hn : n = 0
  · simp only [hn, if_true, Option.getD_some]
    exact Nat.cast_nonneg C
  · simp only [hn, if_false]
    have hlt : (if (scaleFrac n d ((bitLen n n : Int) - (bitLen d d : Int))).2 ≤
          (scaleFrac n d ((bitLen n n : Int) - (bitLen d d : Int))).1
        then (bitLen n n : Int) - (bitLen d d : Int)
        else (bitLen n n : Int) - (bitLen d d : Int) - 1) < 52 := by
      by_contra hge
      have := exponent_le n d hn 52 (by push_neg at hge; exact_mod_cast hge)
      have h3 : d * 2 ^ 52 ≤ C * d := le_trans this h
      have h4 : d * 2 ^ 52 ≤ d * C := by rw [Nat.mul_comm d C]; exact h3
      have := Nat.le_of_mul_le_mul_left h4 hd
      omega
    generalize (if (scaleFrac n d ((bitLen n n : Int) - (bitLen d d : Int))).2 ≤
          (scaleFrac n d ((bitLen n n : Int) - (bitLen d d : Int))).1
        then (bitLen n n : Int) - (bitLen d d : Int)
        else (bitLen n n : Int) - (bitLen d d : Int) - 1) = e at hlt
    have hqe : max (e - 52) (-1074) < 0 := max_lt (by omega) (by decide)
    generalize max (e - 52) (-1074) = qe at hqe
    have hnot : ¬ (0 ≤ qe ∧ 2 ^ 1024 ≤ roundHalfEven (scaleFrac n d qe).1 (scaleFrac n d qe).2 *
        2 ^ qe.toNat) := fun hh => by omega
    rw [if_neg hnot, Option.getD_some]
    have hsc : scaleFrac n d qe = (n * 2 ^ (-qe).toNat, d) := by
      simp only [scaleFrac, not_le.2 hqe, if_false]
    rw [hsc]
    have hm : roundHalfEven (n * 2 ^ (-qe).toNat) d ≤ C * 2 ^ (-qe).toNat := by
      apply roundHalfEven_le _ _ _ hd
      calc n * 2 ^ (-qe).toNat ≤ C * d * 2 ^ (-qe).toNat := Nat.mul_le_mul_right _ h
        _ = C * 2 ^ (-qe).toNat * d := by ring
    have hq : qe = -((-qe).toNat : Int) := by omega
    have hmq : ((roundHalfEven (n * 2 ^ (-qe).toNat) d : ℕ) : ℚ) ≤ (C : ℚ) * 2 ^ (-qe).toNat := by
      exact_mod_cast hm
    rw [hq, zpow_neg, zpow_natCast]
    simp only [Int.toNat_neg_nat, neg_neg, Int.toNat_ofNat]
    have h2 : (0 : ℚ) < 2 ^ (-qe).toNat := by positivity
    rw [← div_eq_mul_inv, div_le_iff₀ h2]
    exact hmq

theorem roundQ_nonneg (q : ℚ) (hq : 0 ≤ q) : 0 ≤ roundQ q := by
  unfold roundQ
  rw [if_pos hq]
  exact roundFloat64_nonneg _ _

theorem natAbs_le_of_le (q : ℚ) (C : Nat) (h0 : 0 ≤ q) (h : q ≤ C) :
    q.num.natAbs ≤ C * q.den := by
  have hden : (0 : ℚ) < q.den := by exact_mod_cast q.den_pos
  have h1 : (q.num : ℚ) = q * q.den := (Rat.mul_den_eq_num q).symm
  have h2 : (q.num : ℚ) ≤ (C : ℚ) * q.den := by
    rw [h1]
    exact mul_le_mul_of_nonneg_right h (le_of_lt hden)
  have h3 : q.num ≤ (C : Int) * (q.den : Int) := by exact_mod_cast h2
  have h4 : 0 ≤ q.num := Rat.num_nonneg.2 h0
  omega

theorem roundQ_le (q : ℚ) (C : Nat) (h0 : 0 ≤ q) (h : q ≤ C) (hC : C < 2 ^ 52) :
    roundQ q ≤ C := by
  unfold roundQ
  rw [if_pos h0]
  exact roundFloat64_le _ _ C q.den_pos hC (natAbs_le_of_le q C h0 h)

theorem truncToInt_bounds (x : Float64) (C : Nat) (hC : C < 2 ^ 63) (h0 : 0 ≤ x)
    (h : x ≤ C) : 0 ≤ truncToInt x ∧ truncToInt x ≤ C := by
  have hnum : 0 ≤ x.num := Rat.num_nonneg.2 h0
  have hle := natAbs_le_of_le x C h0 h
  have hden : (0 : Int) < x.den := by exact_mod_cast x.den_pos
  have t0 : 0 ≤ x.num.tdiv x.den := by
    rw [Int.tdiv_eq_ediv hnum (le_of_lt hden)]
    exact Int.ediv_nonneg hnum (le_of_lt hden)
  have t1 : x.num.tdiv x.den ≤ C := by
    rw [Int.tdiv_eq_ediv hnum (le_of_lt hden)]
    apply Int.ediv_le_of_le_mul hden
    omega
  have hC' : ((C : Nat) : Int) < 2 ^ 63 := by exact_mod_cast hC
  have hr : -2 ^ 63 ≤ x.num.tdiv x.den ∧ x.num.tdiv x.den < 2 ^ 63 :=
    ⟨le_trans (by norm_num) t0, lt_of_le_of_lt t1 hC'⟩
  simp only [truncToInt, hr, and_self, if_true]
  exact ⟨t0, t1⟩

/-- The local `progress` of `createColorProgressBar` lies between 0 and 20 for a percentage
between 0 and 100. -/
theorem progress_bounds (percent : Float64) (h0 : 0 ≤ percent) (h100 : percent ≤ 100) :
    0 ≤ truncToInt (roundQ (roundQ (percent / 100) * ((20 : ℕ) : ℚ))) ∧
      truncToInt (roundQ (roundQ (percent / 100) * ((20 : ℕ) : ℚ))) ≤ 20 := by
  have a0 : 0 ≤ percent / 100 := div_nonneg h0 (by norm_num)
  have a1 : percent / 100 ≤ ((1 : ℕ) : ℚ) := by
    rw [Nat.cast_one, div_le_one (by norm_num)]
    exact h100
  have b0 := roundQ_nonneg _ a0
  have b1 := roundQ_le _ 1 a0 a1 (by norm_num)
  have c0 : 0 ≤ roundQ (percent / 100) * ((20 : ℕ) : ℚ) := mul_nonneg b0 (by norm_num)
  have c1 : roundQ (percent / 100) * ((20 : ℕ) : ℚ) ≤ ((20 : ℕ) : ℚ) := by
    have : roundQ (percent / 100) ≤ 1 := by simpa using b1
    calc roundQ (percent / 100) * ((20 : ℕ) : ℚ) ≤ 1 * ((20 : ℕ) : ℚ) :=
          mul_le_mul_of_nonneg_right this (by norm_num)
      _ = ((20 : ℕ) : ℚ) := one_mul _
  have d0 := roundQ_nonneg _ c0
  have d1 := roundQ_le _ 20 c0 c1 (by norm_num)
  exact truncToInt_bounds _ 20 (by norm_num) d0 d1

/-! ## The progress bar -/

theorem cells_eq {α : Type} (F M B : α) (n : Nat) (hn : n ≤ 20) :
    (List.range 20).map (fun i : Nat =>
        if (i : Int) < (n : Int) then F else if (i : Int) = (n : Int) then M else B) =
      List.replicate n F ++ (if n < 20 then M :: List.replicate (19 - n) B else []) := by
  interval_cases n <;> rfl

theorem createColorProgressBar_eq (percent : Float64) :
    createColorProgressBar percent =
      "[".toList ++
        ((List.range 20).map (fun i : Nat =>
          if (i : Int) < barProgress percent then filledCell
          else if (i : Int) = barProgress percent then markerCell else blankCell)).flatten ++
        "]".toList := by
  simp only [createColorProgressBar, barProgress, filledCell, markerCell, blankCell,
    List.flatMap, List.flatten]

/-- C13 (as amended). Progress bar shape: for every percent in [0, 100],
`createColorProgressBar` returns "[" followed by exactly 20 cells and "]", where with k the
value of `int((percent/100.0)*20)` as float64 arithmetic gives it, 0 ≤ k ≤ 20, the first k
cells are filled ("=") cells, the cell at index k (when k < 20) is the single in-progress
marker (">"), and every later cell is a blank. The bar is fixed-width for every input: "[",
20 cells, each a filled cell, the marker or a blank, and "]". Percent 0 gives k = 0 and the
marker in cell 0, and percent 100 gives k = 20, twenty filled cells and no marker. -/
theorem progress_bar_shape :
    (∀ percent : Float64, 0 ≤ percent → percent ≤ 100 →
      ∃ k : Nat, k ≤ 20 ∧ (k : Int) = barProgress percent ∧
        createColorProgressBar percent =
          "[".toList ++
            (List.replicate k filledCell ++
              (if k < 20 then markerCell :: List.replicate (19 - k) blankCell else [])).flatten ++
            "]".toList) ∧
    (∀ percent : Float64,
      ∃ cells : List (List Char), cells.length = 20 ∧
        createColorProgressBar percent = "[".toList ++ cells.flatten ++ "]".toList ∧
        ∀ cell ∈ cells, cell = filledCell ∨ cell = markerCell ∨ cell = blankCell) ∧
    (barProgress 0 = 0 ∧
      createColorProgressBar 0 =
        "[".toList ++ (markerCell :: List.replicate 19 blankCell).flatten ++ "]".toList) ∧
    (barProgress 100 = 20 ∧
      createColorProgressBar 100 =
        "[".toList ++ (List.replicate 20 filledCell).flatten ++ "]".toList) := by
  refine ⟨?_, ?_, ⟨by decide!, by decide!⟩, ⟨by decide!, by decide!⟩⟩
  · intro percent h0 h100
    obtain ⟨hk0, hk20⟩ := progress_bounds percent h0 h100
    have hk : ((barProgress percent).toNat : Int) = barProgress percent :=
      Int.toNat_of_nonneg hk0
    have hle : (barProgress percent).toNat ≤ 20 := by
      have : barProgress percent ≤ 20 := hk20
      omega
    refine ⟨(barProgress percent).toNat, hle, hk, ?_⟩
    rw [createColorProgressBar_eq, ← cells_eq filledCell markerCell blankCell _ hle, hk]
  · intro percent
    refine ⟨_, ?_, createColorProgressBar_eq percent, ?_⟩
    · simp
    · intro cell hc
      obtain ⟨i, _, hi⟩ := List.mem_map.1 hc
      rw [← hi]
      split_ifs
      · exact Or.inl rfl
      · exact Or.inr (Or.inl rfl)
      · exact Or.inr (Or.inr rfl)

/-- Witness for C13: the bar for 42.5 percent has 8 filled cells, the marker and 11
blanks. -/
theorem progress_bar_shape_witness :
    (∃ k : Nat, k ≤ 20 ∧ (k : Int) = barProgress (85 / 2) ∧
        createColorProgressBar (85 / 2) =
          "[".toList ++
            (List.replicate k filledCell ++
              (if k < 20 then markerCell :: List.replicate (19 - k) blankCell else [])).flatten ++
            "]".toList) ∧
    barProgress (85 / 2) = 8 ∧
    createColorProgressBar (85 / 2) =
      "[".toList ++
        (List.replicate 8 filledCell ++ markerCell :: List.replicate 11 blankCell).flatten ++
        "]".toList :=
  ⟨progress_bar_shape.1 (85 / 2) (by decide!) (by decide!), by decide!, by decide!⟩

/-- Counterexample to C13 as stated: the float64 nearest to 14.999999999999998, which
`processLine` reads from a line reporting that percentage, lies in [0, 100] and
floor(percent/100 * 20) is 2, yet the bar has 3 filled cells and the marker in cell 3:
dividing by 100 and multiplying by 20 in float64 arithmetic gives exactly 3. -/
theorem progress_bar_counterexample :
    scanPercent "14.999999999999998".toList = 8444249301319679 / 562949953421312 ∧
    (0 : ℚ) ≤ 8444249301319679 / 562949953421312 ∧
    (8444249301319679 / 562949953421312 : ℚ) ≤ 100 ∧
    ⌊(8444249301319679 / 562949953421312 : ℚ) / 100 * 20⌋ = 2 ∧
    barProgress (8444249301319679 / 562949953421312) = 3 ∧
    createColorProgressBar (8444249301319679 / 562949953421312) =
      "[".toList ++
        (List.replicate 3 filledCell ++ markerCell :: List.replicate 16 blankCell).flatten ++
        "]".toList ∧
    createColorProgressBar (8444249301319679 / 562949953421312) ≠
      "[".toList ++
        (List.replicate 2 filledCell ++ markerCell :: List.replicate 17 blankCell).flatten ++
        "]".toList := by
  decide!

/-! ## Order and completion of a stream pump -/

theorem processOutputSends_eq (isStderr : Bool) (lines : List (List Char)) :
    processOutputSends isStderr lines =
      (lines.filterMap (processLine isStderr)).map Send.statusChan ++ [Send.done true] := by
  induction lines with
  | nil => rfl
  | cons line rest ih =>
    cases h : processLine isStderr line with
    | none => simp only [processOutputSends, h, List.filterMap_cons_none h, ih]
    | some update =>
      simp only [processOutputSends, h, List.filterMap_cons_some h, ih, List.map_cons,
        List.cons_append]

theorem filterMap_eq_flatten_toList {α β : Type} (f : α → Option β) (l : List α) :
    l.filterMap f = (l.map (fun a => (f a).toList)).flatten := by
  induction l with
  | nil => rfl
  | cons a rest ih =>
    cases h : f a with
    | none => simp [List.filterMap_cons, h, ih]
    | some b => simp [List.filterMap_cons, h, ih]

theorem filter_isStatus (events : List StatusUpdate) (tail : List Bool) :
    (events.map Send.statusChan ++ tail.map Send.done).filter Send.isStatus =
      events.map Send.statusChan := by
  induction events with
  | nil =>
    induction tail with
    | nil => rfl
    | cons b rest ih => simpa [List.filter_cons, Send.isStatus] using ih
  | cons u rest ih => simpa [List.filter_cons, Send.isStatus] using ih

theorem count_done (events : List StatusUpdate) :
    (events.map Send.statusChan ++ [Send.done true]).countP (fun s => !s.isStatus) = 1 := by
  induction events with
  | nil => rfl
  | cons u rest ih => simp [List.countP_cons, Send.isStatus]

/-- C16. Stream pump order and completion: for every finite sequence of lines read from one
stream, what `processOutput` sends on the event channel is exactly the in-order
concatenation of the per-line results of the loop body, each of which is zero or one event
(so never more events than lines), followed by exactly one send on the completion channel,
the value true, which is its last send; the same holds for the empty stream and for a stream
whose lines are all suppressed, where the completion signal is the only send. -/
theorem pump_order_and_completion (isStderr : Bool) (lines : List (List Char)) :
    processOutputSends isStderr lines =
      ((lines.map (fun line => (processLine isStderr line).toList)).flatten).map
        Send.statusChan ++ [Send.done true] ∧
    (∀ line : List Char, (processLine isStderr line).toList.length ≤ 1) ∧
    ((processOutputSends isStderr lines).filter Send.isStatus).length ≤ lines.length ∧
    (processOutputSends isStderr lines).countP (fun s => !s.isStatus) = 1 ∧
    (processOutputSends isStderr lines).getLast? = some (Send.done true) ∧
    processOutputSends isStderr [] = [Send.done true] ∧
    ((lines.all fun line => (processLine isStderr line).isNone) = true →
      processOutputSends isStderr lines = [Send.done true]) ∧
    processOutputSends isStderr lines =
      (processOutput lines isStderr).1.map Send.statusChan ++
        (processOutput lines isStderr).2.map Send.done := by
  have e := processOutputSends_eq isStderr lines
  refine ⟨?_, ?_, ?_, ?_, ?_, rfl, ?_, e⟩
  · rw [e, filterMap_eq_flatten_toList]
  · intro line
    cases processLine isStderr line <;> simp
  · rw [e]
    have := filter_isStatus (lines.filterMap (processLine isStderr)) [true]
    simp only [List.map_cons, List.map_nil] at this
    rw [this, List.length_map]
    exact List.length_filterMap_le _ _
  · rw [e]
    exact count_done _
  · rw [e]
    simp
  · intro h
    rw [e]
    have : lines.filterMap (processLine isStderr) = [] := by
      rw [List.filterMap_eq_nil_iff]
      intro line hl
      have := List.all_eq_true.1 h line hl
      simpa [Option.isNone_iff_eq_none] using this
    rw [this]
    rfl

/-- Witness for C16: a stream of a banner, a statistics line, an unmatched timing line and
a port line gives two events in line order and then the completion signal; a stream of
suppressed lines gives the completion signal alone. -/
theorem pump_order_and_completion_witness :
    processOutputSends false
        ["Starting Nmap 7.94".toList, "Stats: 0:00:05 elapsed".toList, "Timing: soon".toList,
         "80/tcp open http".toList] =
      [Send.statusChan { Type_ := "stats".toList, StatsInfo := "0:00:05 elapsed".toList },
       Send.statusChan
         { Type_ := "output".toList, Output := "80/tcp open http".toList, OpenPort := true,
           PortInfo := { Port := "80".toList, Protocol := "tcp".toList,
                         Service := "http".toList } },
       Send.done true] ∧
    processOutputSends true ["Starting Nmap 7.94".toList, "Timing: soon".toList] =
      [Send.done true] :=
  ⟨by decide!,
   (pump_order_and_completion true ["Starting Nmap 7.94".toList, "Timing: soon".toList]).2.2.2.2.2.2.1
     (by decide!)⟩

/-! ## The function `main`: arguments and exit status -/

theorem hasStatsEvery_iff (args : List (List Char)) :
    hasStatsEvery args = true ↔ ∃ arg ∈ args, "--stats-every".toList <+: arg := by
  induction args with
  | nil => simp [hasStatsEvery]
  | cons arg rest ih =>
    by_cases h : HasPrefix arg "--stats-every".toList = true
    · have hp : "--stats-every".toList <+: arg := List.isPrefixOf_iff_prefix.1 h
      simp only [hasStatsEvery, h, if_true, true_iff]
      exact ⟨arg, List.mem_cons_self _ _, hp⟩
    · have hp : ¬ "--stats-every".toList <+: arg := fun hp =>
        h (List.isPrefixOf_iff_prefix.2 hp)
      simp only [hasStatsEvery, h, if_false, ih, Bool.false_eq_true, List.mem_cons,
        exists_eq_or_imp, hp, false_or]

theorem main_command (args : List (List Char)) (env : Env) (h : args ≠ []) :
    (main args env).command = some (nmapArgs args) := by
  have hl : ¬ args.length = 0 := fun h0 => h (List.length_eq_zero.1 h0)
  simp only [main, hl, if_false]
  cases env.StdoutPipe <;> cases env.StderrPipe <;> cases env.Start <;> rfl

theorem main_started (args : List (List Char)) (env : Env) (h : args ≠ [])
    (h1 : env.StdoutPipe = none) (h2 : env.StderrPipe = none) (h3 : env.Start = none) :
    main args env =
      { command := some (nmapArgs args), started := true, stderr := (waitExit env.Wait).1,
        status := (waitExit env.Wait).2 } := by
  have hl : ¬ args.length = 0 := fun h0 => h (List.length_eq_zero.1 h0)
  simp only [main, hl, if_false, h1, h2, h3]

/-- C20. Argument pass-through in `main`: for every non-empty argument list args, whatever
the later calls return, the argument list given to the command "nmap" is args itself,
unchanged and in order, when some element of args has the prefix "--stats-every", and
otherwise is "--stats-every=1s" followed by args unchanged and in order; for the empty
argument list no command is built, no process is started, and the program exits with
status 1. -/
theorem argument_pass_through (args : List (List Char)) (env : Env) :
    (args ≠ [] → (∃ arg ∈ args, "--stats-every".toList <+: arg) →
      (main args env).command = some args) ∧
    (args ≠ [] → (¬ ∃ arg ∈ args, "--stats-every".toList <+: arg) →
      (main args env).command = some ("--stats-every=1s".toList :: args)) ∧
    (args = [] →
      (main args env).command = none ∧ (main args env).started = false ∧
        (main args env).status = 1) := by
  refine ⟨?_, ?_, ?_⟩
  · intro h hp
    rw [main_command args env h]
    simp only [nmapArgs, (hasStatsEvery_iff args).2 hp, Bool.not_true, Bool.false_eq_true,
      if_false, List.nil_append]
  · intro h hp
    have hf : hasStatsEvery args = false := by
      cases hq : hasStatsEvery args with
      | false => rfl
      | true => exact absurd ((hasStatsEvery_iff args).1 hq) hp
    rw [main_command args env h]
    simp only [nmapArgs, hf, Bool.not_false, if_true, List.nil_append, List.singleton_append]
  · intro h
    subst h
    exact ⟨rfl, rfl, rfl⟩

/-- Witness for C20: an argument list with its own "--stats-every5s" is passed as it is,
one without gets "--stats-every=1s" in front, and the empty list starts nothing. -/
theorem argument_pass_through_witness :
    (main ["-sV".toList, "--stats-every5s".toList, "host".toList] {}).command =
      some ["-sV".toList, "--stats-every5s".toList, "host".toList] ∧
    (main ["-p".toList, "80".toList, "host".toList] { Start := some "not found".toList }).command =
      some ["--stats-every=1s".toList, "-p".toList, "80".toList, "host".toList] ∧
    ((main [] {}).command = none ∧ (main [] {}).started = false ∧ (main [] {}).status = 1) :=
  ⟨(argument_pass_through ["-sV".toList, "--stats-every5s".toList, "host".toList] {}).1
      (by decide) ⟨"--stats-every5s".toList, by decide, by decide⟩,
   (argument_pass_through ["-p".toList, "80".toList, "host".toList]
      { Start := some "not found".toList }).2.1 (by decide) (by decide),
   (argument_pass_through [] {}).2.2 rfl⟩

/-- C17 (as amended). Exit-status propagation in `main`: once the process is started and
both completion signals are received, if `cmd.Wait()` succeeds the program ends with status
0 and reports nothing; if it fails with an `*exec.ExitError`, the program exits with that
error's `ExitCode()` and reports nothing: exactly c when the process exited with the
non-zero code c, and -1 when a signal terminated the process; if it fails with an error of
any other type, the error is reported on standard error and the program exits with the
fixed status 1. -/
theorem exit_status_propagation (args : List (List Char)) (env : Env) (h : args ≠ [])
    (h1 : env.StdoutPipe = none) (h2 : env.StderrPipe = none) (h3 : env.Start = none) :
    (env.Wait = WaitError.nil →
      (main args env).status = 0 ∧ (main args env).stderr = []) ∧
    (∀ state, env.Wait = WaitError.ExitError state →
      (main args env).status = state.ExitCode ∧ (main args env).stderr = []) ∧
    (∀ c : Nat, c ≠ 0 → env.Wait = WaitError.ExitError (ProcessState.exited c) →
      (main args env).status = (c : Int) ∧ (main args env).stderr = []) ∧
    (∀ signal, env.Wait = WaitError.ExitError (ProcessState.signaled signal) →
      (main args env).status = -1 ∧ (main args env).stderr = []) ∧
    (∀ text, env.Wait = WaitError.other text →
      (main args env).status = 1 ∧
        (main args env).stderr =
          colorRed ++ "Error waiting for nmap: ".toList ++ text ++ colorReset ++
            "\n".toList) := by
  rw [main_started args env h h1 h2 h3]
  refine ⟨?_, ?_, ?_, ?_, ?_⟩
  · intro hw
    rw [hw]
    exact ⟨rfl, rfl⟩
  · intro state hw
    rw [hw]
    exact ⟨rfl, rfl⟩
  · intro c _ hw
    rw [hw]
    exact ⟨rfl, rfl⟩
  · intro signal hw
    rw [hw]
    exact ⟨rfl, rfl⟩
  · intro text hw
    rw [hw]
    exact ⟨rfl, rfl⟩

/-- Witness for C17: the process exits with code 3 and the program exits with 3. -/
theorem exit_status_propagation_witness :
    (main ["host".toList] { Wait := WaitError.ExitError (ProcessState.exited 3) }).status = 3 ∧
    (main ["host".toList] { Wait := WaitError.ExitError (ProcessState.exited 3) }).stderr = [] :=
  (exit_status_propagation ["host".toList]
    { Wait := WaitError.ExitError (ProcessState.exited 3) } (by decide) rfl rfl rfl).2.2.1 3
    (by decide) rfl

/-- Counterexample to C17 as stated: the wait fails because a signal terminated the
process (signal 9), which is not an exit with a non-zero code; the program reports nothing
and exits with -1, not with the fixed status 1. -/
theorem exit_status_counterexample :
    (main ["host".toList] { Wait := WaitError.ExitError (ProcessState.signaled 9) }).started =
      true ∧
    (∀ c : Nat, WaitError.ExitError (ProcessState.signaled 9) ≠
      WaitError.ExitError (ProcessState.exited c)) ∧
    (WaitError.ExitError (ProcessState.signaled 9) ≠ WaitError.nil) ∧
    (main ["host".toList] { Wait := WaitError.ExitError (ProcessState.signaled 9) }).status =
      -1 ∧
    (main ["host".toList] { Wait := WaitError.ExitError (ProcessState.signaled 9) }).status ≠
      1 ∧
    (main ["host".toList] { Wait := WaitError.ExitError (ProcessState.signaled 9) }).stderr =
      [] := by
  refine ⟨rfl, ?_, by decide, rfl, by decide, rfl⟩
  intro c h
  cases h

/-! ## The goroutines: what is sent, what is processed -/

theorem step_exited (g : Goroutine) (s : Sys) (h : s.exited.isSome = true) :
    step g s = none := by
  simp only [step, h, if_true]

theorem step_sent (g : Goroutine) (s t : Sys) (h : step g s = some t)
    (inv : s.sent = s.processed ++ s.statusUpdateChan) :
    t.sent = t.processed ++ t.statusUpdateChan := by
  unfold step at h
  split at h
  · exact absurd h (by simp)
  · split at h
    · split at h
      · split at h
        · split at h
          · cases h
            simp only [inv, List.append_assoc]
          · exact absurd h (by simp)
        · cases h
          exact inv
      · split at h
        · exact absurd h (by simp)
        · cases h
          exact inv
    · split at h
      · split at h
        · split at h
          · cases h
            simp only [inv, List.append_assoc]
          · exact absurd h (by simp)
        · cases h
          exact inv
      · split at h
        · exact absurd h (by simp)
        · cases h
          exact inv
    · split at h
      · rename_i update rest hc
        cases h
        simp only [inv, hc, List.append_assoc, List.singleton_append]
      · exact absurd h (by simp)
    · split at h
      · split at h
        · cases h
          exact inv
        · exact absurd h (by simp)
      · cases h
        exact inv

theorem runSchedule_sent (schedule : List Goroutine) (s t : Sys)
    (h : runSchedule schedule s = some t)
    (inv : s.sent = s.processed ++ s.statusUpdateChan) :
    t.sent = t.processed ++ t.statusUpdateChan := by
  induction schedule generalizing s with
  | nil =>
    simp only [runSchedule, Option.some.injEq] at h
    rw [← h]
    exact inv
  | cons g rest ih =>
    simp only [runSchedule] at h
    cases hs : step g s with
    | none => rw [hs] at h; exact absurd h (by simp)
    | some u =>
      rw [hs] at h
      exact ih u h (step_sent g s u hs inv)

/-- C18 (the code at the failing input). With one Stats line, one Timing line and one port
line on standard output and nothing on standard error, the schedule in which the stdout
pump sends its three events and its completion signal, the stderr pump sends its completion
signal, and `main` receives both signals and ends the program is a run of the program: it
exits with status 0 while all three events sent are still in the buffer of the event
channel, none processed, nothing written, the display state at its zero values, and no
goroutine moves after the exit. Under the schedule in which the renderer receives the three
events before `main` ends the program, all events sent are processed, `lastStats` and
`lastPercent` are set, and exactly one line feed (one permanent line) is written. -/
theorem events_unprocessed_at_exit :
    (∃ t : Sys,
      runSchedule
        [Goroutine.stdoutPump, Goroutine.stdoutPump, Goroutine.stdoutPump,
         Goroutine.stdoutPump, Goroutine.stderrPump, Goroutine.main, Goroutine.main,
         Goroutine.main]
        { stdout := ["Stats: 0:00:05 elapsed; 0 hosts completed".toList,
                     "SYN Stealth Scan Timing: About 42.50% done; ETC: 12:00 (0:00:10 remaining)".toList,
                     "80/tcp open http".toList] } = some t ∧
      t.exited = some 0 ∧ t.stdout = [] ∧ t.received = 2 ∧ t.sent.length = 3 ∧
      t.statusUpdateChan = t.sent ∧ t.processed = [] ∧ t.written = [] ∧ t.display = {} ∧
      ∀ g : Goroutine, step g t = none) ∧
    (∃ t : Sys,
      runSchedule
        [Goroutine.stdoutPump, Goroutine.stdoutPump, Goroutine.stdoutPump,
         Goroutine.stdoutPump, Goroutine.stderrPump, Goroutine.renderer, Goroutine.renderer,
         Goroutine.renderer, Goroutine.main, Goroutine.main, Goroutine.main]
        { stdout := ["Stats: 0:00:05 elapsed; 0 hosts completed".toList,
                     "SYN Stealth Scan Timing: About 42.50% done; ETC: 12:00 (0:00:10 remaining)".toList,
                     "80/tcp open http".toList] } = some t ∧
      t.exited = some 0 ∧ t.received = 2 ∧ t.sent.length = 3 ∧ t.statusUpdateChan = [] ∧
      t.processed = t.sent ∧
      t.display.lastStats = "0:00:05 elapsed; 0 hosts completed".toList ∧
      t.display.lastPercent = 85 / 2 ∧ t.written.count '\n' = 1) := by
  constructor
  · refine ⟨_, rfl, by decide!, by decide!, by decide!, by decide!, by decide!, by decide!,
      by decide!, by decide!, ?_⟩
    intro g
    exact step_exited g _ (by decide!)
  · exact ⟨_, rfl, by decide!, by decide!, by decide!, by decide!, by decide!, by decide!,
      by decide!, by decide!⟩

end Nmapify
